import Mathlib

/-!
# Bounded concurrent job scheduler (`foundation/worker/worker.go`)

A shallow embedding of package `worker`.  The `Worker` struct becomes a record,
every goroutine of the program becomes a program counter, and the program as a
whole is a step function on a system state: one event is one atomic action of
one goroutine (a channel operation, a critical section under `w.mu`, a
wait-group operation).  The choices the Go runtime and the environment make
(the ready case a `select` takes, the string `uuid.NewString` returns, the value
of `time.Now`, whether a job body returns or panics) are arguments of the events;
how late the timer of a deadline fires is an argument of `Job.ctxDone`.

The definitions of packages `auth`, `web`, `product`, `commands`, `productdb` and
`userdb` follow those of `worker`; they are pure functions, with the functions and
constants that are declared outside these sources as parameters.  The theorems come
after all the definitions.
-/

namespace worker

/-! ## Values of the Go runtime -/

/-- Error values: the ones built by `errors.New` and `fmt.Errorf`, and the two
sentinel errors a `context.Context` reports from `Err`. -/
inductive GoError where
  | errorsNew (msg : String)
  | canceled
  | deadlineExceeded
  deriving DecidableEq, Repr

/-- The text `Error()` returns. -/
def GoError.msg : GoError → String
  | .errorsNew m => m
  | .canceled => "context canceled"
  | .deadlineExceeded => "context deadline exceeded"

/-- A buffered `chan bool`: its capacity and the values waiting in its buffer, oldest first. -/
structure Chan where
  cap : Nat
  buf : List Bool
  deriving DecidableEq, Repr

/-- The channel `make(chan bool, n)` returns. -/
def Chan.make (n : Nat) : Chan := { cap := n, buf := [] }

/-- Send `c <- v`: `none` when the buffer is full, where the send blocks. -/
def Chan.send (c : Chan) (v : Bool) : Option Chan :=
  if c.buf.length < c.cap then some { c with buf := c.buf ++ [v] } else none

/-- Receive `<-c`: `none` when the buffer is empty, where the receive blocks. -/
def Chan.recv (c : Chan) : Option (Bool × Chan) :=
  match c.buf with
  | [] => none
  | v :: rest => some (v, { c with buf := rest })

/-- The caller's `context.Context` as a call observes it: the result of `Deadline()`
(`none` for `ok = false`) and the result of `Err()` (`none` for `nil`).  The channel
`Done()` is closed exactly when `Err()` is not `nil`. -/
structure Ctx where
  deadline : Option Int
  err : Option GoError
  deriving DecidableEq, Repr

/-- The duration `time.Second`, in nanoseconds. -/
def second : Int := 1000000000

/-- The length of the string `uuid.NewString` returns, the text of a UUID as in
`xxxxxxxx-xxxx-xxxx-xxxx-xxxxxxxxxxxx`. -/
def uuidLength : Nat := 36

/-! ## The running map -/

/-- The assignment `m[k] = v` on a map held as an association list. -/
def mapInsert (m : List (String × Nat)) (k : String) (v : Nat) : List (String × Nat) :=
  (k, v) :: m.filter (fun e => e.1 != k)

/-- The statement `delete(m, k)`. -/
def mapDelete (m : List (String × Nat)) (k : String) : List (String × Nat) :=
  m.filter (fun e => e.1 != k)

/-! ## The Worker -/

/-- The struct `Worker`.  `wg` is the counter of the wait group, `isShutdown` tells
whether the channel of that name has been closed, and `running` maps a work key to
its cancel function, named by the index of the job whose context it cancels.  The
mutex `mu` is not a field: a critical section is one step. -/
structure Worker where
  wg : Int
  sem : Chan
  isShutdown : Bool
  running : List (String × Nat)
  deriving DecidableEq, Repr

/-- The loop `for i := 0; i < maxRunningJobs; i++ { sem <- true }`, by the number of
iterations left. -/
def fillSem : Nat → Chan → Option Chan
  | 0, sem => some sem
  | i + 1, sem => (sem.send true).bind (fillSem i)

/-- The largest size `make(chan bool, size)` accepts: `maxAlloc - hchanSize` of the Go
runtime, for elements of one byte; `maxAlloc` is `1 << 48` and `hchanSize` is 96 on
64-bit Linux.  (Whether the machine has that much memory is not part of the model.) -/
def chanLimit : Nat := 2 ^ 48 - 96

/-- The largest value of the Go type `int`, `math.MaxInt64`. -/
def maxInt : Int := 2 ^ 63 - 1

/-- The statement `make(chan bool, size)`: `none` when the runtime panics with
"makechan: size out of range", for a negative size and for a size over `chanLimit`. -/
def makechan (size : Int) : Option Chan :=
  if size < 0 ∨ (chanLimit : Int) < size then none else some (Chan.make size.toNat)

/-- The constructor `New`.  The result is the Go pair `(*Worker, error)` with `nil` as
`none`; the outer `none` is a call that does not return: `make` panics, or a send of
the loop blocks. -/
def New (maxRunningJobs : Int) : Option (Option Worker × Option GoError) :=
  if maxRunningJobs ≤ 0 then
    some (none, some (.errorsNew "max running jobs must be greater than 0"))
  else
    (makechan maxRunningJobs).bind fun sem =>
      (fillSem maxRunningJobs.toNat sem).map fun sem =>
        (some { wg := 0, sem := sem, isShutdown := false, running := [] }, none)

/-- The method `Running`. -/
def Worker.Running (w : Worker) : Nat := w.running.length

/-! ## Jobs and the system state -/

/-- Where the code that belongs to one admitted `Start` call stands:
the call itself (`acquired`: the select took a unit, lines 93-106; `registered`:
the key is in the running map, line 110; `counted`: `wg.Add(1)` is done, line 114)
and then its goroutine (`executing`: the body `fn(ctx)` runs, line 130; `unwinding`:
the body returned or panicked and the deferred calls start; `cancelDone`: line 124 is
done; `removed`: line 125 is done; `wgDone`: line 126 is done; `exited`: the send of
line 119 is done and the goroutine is over). -/
inductive PC where
  | acquired
  | registered
  | counted
  | executing
  | unwinding
  | cancelDone
  | removed
  | wgDone
  | exited
  deriving DecidableEq, Repr

/-- One admitted `Start` call: the key it drew, the execution context built by
`context.WithDeadline(context.Background(), deadline)` (its deadline, and whether its
cancel function has been called), whether the goroutine is panicking, and the
program counter. -/
structure Job where
  key : String
  deadline : Int
  cancelled : Bool
  panicking : Bool
  pc : PC
  deriving DecidableEq, Repr

/-- The whole program: the worker, the admitted calls in the order of their admission
(a cancel function is the index of its job here), and whether the process has died
of a panic nobody recovered. -/
structure Sys where
  w : Worker
  jobs : List Job
  crashed : Bool
  deriving DecidableEq, Repr

/-- The contexts `Start` has at hand as parent of the execution context of a job:
`context.Background()` and the context of its caller. -/
inductive Parent where
  | background
  | caller
  deriving DecidableEq, Repr

/-- The channel `Done()` of a parent is closed: never for `context.Background()`; for
the context of the caller when its `Err()` is not `nil`. -/
def Parent.done : Parent → Ctx → Bool
  | .background, _ => false
  | .caller, ctx => ctx.err.isSome

/-- Line 106: the first argument of `context.WithDeadline` is `context.Background()`. -/
def execParent : Parent := .background

/-- The execution context of a job, made by `context.WithDeadline(parent, deadline)`,
is done at time `t`: its parent is done, its cancel function was called, or the
deadline has taken effect.  `caller` is the context of the caller as it is at time `t`;
`lateness` is how long after the deadline the deadline takes effect: the runtime fires
the timer of the context at the deadline or later, never before, and a context made
after its deadline is done from its making on. -/
def Job.ctxDone (j : Job) (caller : Ctx) (lateness : Nat) (t : Int) : Bool :=
  execParent.done caller || j.cancelled || decide (j.deadline + lateness ≤ t)

/-- Calling the cancel function `c`. -/
def cancelJob (jobs : List Job) (c : Nat) : List Job :=
  match jobs[c]? with
  | some j => jobs.set c { j with cancelled := true }
  | none => jobs

/-- The job holds a unit of the semaphore: from the receive in the select to the
send of line 119. -/
def Job.holding (j : Job) : Bool := j.pc != .exited

/-- The body of the job is executing. -/
def Job.inBody (j : Job) : Bool := j.pc == .executing

/-- The job is admitted and its body has not returned yet. -/
def Job.admittedNotReturned (j : Job) : Bool :=
  j.pc == .acquired || j.pc == .registered || j.pc == .counted || j.pc == .executing

/-- The job is between `wg.Add(1)` of its `Start` call and `wg.Done()` of its goroutine. -/
def Job.counted (j : Job) : Bool :=
  j.pc == .counted || j.pc == .executing || j.pc == .unwinding || j.pc == .cancelDone
    || j.pc == .removed

/-- The job is between its insertion into the running map and its removal from it. -/
def Job.registeredNow (j : Job) : Bool :=
  j.pc == .registered || j.pc == .counted || j.pc == .executing || j.pc == .unwinding
    || j.pc == .cancelDone

/-! ## Start -/

/-- The cases of the select statement of `Start`, in the order of the source. -/
inductive SelectCase where
  | shutdown
  | ctxDone
  | semRecv
  deriving DecidableEq, Repr

/-- The cases of the select of `Start` that can proceed. -/
def readyCases (w : Worker) (ctx : Ctx) : List SelectCase :=
  (if w.isShutdown then [SelectCase.shutdown] else [])
    ++ (if ctx.err.isSome then [SelectCase.ctxDone] else [])
    ++ (if w.sem.buf.isEmpty then [] else [SelectCase.semRecv])

/-- A select statement without default: among the cases that can proceed the runtime
takes one by a uniform pseudo-random choice, here `pick`; with none it blocks. -/
def goSelect {α : Type} (ready : List α) (pick : Nat) : Option α :=
  ready[pick % ready.length]?

/-- Lines 100-103 of `Start`: the deadline of the caller's context when it has one,
else `time.Now().Add(time.Second)`. -/
def jobDeadline (ctx : Ctx) (now : Int) : Int :=
  match ctx.deadline with
  | some d => d
  | none => now + second

/-- How the select of `Start` ends: the call returns `(key, err)` with an error,
or it goes on as job `i`. -/
inductive Selected where
  | returned (key : String) (err : Option GoError)
  | proceeds (i : Nat)
  deriving DecidableEq, Repr

/-- Lines 88-106 of `Start`: the select, then the key, the deadline and the
execution context, which are local to the call.  `key` is what `uuid.NewString`
returns and `now` what `time.Now` returns. -/
def startSelect (s : Sys) (ctx : Ctx) (key : String) (now : Int) (pick : Nat) :
    Option (Selected × Sys) :=
  match goSelect (readyCases s.w ctx) pick with
  | none => none
  | some .shutdown => some (.returned "" (some (.errorsNew "shutting down")), s)
  | some .ctxDone => some (.returned "" ctx.err, s)
  | some .semRecv =>
    match s.w.sem.recv with
    | none => none
    | some (_, sem) =>
      some (.proceeds s.jobs.length,
        { s with
          w := { s.w with sem := sem }
          jobs := s.jobs ++ [{ key := key, deadline := jobDeadline ctx now,
                               cancelled := false, panicking := false, pc := .acquired }] })

/-- Lines 109-111: `w.running[workKey] = cancel` under the lock. -/
def startRegister (s : Sys) (i : Nat) : Option Sys :=
  match s.jobs[i]? with
  | some j =>
    if j.pc = .acquired then
      some { s with
        w := { s.w with running := mapInsert s.w.running j.key i }
        jobs := s.jobs.set i { j with pc := .registered } }
    else none
  | none => none

/-- Line 114: `w.wg.Add(1)`. -/
def startAdd (s : Sys) (i : Nat) : Option Sys :=
  match s.jobs[i]? with
  | some j =>
    if j.pc = .registered then
      some { s with
        w := { s.w with wg := s.w.wg + 1 }
        jobs := s.jobs.set i { j with pc := .counted } }
    else none
  | none => none

/-- Lines 115-133: the go statement launches the goroutine, and `Start` returns. -/
def startGo (s : Sys) (i : Nat) : Option Sys :=
  match s.jobs[i]? with
  | some j =>
    if j.pc = .counted then some { s with jobs := s.jobs.set i { j with pc := .executing } }
    else none
  | none => none

/-! ## The goroutine of a job -/

/-- Line 130: the body `fn(ctx)` ends, by returning or by panicking. -/
def fnEnd (s : Sys) (i : Nat) (panics : Bool) : Option Sys :=
  match s.jobs[i]? with
  | some j =>
    if j.pc = .executing then
      some { s with jobs := s.jobs.set i { j with pc := .unwinding, panicking := panics } }
    else none
  | none => none

/-- Line 124, in the second deferred function: `cancel()`. -/
def deferCancel (s : Sys) (i : Nat) : Option Sys :=
  match s.jobs[i]? with
  | some j =>
    if j.pc = .unwinding then
      some { s with jobs := s.jobs.set i { j with pc := .cancelDone, cancelled := true } }
    else none
  | none => none

/-- Line 125 and `removeWork`: `delete(w.running, workKey)` under the lock. -/
def deferRemove (s : Sys) (i : Nat) : Option Sys :=
  match s.jobs[i]? with
  | some j =>
    if j.pc = .cancelDone then
      some { s with
        w := { s.w with running := mapDelete s.w.running j.key }
        jobs := s.jobs.set i { j with pc := .removed } }
    else none
  | none => none

/-- Line 126: `w.wg.Done()`, which panics when the counter becomes negative. -/
def deferDone (s : Sys) (i : Nat) : Option Sys :=
  match s.jobs[i]? with
  | some j =>
    if j.pc = .removed then
      some { s with
        w := { s.w with wg := s.w.wg - 1 }
        jobs := s.jobs.set i
          { j with pc := .wgDone, panicking := j.panicking || decide (s.w.wg - 1 < 0) } }
    else none
  | none => none

/-- Line 119, in the first deferred function: `w.sem <- true`; then the goroutine is
over, and a panic that is still on its way ends the process, as nothing recovers it. -/
def deferRelease (s : Sys) (i : Nat) : Option Sys :=
  match s.jobs[i]? with
  | some j =>
    if j.pc = .wgDone then
      match s.w.sem.send true with
      | some sem =>
        some { w := { s.w with sem := sem }
               jobs := s.jobs.set i { j with pc := .exited }
               crashed := j.panicking }
      | none => none
    else none
  | none => none

/-! ## Stop and Shutdown -/

/-- The method `Stop`: one critical section. -/
def Stop (s : Sys) (workKey : String) : Option GoError × Sys :=
  match s.w.running.lookup workKey with
  | none => (some (.errorsNew ("work[" ++ workKey ++ "] is not running")), s)
  | some c => (none, { s with jobs := cancelJob s.jobs c })

/-- The error `Stop` returns for the key `k`: `fmt.Errorf("work[%s] is not running", k)`. -/
def notRunning (k : String) : GoError := .errorsNew ("work[" ++ k ++ "] is not running")

/-- Line 57 of `Shutdown`: `close(w.isShutdown)`, which panics on a closed channel. -/
def shutdownClose (s : Sys) : Sys :=
  if s.w.isShutdown then { s with crashed := true }
  else { s with w := { s.w with isShutdown := true } }

/-- Lines 59-63 of `Shutdown`: every cancel function of the running map is called. -/
def shutdownCancel (s : Sys) : Sys :=
  { s with jobs := s.w.running.foldl (fun jobs e => cancelJob jobs e.2) s.jobs }

/-! ## Executions -/

/-- The atomic actions of the program. -/
inductive Event where
  | start (ctx : Ctx) (key : String) (now : Int) (pick : Nat)
  | register (i : Nat)
  | add (i : Nat)
  | launch (i : Nat)
  | fnEnd (i : Nat) (panics : Bool)
  | deferCancel (i : Nat)
  | deferRemove (i : Nat)
  | deferDone (i : Nat)
  | deferRelease (i : Nat)
  | stop (workKey : String)
  | shutdownClose
  | shutdownCancel
  deriving DecidableEq, Repr

/-- One action: `none` when it cannot be taken in `s` (it blocks, it is not the next
action of its goroutine, or the process is dead). -/
def step (s : Sys) (e : Event) : Option Sys :=
  if s.crashed then none
  else
    match e with
    | .start ctx key now pick => (startSelect s ctx key now pick).map Prod.snd
    | .register i => startRegister s i
    | .add i => startAdd s i
    | .launch i => startGo s i
    | .fnEnd i panics => fnEnd s i panics
    | .deferCancel i => deferCancel s i
    | .deferRemove i => deferRemove s i
    | .deferDone i => deferDone s i
    | .deferRelease i => deferRelease s i
    | .stop workKey => some (Stop s workKey).2
    | .shutdownClose => some (shutdownClose s)
    | .shutdownCancel => if s.w.isShutdown then some (shutdownCancel s) else none

/-- A sequence of actions, from left to right. -/
def run (s : Sys) : List Event → Option Sys
  | [] => some s
  | e :: es => (step s e).bind fun s1 => run s1 es

/-- The program right after `New` returned the worker `w`. -/
def Sys.init (w : Worker) : Sys := { w := w, jobs := [], crashed := false }

/-- The states of a program whose worker was built by `New(n)`. -/
def Reachable (n : Int) (s : Sys) : Prop :=
  ∃ w evs, New n = some (some w, none) ∧ run (Sys.init w) evs = some s

/-- The method `Start` run without another goroutine in between: the select, and
for an admitted job the registration, `wg.Add(1)` and the go statement.  The result is
the Go pair `(string, error)` and the state at the return; `none` is a call that
does not return (no case of the select can proceed, or the process is dead). -/
def Start (s : Sys) (ctx : Ctx) (key : String) (now : Int) (pick : Nat) :
    Option ((String × Option GoError) × Sys) :=
  if s.crashed then none
  else
    match startSelect s ctx key now pick with
    | none => none
    | some (.returned k err, s1) => some ((k, err), s1)
    | some (.proceeds i, s1) =>
      (startRegister s1 i).bind fun s2 =>
        (startAdd s2 i).bind fun s3 =>
          (startGo s3 i).map fun s4 => ((key, none), s4)

/-- The state in which an admitted `Start` call returns when it ran without another
goroutine in between; `rest` is the buffer of the semaphore after the receive. -/
def admitted (s : Sys) (ctx : Ctx) (key : String) (now : Int) (rest : List Bool) : Sys :=
  { w := { wg := s.w.wg + 1, sem := { cap := s.w.sem.cap, buf := rest },
           isShutdown := s.w.isShutdown,
           running := mapInsert s.w.running key s.jobs.length }
    jobs := s.jobs ++ [{ key := key, deadline := jobDeadline ctx now, cancelled := false,
                         panicking := false, pc := .executing }]
    crashed := s.crashed }

/-- The goroutine of job `i` run from the end of its body to its own end without
another goroutine in between: the two deferred functions, last one first. -/
def complete (s : Sys) (i : Nat) (panics : Bool) : Option Sys :=
  run s [.fnEnd i panics, .deferCancel i, .deferRemove i, .deferDone i, .deferRelease i]

/-- The state at the end of the goroutine of job `i`, whose body ended in `s`. -/
def completed (s : Sys) (i : Nat) (j : Job) (panics : Bool) : Sys :=
  { w := { wg := s.w.wg - 1, sem := { cap := s.w.sem.cap, buf := s.w.sem.buf ++ [true] },
           isShutdown := s.w.isShutdown, running := mapDelete s.w.running j.key }
    jobs := s.jobs.set i { j with cancelled := true, panicking := panics, pc := .exited }
    crashed := panics }

/-! ## The wait of Shutdown -/

/-- Lines 67-71 of `Shutdown`: the goroutine that calls `w.wg.Wait()` and then closes
`ch`.  `Wait` returns when the counter is zero; `chClosed` tells whether `ch` was
closed before, and the result whether it is closed once the goroutine has looked at
the state `s`. -/
def waiter (s : Sys) (chClosed : Bool) : Bool := chClosed || decide (s.w.wg = 0)

/-- The cases of the select statement of `Shutdown`, in the order of the source. -/
inductive ShutdownCase where
  | chClosed
  | ctxDone
  deriving DecidableEq, Repr

/-- The cases of the select of `Shutdown` that can proceed. -/
def shutdownReady (chClosed : Bool) (ctx : Ctx) : List ShutdownCase :=
  (if chClosed then [ShutdownCase.chClosed] else [])
    ++ (if ctx.err.isSome then [ShutdownCase.ctxDone] else [])

/-- Lines 75-80 of `Shutdown`: the select.  `none` when it blocks; `some err` when
`Shutdown` returns `err`. -/
def shutdownSelect (chClosed : Bool) (ctx : Ctx) (pick : Nat) : Option (Option GoError) :=
  match goSelect (shutdownReady chClosed ctx) pick with
  | none => none
  | some .chClosed => some none
  | some .ctxDone => some ctx.err

/-- The method `Shutdown` run without another goroutine in between.  The first
component is `none` when the call does not return (it panics on the closed channel and
the process dies, the process is dead already, or the select blocks), and `some err`
when it returns `err`. -/
def Shutdown (s : Sys) (ctx : Ctx) (pick : Nat) : Option (Option GoError) × Sys :=
  if s.crashed then (none, s)
  else if (shutdownClose s).crashed then (none, shutdownClose s)
  else
    (shutdownSelect (waiter (shutdownCancel (shutdownClose s)) false) ctx pick,
      shutdownCancel (shutdownClose s))

/-- Lines 67-80 of `Shutdown` among the other goroutines.  The wait goes in rounds: in
a round the other goroutines take the steps `evs`, then the goroutine of lines 68-71
looks at the counter and the select looks at `ch` and at the context of the caller,
which has become `ctx` by then, with the choice `pick`.  When the select blocks the
next round follows; `ch` is not closed then.  The result is the error `Shutdown`
returns and the state at the return; `none` when the call has not returned at the end
of the rounds, or the other goroutines cannot take their steps. -/
def shutdownWait (s : Sys) : List (List Event × Ctx × Nat) → Option (Option GoError × Sys)
  | [] => none
  | (evs, ctx, pick) :: rounds =>
    match run s evs with
    | none => none
    | some s1 =>
      match shutdownSelect (waiter s1 false) ctx pick with
      | some err => some (err, s1)
      | none => shutdownWait s1 rounds

/-- The method `Shutdown` among the other goroutines: the close and the loop of the
cancel functions, then the wait in rounds.  `none` when the call does not return: it
panics on the closed channel, the process is dead, or the wait is not over at the end
of the rounds. -/
def ShutdownRounds (s : Sys) (rounds : List (List Event × Ctx × Nat)) :
    Option (Option GoError × Sys) :=
  if s.crashed then none
  else if (shutdownClose s).crashed then none
  else shutdownWait (shutdownCancel (shutdownClose s)) rounds

/-- The state after rounds in each of which the select of `Shutdown` found the counter
of the wait group not zero and the context of the caller not done; `none` when one of
the rounds is not of that kind. -/
def stillWaiting (s : Sys) : List (List Event × Ctx × Nat) → Option Sys
  | [] => some s
  | (evs, ctx, _) :: rounds =>
    match run s evs with
    | none => none
    | some s1 =>
      if s1.w.wg ≠ 0 ∧ ctx.err = none then stillWaiting s1 rounds else none

/-- Every entry of the running map holds the cancel function of a job that drew the
key of the entry and is between its insertion into the map and its removal. -/
def EntriesLive (s : Sys) : Prop :=
  ∀ e ∈ s.w.running,
    ∃ j : Job, s.jobs[e.2]? = some j ∧ j.registeredNow = true ∧ j.key = e.1

/-- The job is past its removal from the running map. -/
def Job.removedNow (j : Job) : Bool :=
  j.pc == .removed || j.pc == .wgDone || j.pc == .exited

/-! ## Inputs of the examples -/

/-- A worker of capacity 1 as `New(1)` returns it. -/
def fresh1 : Sys :=
  Sys.init { wg := 0, sem := { cap := 1, buf := [true] }, isShutdown := false, running := [] }

/-- A context that is not done and has no deadline, as `context.Background()`. -/
def background : Ctx := { deadline := none, err := none }

/-- A context that has been cancelled. -/
def cancelledCtx : Ctx := { deadline := none, err := some .canceled }

/-- A context whose deadline has passed. -/
def expiredCtx : Ctx := { deadline := some 5, err := some .deadlineExceeded }

/-- The worker of `New(1)` after one `Start` with key "k" admitted its job. -/
def oneJob : Sys := admitted fresh1 background "k" 0 []

/-- The job of `oneJob`. -/
def jobK : Job :=
  { key := "k", deadline := 0 + second, cancelled := false, panicking := false,
    pc := .executing }

/-- A worker of capacity 2 as `New(2)` returns it. -/
def fresh2 : Sys :=
  Sys.init { wg := 0, sem := { cap := 2, buf := [true, true] }, isShutdown := false,
             running := [] }

/-- The worker of `New(2)` after two `Start` calls admitted their jobs. -/
def twoJobs : Sys := admitted (admitted fresh2 background "a" 0 [true]) background "b" 0 []

/-- The worker of `New(1)` while a `Start` call is between its registration (line 110)
and `wg.Add(1)` (line 114). -/
def inFlight : Sys :=
  { w := { wg := 0, sem := { cap := 1, buf := [] }, isShutdown := false,
           running := [("k", 0)] }
    jobs := [{ key := "k", deadline := 0 + second, cancelled := false, panicking := false,
               pc := .registered }]
    crashed := false }

/-- The worker of `New(1)` while a `Start` call is between its select (line 93) and its
registration (line 110), after `Shutdown` closed `isShutdown`. -/
def closedInFlight : Sys :=
  { w := { wg := 0, sem := { cap := 1, buf := [] }, isShutdown := true, running := [] }
    jobs := [{ key := "k", deadline := 0 + second, cancelled := false, panicking := false,
               pc := .acquired }]
    crashed := false }

/-- The worker of `New(2)` after two `Start` calls that drew the same key admitted
their jobs. -/
def sameKey : Sys := admitted (admitted fresh2 background "k" 0 [true]) background "k" 0 []

/-- The goroutine of the job is launched and has not called `wg.Done()` yet. -/
def Job.launchedNotDone (j : Job) : Bool :=
  j.pc == .executing || j.pc == .unwinding || j.pc == .cancelDone || j.pc == .removed

/-- The `Start` call of the job is between `wg.Add(1)` (line 114) and the go statement
(line 115). -/
def Job.addedNotLaunched (j : Job) : Bool := j.pc == .counted

/-- The worker of `New(1)` while a `Start` call is between `wg.Add(1)` (line 114) and
the go statement (line 115). -/
def addedNotLaunchedState : Sys :=
  { w := { wg := 1, sem := { cap := 1, buf := [] }, isShutdown := false,
           running := [("k", 0)] }
    jobs := [{ key := "k", deadline := 0 + second, cancelled := false, panicking := false,
               pc := .counted }]
    crashed := false }

/-- A context with the deadline 5 that is not done. -/
def deadlineCtx : Ctx := { deadline := some 5, err := none }

/-- The worker of `oneJob` after the close and the loop of `Shutdown`. -/
def shutOneJob : Sys := shutdownCancel (shutdownClose oneJob)

/-- The worker of `shutOneJob` after its job ran up to `wg.Done()`. -/
def shutOneJobDone : Sys :=
  { w := { wg := 0, sem := { cap := 1, buf := [] }, isShutdown := true, running := [] }
    jobs := [{ key := "k", deadline := 0 + second, cancelled := true, panicking := false,
               pc := .wgDone }]
    crashed := false }

/-- The worker of `New(1)` after the job of `oneJob` ran to its end. -/
def oneJobDone : Sys := completed oneJob 0 jobK false

/-- The worker of `New(1)` after a first job with key "k" ran to its end and a second
`Start`, to which `uuid.NewString` returned "k" again, admitted its job. -/
def reusedKey : Sys := admitted oneJobDone background "k" 0 []

/-! ## The invariant -/

/-- The invariant of the bookkeeping for a semaphore of `n` units. -/
structure Inv (n : Nat) (s : Sys) : Prop where
  cap : s.w.sem.cap = n
  units : s.w.sem.buf.length + s.jobs.countP Job.holding = n
  wgCount : s.w.wg = (s.jobs.countP Job.counted : Int)
  keysNodup : (s.w.running.map Prod.fst).Nodup
  keysLive : ∀ k ∈ s.w.running.map Prod.fst,
    ∃ (m : Nat) (j : Job), s.jobs[m]? = some j ∧ j.registeredNow = true ∧ j.key = k

end worker

/-! # Package `auth` (`business/web/auth/claims.go`) -/

namespace auth

/-- The struct `jwt.RegisteredClaims` of `github.com/golang-jwt/jwt/v4`, which `Claims`
embeds; a `*NumericDate` is the time in seconds, `none` for nil. -/
structure RegisteredClaims where
  Issuer : String
  Subject : String
  Audience : List String
  ExpiresAt : Option Int
  NotBefore : Option Int
  IssuedAt : Option Int
  ID : String
  deriving DecidableEq, Repr

/-- The struct `Claims`. -/
structure Claims where
  RegisteredClaims : RegisteredClaims
  Roles : List String
  deriving DecidableEq, Repr

/-- The zero value `Claims{}`. -/
def Claims.zero : Claims :=
  { RegisteredClaims :=
      { Issuer := "", Subject := "", Audience := [], ExpiresAt := none, NotBefore := none,
        IssuedAt := none, ID := "" }
    Roles := [] }

/-- A key of a context: a value of some named type, as `key`, the `ctxKey` 1 of this
package; keys of different types are different keys. -/
structure CtxKey where
  typeName : String
  val : Int
  deriving DecidableEq, Repr

/-- The constant `key`. -/
def key : CtxKey := { typeName := "auth.ctxKey", val := 1 }

/-- A value held by a context: a `Claims`, or a value of another type. -/
inductive CtxValue where
  | claims (c : Claims)
  | other (typeName : String) (text : String)
  deriving DecidableEq, Repr

/-- A `context.Context` as far as `Value` sees it: the pairs added by `WithValue`, the
latest first. -/
abbrev Context := List (CtxKey × CtxValue)

/-- The function `context.WithValue`. -/
def WithValue (ctx : Context) (k : CtxKey) (v : CtxValue) : Context := (k, v) :: ctx

/-- The method `ctx.Value(k)`: the value of the latest pair under `k`, `none` for nil. -/
def Context.Value (ctx : Context) (k : CtxKey) : Option CtxValue := ctx.lookup k

/-- The type assertion `v, ok := x.(Claims)`: the zero value and false unless `x` holds
a `Claims`. -/
def assertClaims : Option CtxValue → Claims × Bool
  | some (.claims c) => (c, true)
  | _ => (Claims.zero, false)

/-- The function `SetClaims`. -/
def SetClaims (ctx : Context) (claims : Claims) : Context :=
  WithValue ctx key (.claims claims)

/-- The function `GetClaims`: `if v, ok := ctx.Value(key).(Claims); !ok` returns `v`,
and `Claims{}` is returned after the `if`. -/
def GetClaims (ctx : Context) : Claims :=
  match assertClaims (ctx.Value key) with
  | (v, ok) => if !ok then v else Claims.zero

/-- The function the doc comment of `GetClaims` describes ("returns the claims from the
context"): the stored claims when there are some, else `Claims{}`. -/
def storedClaims (ctx : Context) : Claims :=
  match assertClaims (ctx.Value key) with
  | (v, ok) => if ok then v else Claims.zero

/-- Claims with the role of an administrator. -/
def adminClaims : Claims :=
  { RegisteredClaims :=
      { Issuer := "service project", Subject := "5cf37266", Audience := [],
        ExpiresAt := some 1700000000, NotBefore := none, IssuedAt := some 1600000000,
        ID := "" }
    Roles := ["ADMIN"] }

end auth

/-! # Package `web` (`foundation/web/middleware.go`) -/

namespace web

/-- The type `Middleware`, `func(Handler) Handler`, with `none` for nil.  The type
`Handler` is a parameter. -/
abbrev Middleware (Handler : Type) := Option (Handler → Handler)

/-- The loop of `wrapMiddleware`, `for i := len(mw) - 1; i >= 0; i--`, by the value of
`i + 1`. -/
def wrapLoop {Handler : Type} (mw : List (Middleware Handler)) : Nat → Handler → Handler
  | 0, handler => handler
  | i + 1, handler =>
    match mw[i]? with
    | some (some h) => wrapLoop mw i (h handler)
    | _ => wrapLoop mw i handler

/-- The function `wrapMiddleware`. -/
def wrapMiddleware {Handler : Type} (mw : List (Middleware Handler)) (handler : Handler) :
    Handler :=
  wrapLoop mw mw.length handler

/-- The handler `m0(m1(...(mk(h))...))` with the nil entries skipped, by the words of
the specification. -/
def nestedHandler {Handler : Type} : List (Middleware Handler) → Handler → Handler
  | [], h => h
  | some m :: rest, h => m (nestedHandler rest h)
  | none :: rest, h => nestedHandler rest h

/-- A handler that answers a request with the names of the code it runs, in order. -/
abbrev TraceHandler := String → List String

/-- A middleware that runs code named `name` before the handler it wraps. -/
def tracing (name : String) : Middleware TraceHandler :=
  some fun h req => name :: h req

end web

/-! # Package `product` (`business/core/product`) -/

namespace product

/-- The struct `Product`; a `uuid.UUID` is held as its text and a `time.Time` as
nanoseconds. -/
structure Product where
  ID : String
  Name : String
  Cost : Int
  Quantity : Int
  Sold : Int
  Revenue : Int
  UserID : String
  DateCreated : Int
  DateUpdated : Int
  deriving DecidableEq, Repr

/-- The zero value `Product{}`. -/
def Product.zero : Product :=
  { ID := "00000000-0000-0000-0000-000000000000", Name := "", Cost := 0, Quantity := 0,
    Sold := 0, Revenue := 0, UserID := "00000000-0000-0000-0000-000000000000",
    DateCreated := 0, DateUpdated := 0 }

/-- The struct `UpdateProduct`: pointer fields, `none` for nil. -/
structure UpdateProduct where
  Name : Option String
  Cost : Option Int
  Quantity : Option Int
  deriving DecidableEq, Repr

/-- The method `Core.Update`.  `check` is `validate.Check` on an `UpdateProduct`,
`repoUpdate` the method `Update` of the repository of the core, and `now` what
`time.Now()` returns. -/
def Update (check : UpdateProduct → Option worker.GoError)
    (repoUpdate : Product → Option worker.GoError) (now : Int) (prd : Product)
    (up : UpdateProduct) : Product × Option worker.GoError :=
  match check up with
  | some err => (Product.zero, some (.errorsNew ("validating data: " ++ err.msg)))
  | none =>
    let prd := match up.Name with
      | some name => { prd with Name := name }
      | none => prd
    let prd := match up.Cost with
      | some cost => { prd with Cost := cost }
      | none => prd
    let prd := match up.Quantity with
      | some quantity => { prd with Quantity := quantity }
      | none => prd
    let prd := { prd with DateUpdated := now }
    match repoUpdate prd with
    | some err => (Product.zero, some (.errorsNew ("update: " ++ err.msg)))
    | none => (prd, none)

/-- The constant `OrderByID`. -/
def OrderByID : String := "id"

/-- The constant `OrderByName`. -/
def OrderByName : String := "name"

/-- The constant `OrderByCost`. -/
def OrderByCost : String := "cost"

/-- The constant `OrderByQuantity`. -/
def OrderByQuantity : String := "quanity"

/-- The constant `OrderBySold`. -/
def OrderBySold : String := "sold"

/-- The constant `OrderByRevenue`. -/
def OrderByRevenue : String := "revenue"

/-- The constant `OrderByUserID`. -/
def OrderByUserID : String := "userId"

/-- A product of the examples. -/
def sample : Product :=
  { ID := "72f8b983-3eb4-48db-9ed0-e45cc6bd716b", Name := "Comic Books", Cost := 50,
    Quantity := 42, Sold := 7, Revenue := 350,
    UserID := "5cf37266-3473-4006-984f-9325122678b7", DateCreated := 1000,
    DateUpdated := 2000 }

end product

/-! # Package `commands` (`app/tooling/sales-admin/commands/vault.go`) -/

namespace commands

/-- The limit given to `io.LimitReader` in `loadKeys`: `1024*1025`. -/
def pemLimit : Nat := 1024 * 1025

/-- One megabyte, the limit the comment in `loadKeys` names. -/
def oneMB : Nat := 1024 * 1024

/-- The call `io.ReadAll(io.LimitReader(file, n))` on a file all of whose reads succeed:
the first `n` bytes of the file, or all of it when it is shorter. -/
def readAllLimited (content : List UInt8) (n : Nat) : List UInt8 := content.take n

/-- The loop of `path.Ext` over the characters of the path from its end; `acc` holds
the characters already passed. -/
def extLoop : List Char → List Char → List Char
  | [], _ => []
  | c :: rest, acc =>
    if c = '/' then []
    else if c = '.' then '.' :: acc
    else extLoop rest (c :: acc)

/-- The function `path.Ext`: the text from the last dot of the last element of the
path, empty when there is no dot. -/
def pathExt (path : String) : String := String.mk (extLoop path.data.reverse [])

/-- The function `strings.TrimSuffix`. -/
def trimSuffix (s suffix : String) : String :=
  if suffix.data.isSuffixOf s.data then
    String.mk (s.data.take (s.data.length - suffix.data.length))
  else s

/-- An entry met by `fs.WalkDir`: the result of `dirEntry.Name()`, of
`dirEntry.IsDir()`, and the bytes of the file. -/
structure DirEntry where
  name : String
  isDir : Bool
  content : List UInt8
  deriving DecidableEq, Repr

/-- The function `fn` of `loadKeys` for an entry that is walked, opened and read without
error: the key id and the bytes it passes to `vault.AddPrivateKey`, and `none` for
an entry it skips. -/
def loadKey (fileName : String) (dirEntry : DirEntry) : Option (String × List UInt8) :=
  if dirEntry.isDir then none
  else if pathExt fileName != ".pem" then none
  else some (trimSuffix dirEntry.name ".pem", readAllLimited dirEntry.content pemLimit)

/-- A key file of `1024*1025` bytes. -/
def bigPem : DirEntry :=
  { name := "big.pem", isDir := false, content := List.replicate pemLimit 0 }

end commands

/-! # Packages `productdb` and `userdb` (`business/core/.../repository`) -/

namespace order

/-- The struct `order.By`. -/
structure By where
  Field : String
  Direction : String
  deriving DecidableEq, Repr

end order

namespace productdb

/-- The map `orderByFields` of package `productdb`. -/
def orderByFields : List (String × String) :=
  [(product.OrderByID, "product_id"),
   (product.OrderByName, "name"),
   (product.OrderByCost, "cost"),
   (product.OrderByQuantity, "quantity"),
   (product.OrderBySold, "sold"),
   (product.OrderByRevenue, "revenue"),
   (product.OrderByUserID, "user_id")]

/-- The function `orderByClause` of package `productdb`.  `validate` is
`order.Validate` and `quote` the verb `%q` of `fmt`. -/
def orderByClause (validate : String → String → Option worker.GoError)
    (quote : String → String) (orderBy : order.By) : String × Option worker.GoError :=
  match validate orderBy.Field orderBy.Direction with
  | some err => ("", some err)
  | none =>
    match orderByFields.lookup orderBy.Field with
    | none => ("", some (.errorsNew ("field " ++ quote orderBy.Field ++ " does not exists")))
    | some by1 => (by1 ++ " " ++ orderBy.Direction, none)

end productdb

namespace userdb

/-- The constants `user.OrderByID`, `user.OrderByName`, `user.OrderByEmail`,
`user.OrderByRoles` and `user.OrderByEnabled`, whose declarations are not among the
sources: any five strings. -/
structure UserOrderFields where
  OrderByID : String
  OrderByName : String
  OrderByEmail : String
  OrderByRoles : String
  OrderByEnabled : String
  deriving DecidableEq, Repr

/-- The map `orderByFields` of package `userdb`. -/
def orderByFields (user : UserOrderFields) : List (String × String) :=
  [(user.OrderByID, "user_id"),
   (user.OrderByName, "name"),
   (user.OrderByEmail, "email"),
   (user.OrderByRoles, "roles"),
   (user.OrderByEnabled, "enabled")]

/-- The function `orderByClause` of package `userdb`.  `validate` is `order.Validate`
and `quote` the verb `%q` of `fmt`. -/
def orderByClause (user : UserOrderFields)
    (validate : String → String → Option worker.GoError) (quote : String → String)
    (orderBy : order.By) : String × Option worker.GoError :=
  match validate orderBy.Field orderBy.Direction with
  | some err => ("", some err)
  | none =>
    match (orderByFields user).lookup orderBy.Field with
    | none => ("", some (.errorsNew ("field " ++ quote orderBy.Field ++ " does not exist")))
    | some by1 => (by1 ++ " " ++ orderBy.Direction, none)

/-- Names for the constants of package `user`, for the examples. -/
def sampleFields : UserOrderFields :=
  { OrderByID := "id", OrderByName := "name", OrderByEmail := "email",
    OrderByRoles := "roles", OrderByEnabled := "enabled" }

end userdb

/-! # Package `worker`: the theorems -/

namespace worker

/-! ## The constructor -/

theorem fillSem_eq (k cap : Nat) (buf : List Bool) (h : buf.length + k ≤ cap) :
    fillSem k { cap := cap, buf := buf } = some { cap := cap, buf := buf ++ List.replicate k true } := by
  induction k generalizing buf with
  | zero => simp [fillSem]
  | succ k ih =>
    have h1 : buf.length < cap := by omega
    have h2 : (buf ++ [true]).length + k ≤ cap := by simp; omega
    simp [fillSem, Chan.send, h1, ih (buf ++ [true]) h2, List.replicate_succ]

theorem makechan_of_le (n : Int) (h : 1 ≤ n) (hle : n ≤ (chanLimit : Int)) :
    makechan n = some (Chan.make n.toNat) := by
  have h0 : ¬ (n < 0 ∨ (chanLimit : Int) < n) := by omega
  simp [makechan, h0]

theorem makechan_of_gt (n : Int) (h : (chanLimit : Int) < n) : makechan n = none := by
  simp [makechan, h]

theorem New_of_pos (n : Int) (h : 1 ≤ n) (hle : n ≤ (chanLimit : Int)) :
    New n = some (some { wg := 0, sem := { cap := n.toNat, buf := List.replicate n.toNat true },
                         isShutdown := false, running := [] }, none) := by
  have h0 : ¬ n ≤ 0 := by omega
  have := fillSem_eq n.toNat n.toNat [] (by simp)
  simp [New, h0, makechan_of_le n h hle, Chan.make, this]

theorem New_of_gt (n : Int) (h : (chanLimit : Int) < n) : New n = none := by
  have h0 : ¬ n ≤ 0 := by
    have : (0 : Int) ≤ (chanLimit : Int) := Int.ofNat_nonneg _
    omega
  simp [New, h0, makechan_of_gt n h]

theorem New_of_nonpos (n : Int) (h : n ≤ 0) :
    New n = some (none, some (.errorsNew "max running jobs must be greater than 0")) := by
  simp [New, h]

theorem pos_of_New {n : Int} {w : Worker} (h : New n = some (some w, none)) : 1 ≤ n := by
  by_contra hn
  rw [New_of_nonpos n (by omega)] at h
  simp at h

theorem le_chanLimit_of_New {n : Int} {r : Option Worker × Option GoError}
    (h : New n = some r) : n ≤ (chanLimit : Int) := by
  by_contra hn
  rw [New_of_gt n (by omega)] at h
  simp at h

/-! ## The select of Start -/

theorem goSelect_mem {α : Type} {ready : List α} {pick : Nat} {c : α}
    (h : goSelect ready pick = some c) : c ∈ ready :=
  List.getElem?_mem h

theorem goSelect_isSome {α : Type} {ready : List α} (pick : Nat) (h : ready ≠ []) :
    ∃ c, goSelect ready pick = some c := by
  have hl : 0 < ready.length := List.length_pos.mpr h
  have : pick % ready.length < ready.length := Nat.mod_lt _ hl
  exact ⟨ready[pick % ready.length], by simp [goSelect, List.getElem?_eq_getElem this]⟩

theorem mem_readyCases_shutdown {w : Worker} {ctx : Ctx} :
    SelectCase.shutdown ∈ readyCases w ctx ↔ w.isShutdown = true := by
  unfold readyCases
  by_cases h1 : w.isShutdown = true <;> by_cases h2 : ctx.err.isSome = true <;>
    by_cases h3 : w.sem.buf.isEmpty = true <;> simp [h1, h2, h3]

theorem mem_readyCases_ctxDone {w : Worker} {ctx : Ctx} :
    SelectCase.ctxDone ∈ readyCases w ctx ↔ ctx.err.isSome = true := by
  unfold readyCases
  by_cases h1 : w.isShutdown = true <;> by_cases h2 : ctx.err.isSome = true <;>
    by_cases h3 : w.sem.buf.isEmpty = true <;> simp [h1, h2, h3]

theorem mem_readyCases_semRecv {w : Worker} {ctx : Ctx} :
    SelectCase.semRecv ∈ readyCases w ctx ↔ w.sem.buf ≠ [] := by
  unfold readyCases
  by_cases h1 : w.isShutdown = true <;> by_cases h2 : ctx.err.isSome = true <;>
    by_cases h3 : w.sem.buf.isEmpty = true <;> simp [h1, h2, h3] <;>
    simpa [List.isEmpty_iff] using h3

theorem Start_of_shutdown {s : Sys} {ctx : Ctx} (key : String) (now : Int) {pick : Nat}
    (hc : s.crashed = false) (h : goSelect (readyCases s.w ctx) pick = some .shutdown) :
    Start s ctx key now pick = some (("", some (.errorsNew "shutting down")), s) := by
  simp [Start, startSelect, h, hc]

theorem Start_of_ctxDone {s : Sys} {ctx : Ctx} (key : String) (now : Int) {pick : Nat}
    (hc : s.crashed = false) (h : goSelect (readyCases s.w ctx) pick = some .ctxDone) :
    Start s ctx key now pick = some (("", ctx.err), s) := by
  simp [Start, startSelect, h, hc]

theorem Start_of_semRecv {s : Sys} {ctx : Ctx} (key : String) (now : Int) {pick : Nat}
    (hc : s.crashed = false) (h : goSelect (readyCases s.w ctx) pick = some .semRecv) :
    ∃ v rest, s.w.sem.buf = v :: rest ∧
      Start s ctx key now pick = some ((key, none), admitted s ctx key now rest) := by
  have hne : s.w.sem.buf ≠ [] := mem_readyCases_semRecv.mp (goSelect_mem h)
  obtain ⟨v, rest, hbuf⟩ := List.exists_cons_of_ne_nil hne
  refine ⟨v, rest, hbuf, ?_⟩
  simp [Start, startSelect, h, hc, Chan.recv, hbuf, startRegister, startAdd, startGo, admitted]

theorem Start_blocks {s : Sys} {ctx : Ctx} (key : String) (now : Int) {pick : Nat}
    (h : goSelect (readyCases s.w ctx) pick = none) :
    Start s ctx key now pick = none := by
  simp [Start, startSelect, h]


/-! ## Preservation of the invariant -/

theorem countP_set_of_getElem? {p : Job → Bool} {l : List Job} {i : Nat} {j : Job} (j1 : Job)
    (h : l[i]? = some j) :
    (l.set i j1).countP p + (if p j = true then 1 else 0)
      = l.countP p + (if p j1 = true then 1 else 0) := by
  obtain ⟨hi, hj⟩ := List.getElem?_eq_some.mp h
  have h1 := List.countP_set p l i j1 hi
  have h2 := List.boole_getElem_le_countP p l i hi
  rw [hj] at h1 h2
  omega

theorem countP_set_same {p : Job → Bool} {l : List Job} {i : Nat} {j : Job} (j1 : Job)
    (h : l[i]? = some j) (hp : p j1 = p j) :
    (l.set i j1).countP p = l.countP p := by
  have := countP_set_of_getElem? (p := p) j1 h
  rw [hp] at this
  omega

theorem live_set {l : List Job} {i : Nat} {j j1 : Job} {k : String}
    (h : l[i]? = some j) (hkey : j1.key = j.key)
    (hreg : j.registeredNow = true → j.key = k → j1.registeredNow = true)
    (hk : ∃ (m : Nat) (jm : Job), l[m]? = some jm ∧ jm.registeredNow = true ∧ jm.key = k) :
    ∃ (m : Nat) (jm : Job), (l.set i j1)[m]? = some jm ∧ jm.registeredNow = true ∧ jm.key = k := by
  obtain ⟨m, jm, hm, hr, hkm⟩ := hk
  obtain ⟨hi, -⟩ := List.getElem?_eq_some.mp h
  by_cases him : i = m
  · subst him
    rw [h] at hm
    cases hm
    exact ⟨i, j1, by simp [List.getElem?_set, hi], hreg hr hkm, by rw [hkey, hkm]⟩
  · exact ⟨m, jm, by rw [List.getElem?_set_ne him]; exact hm, hr, hkm⟩

theorem mem_keys_mapDelete {m : List (String × Nat)} {k k1 : String}
    (h : k1 ∈ (mapDelete m k).map Prod.fst) : k1 ≠ k ∧ k1 ∈ m.map Prod.fst := by
  simp only [mapDelete, List.mem_map, List.mem_filter] at h
  obtain ⟨e, ⟨he, hne⟩, rfl⟩ := h
  exact ⟨by simpa using hne, List.mem_map.mpr ⟨e, he, rfl⟩⟩

theorem nodup_keys_mapDelete {m : List (String × Nat)} (k : String)
    (h : (m.map Prod.fst).Nodup) : ((mapDelete m k).map Prod.fst).Nodup :=
  List.Nodup.sublist (List.Sublist.map _ (List.filter_sublist m)) h

theorem nodup_keys_mapInsert {m : List (String × Nat)} (k : String) (v : Nat)
    (h : (m.map Prod.fst).Nodup) : ((mapInsert m k v).map Prod.fst).Nodup := by
  simp only [mapInsert, List.map_cons, List.nodup_cons]
  refine ⟨fun hk => ?_, nodup_keys_mapDelete k h⟩
  exact (mem_keys_mapDelete (k := k) hk).1 rfl

theorem recv_eq_some {c c1 : Chan} {v : Bool} (h : c.recv = some (v, c1)) :
    c.buf = v :: c1.buf ∧ c1.cap = c.cap := by
  unfold Chan.recv at h
  split at h
  · simp at h
  · rename_i v0 rest hbuf
    simp only [Option.some.injEq, Prod.mk.injEq] at h
    obtain ⟨rfl, rfl⟩ := h
    exact ⟨hbuf, rfl⟩

theorem send_eq_some {c c1 : Chan} {v : Bool} (h : c.send v = some c1) :
    c.buf.length < c.cap ∧ c1.buf = c.buf ++ [v] ∧ c1.cap = c.cap := by
  unfold Chan.send at h
  split at h
  · rename_i hlt
    simp only [Option.some.injEq] at h
    subst h
    exact ⟨hlt, rfl, rfl⟩
  · simp at h

theorem inv_set_job {n : Nat} {s : Sys} {i : Nat} {j : Job} (j1 : Job) (w1 : Worker) (c : Bool)
    (hinv : Inv n s) (hj : s.jobs[i]? = some j) (hkey : j1.key = j.key)
    (hcap : w1.sem.cap = n)
    (hunits : w1.sem.buf.length + (if j1.holding = true then 1 else 0)
      = s.w.sem.buf.length + (if j.holding = true then 1 else 0))
    (hwg : w1.wg + (if j.counted = true then 1 else 0)
      = s.w.wg + (if j1.counted = true then 1 else 0))
    (hnodup : (w1.running.map Prod.fst).Nodup)
    (hlive : ∀ k ∈ w1.running.map Prod.fst,
      (k ∈ s.w.running.map Prod.fst ∧
        (j.registeredNow = true → j.key = k → j1.registeredNow = true))
      ∨ (k = j1.key ∧ j1.registeredNow = true)) :
    Inv n { w := w1, jobs := s.jobs.set i j1, crashed := c } := by
  obtain ⟨hi, -⟩ := List.getElem?_eq_some.mp hj
  refine ⟨hcap, ?_, ?_, hnodup, ?_⟩
  · have h1 := countP_set_of_getElem? (p := Job.holding) j1 hj
    have h2 := hinv.units
    simp only
    omega
  · have h1 := countP_set_of_getElem? (p := Job.counted) j1 hj
    have h2 := hinv.wgCount
    simp only
    cases hc1 : j.counted <;> cases hc2 : j1.counted <;>
      simp [hc1, hc2] at h1 hwg <;> omega
  · intro k hk
    rcases hlive k hk with ⟨hold, hreg⟩ | ⟨rfl, hreg⟩
    · exact live_set hj hkey hreg (hinv.keysLive k hold)
    · exact ⟨i, j1, by simp [List.getElem?_set, hi], hreg, rfl⟩

theorem inv_cancelJob {n : Nat} {s : Sys} (c : Nat) (hinv : Inv n s) :
    Inv n { s with jobs := cancelJob s.jobs c } := by
  unfold cancelJob
  split
  · rename_i j hj
    exact inv_set_job _ s.w s.crashed hinv hj rfl hinv.cap (by simp [Job.holding])
      (by simp [Job.counted]) hinv.keysNodup (fun k hk => Or.inl ⟨hk, fun h _ => by simpa [Job.registeredNow] using h⟩)
  · exact hinv

theorem inv_cancel_foldl {n : Nat} (cs : List (String × Nat)) (w : Worker) (c : Bool)
    (jobs : List Job) (hinv : Inv n { w := w, jobs := jobs, crashed := c }) :
    Inv n { w := w, jobs := cs.foldl (fun jobs e => cancelJob jobs e.2) jobs, crashed := c } := by
  induction cs generalizing jobs with
  | nil => exact hinv
  | cons e cs ih => exact ih _ (inv_cancelJob e.2 hinv)

theorem inv_startSelect {n : Nat} {s s1 : Sys} {ctx : Ctx} {key : String} {now : Int}
    {pick : Nat} {r : Selected} (hinv : Inv n s)
    (h : startSelect s ctx key now pick = some (r, s1)) : Inv n s1 := by
  unfold startSelect at h
  split at h
  · simp at h
  · simp only [Option.some.injEq, Prod.mk.injEq] at h; rw [← h.2]; exact hinv
  · simp only [Option.some.injEq, Prod.mk.injEq] at h; rw [← h.2]; exact hinv
  · split at h
    · simp at h
    · rename_i v sem hrecv
      obtain ⟨hbuf, hcap⟩ := recv_eq_some hrecv
      simp only [Option.some.injEq, Prod.mk.injEq] at h
      rw [← h.2]
      refine ⟨by simp only; rw [hcap]; exact hinv.cap, ?_, ?_, hinv.keysNodup, ?_⟩
      · have := hinv.units
        rw [hbuf] at this
        simp [List.countP_append, Job.holding] at this ⊢
        omega
      · have := hinv.wgCount
        simp [List.countP_append, Job.counted] at this ⊢
        exact this
      · intro k hk
        obtain ⟨m, j, hm, hr, hkm⟩ := hinv.keysLive k hk
        obtain ⟨hlt, -⟩ := List.getElem?_eq_some.mp hm
        exact ⟨m, j, by simp only; rw [List.getElem?_append_left hlt]; exact hm, hr, hkm⟩

theorem inv_startRegister {n : Nat} {s s1 : Sys} {i : Nat} (hinv : Inv n s)
    (h : startRegister s i = some s1) : Inv n s1 := by
  unfold startRegister at h
  split at h
  · rename_i j hj
    split at h
    · rename_i hpc
      simp only [Option.some.injEq] at h
      rw [← h]
      refine inv_set_job _ _ _ hinv hj rfl hinv.cap (by simp [Job.holding, hpc])
        (by simp [Job.counted, hpc])
        (nodup_keys_mapInsert _ _ hinv.keysNodup) ?_
      intro k hk
      simp only [mapInsert, List.map_cons, List.mem_cons] at hk
      rcases hk with rfl | hk
      · exact Or.inr ⟨rfl, by simp [Job.registeredNow]⟩
      · exact Or.inl ⟨(mem_keys_mapDelete hk).2, fun _ _ => by simp [Job.registeredNow]⟩
    · simp at h
  · simp at h

theorem inv_startAdd {n : Nat} {s s1 : Sys} {i : Nat} (hinv : Inv n s)
    (h : startAdd s i = some s1) : Inv n s1 := by
  unfold startAdd at h
  split at h
  · rename_i j hj
    split at h
    · rename_i hpc
      simp only [Option.some.injEq] at h
      rw [← h]
      exact inv_set_job _ _ _ hinv hj rfl hinv.cap (by simp [Job.holding, hpc])
        (by simp [Job.counted, hpc])
        hinv.keysNodup (fun k hk => Or.inl ⟨hk, fun _ _ => by simp [Job.registeredNow]⟩)
    · simp at h
  · simp at h

theorem inv_startGo {n : Nat} {s s1 : Sys} {i : Nat} (hinv : Inv n s)
    (h : startGo s i = some s1) : Inv n s1 := by
  unfold startGo at h
  split at h
  · rename_i j hj
    split at h
    · rename_i hpc
      simp only [Option.some.injEq] at h
      rw [← h]
      exact inv_set_job _ _ _ hinv hj rfl hinv.cap (by simp [Job.holding, hpc])
        (by simp [Job.counted, hpc])
        hinv.keysNodup (fun k hk => Or.inl ⟨hk, fun _ _ => by simp [Job.registeredNow]⟩)
    · simp at h
  · simp at h

theorem inv_fnEnd {n : Nat} {s s1 : Sys} {i : Nat} {panics : Bool} (hinv : Inv n s)
    (h : fnEnd s i panics = some s1) : Inv n s1 := by
  unfold fnEnd at h
  split at h
  · rename_i j hj
    split at h
    · rename_i hpc
      simp only [Option.some.injEq] at h
      rw [← h]
      exact inv_set_job _ _ _ hinv hj rfl hinv.cap (by simp [Job.holding, hpc])
        (by simp [Job.counted, hpc])
        hinv.keysNodup (fun k hk => Or.inl ⟨hk, fun _ _ => by simp [Job.registeredNow]⟩)
    · simp at h
  · simp at h

theorem inv_deferCancel {n : Nat} {s s1 : Sys} {i : Nat} (hinv : Inv n s)
    (h : deferCancel s i = some s1) : Inv n s1 := by
  unfold deferCancel at h
  split at h
  · rename_i j hj
    split at h
    · rename_i hpc
      simp only [Option.some.injEq] at h
      rw [← h]
      exact inv_set_job _ _ _ hinv hj rfl hinv.cap (by simp [Job.holding, hpc])
        (by simp [Job.counted, hpc])
        hinv.keysNodup (fun k hk => Or.inl ⟨hk, fun _ _ => by simp [Job.registeredNow]⟩)
    · simp at h
  · simp at h

theorem inv_deferRemove {n : Nat} {s s1 : Sys} {i : Nat} (hinv : Inv n s)
    (h : deferRemove s i = some s1) : Inv n s1 := by
  unfold deferRemove at h
  split at h
  · rename_i j hj
    split at h
    · rename_i hpc
      simp only [Option.some.injEq] at h
      rw [← h]
      refine inv_set_job _ _ _ hinv hj rfl hinv.cap (by simp [Job.holding, hpc])
        (by simp [Job.counted, hpc])
        (nodup_keys_mapDelete _ hinv.keysNodup) ?_
      intro k hk
      obtain ⟨hne, hmem⟩ := mem_keys_mapDelete hk
      exact Or.inl ⟨hmem, fun _ hkey => absurd hkey.symm hne⟩
    · simp at h
  · simp at h

theorem inv_deferDone {n : Nat} {s s1 : Sys} {i : Nat} (hinv : Inv n s)
    (h : deferDone s i = some s1) : Inv n s1 := by
  unfold deferDone at h
  split at h
  · rename_i j hj
    split at h
    · rename_i hpc
      simp only [Option.some.injEq] at h
      rw [← h]
      exact inv_set_job _ _ _ hinv hj rfl hinv.cap (by simp [Job.holding, hpc])
        (by simp [Job.counted, hpc])
        hinv.keysNodup
        (fun k hk => Or.inl ⟨hk, fun hr _ => by simp [Job.registeredNow, hpc] at hr⟩)
    · simp at h
  · simp at h

theorem inv_deferRelease {n : Nat} {s s1 : Sys} {i : Nat} (hinv : Inv n s)
    (h : deferRelease s i = some s1) : Inv n s1 := by
  unfold deferRelease at h
  split at h
  · rename_i j hj
    split at h
    · rename_i hpc
      split at h
      · rename_i sem hsend
        obtain ⟨-, hbuf, hcap⟩ := send_eq_some hsend
        simp only [Option.some.injEq] at h
        rw [← h]
        exact inv_set_job _ _ _ hinv hj rfl (by simp only; rw [hcap]; exact hinv.cap)
          (by simp [Job.holding, hpc, hbuf]) (by simp [Job.counted, hpc])
          hinv.keysNodup
          (fun k hk => Or.inl ⟨hk, fun hr _ => by simp [Job.registeredNow, hpc] at hr⟩)
      · simp at h
    · simp at h
  · simp at h

theorem inv_step {n : Nat} {s s1 : Sys} {e : Event} (hinv : Inv n s)
    (h : step s e = some s1) : Inv n s1 := by
  unfold step at h
  split at h
  · simp at h
  · cases e with
    | start ctx key now pick =>
      dsimp only at h
      simp only [Option.map_eq_some', Prod.exists, exists_eq_right] at h
      obtain ⟨r, hr⟩ := h
      exact inv_startSelect hinv hr
    | register i => exact inv_startRegister hinv h
    | add i => exact inv_startAdd hinv h
    | launch i => exact inv_startGo hinv h
    | fnEnd i panics => exact inv_fnEnd hinv h
    | deferCancel i => exact inv_deferCancel hinv h
    | deferRemove i => exact inv_deferRemove hinv h
    | deferDone i => exact inv_deferDone hinv h
    | deferRelease i => exact inv_deferRelease hinv h
    | stop workKey =>
      dsimp only at h
      simp only [Option.some.injEq] at h
      rw [← h]
      unfold Stop
      split
      · exact hinv
      · exact inv_cancelJob _ hinv
    | shutdownClose =>
      dsimp only at h
      simp only [Option.some.injEq] at h
      rw [← h]
      unfold shutdownClose
      split
      · exact ⟨hinv.cap, hinv.units, hinv.wgCount, hinv.keysNodup, hinv.keysLive⟩
      · exact ⟨hinv.cap, hinv.units, hinv.wgCount, hinv.keysNodup, hinv.keysLive⟩
    | shutdownCancel =>
      dsimp only at h
      split at h
      · simp only [Option.some.injEq] at h
        rw [← h]
        exact inv_cancel_foldl _ _ _ _ hinv
      · simp at h

theorem inv_run {n : Nat} {s s1 : Sys} {evs : List Event} (hinv : Inv n s)
    (h : run s evs = some s1) : Inv n s1 := by
  induction evs generalizing s with
  | nil =>
    simp only [run, Option.some.injEq] at h
    rw [← h]; exact hinv
  | cons e es ih =>
    simp only [run, Option.bind_eq_some] at h
    obtain ⟨s2, h2, h3⟩ := h
    exact ih (inv_step hinv h2) h3

theorem inv_reachable {n : Int} {s : Sys} (h : Reachable n s) : Inv n.toNat s := by
  obtain ⟨w, evs, hnew, hrun⟩ := h
  have hpos : 1 ≤ n := pos_of_New hnew
  rw [New_of_pos n hpos (le_chanLimit_of_New hnew)] at hnew
  simp only [Option.some.injEq, Prod.mk.injEq, and_true] at hnew
  subst hnew
  refine inv_run ⟨rfl, ?_, ?_, ?_, ?_⟩ hrun
  · simp [Sys.init]
  · simp [Sys.init]
  · simp [Sys.init]
  · simp [Sys.init]

theorem readyCases_ne_nil_of_ctx (w : Worker) {ctx : Ctx} (h : ctx.err.isSome = true) :
    readyCases w ctx ≠ [] := by
  intro h0
  have : SelectCase.ctxDone ∈ readyCases w ctx := mem_readyCases_ctxDone.mpr h
  rw [h0] at this
  simp at this

theorem toNat_of_reachable {n : Int} {s : Sys} (h : Reachable n s) : (n.toNat : Int) = n := by
  obtain ⟨w, evs, hnew, -⟩ := h
  have := pos_of_New hnew
  omega

theorem countP_holding_le {n : Nat} {s : Sys} (hinv : Inv n s) :
    s.jobs.countP Job.holding ≤ n := by
  have := hinv.units
  omega

theorem running_le_registered {n : Nat} {s : Sys} (hinv : Inv n s) :
    s.w.running.length ≤ s.jobs.countP Job.registeredNow := by
  have hsub : s.w.running.map Prod.fst ⊆ (s.jobs.filter Job.registeredNow).map Job.key := by
    intro k hk
    obtain ⟨m, j, hm, hr, hkey⟩ := hinv.keysLive k hk
    exact List.mem_map.mpr ⟨j, List.mem_filter.mpr ⟨List.getElem?_mem hm, hr⟩, hkey⟩
  have := (hinv.keysNodup.subperm hsub).length_le
  simpa [List.countP_eq_length_filter] using this

theorem registered_le_holding (l : List Job) :
    l.countP Job.registeredNow ≤ l.countP Job.holding := by
  apply List.countP_mono_left
  intro j _ hj
  cases hpc : j.pc <;> simp [Job.registeredNow, Job.holding, hpc] at hj ⊢

/-! ## Jobs keep their key and their deadline -/

theorem stable_set {l : List Job} {i : Nat} (j0 j1 : Job) (h0 : l[i]? = some j0)
    (hk : j1.key = j0.key) (hd : j1.deadline = j0.deadline)
    (hcn : j0.cancelled = true → j1.cancelled = true)
    {m : Nat} {j : Job} (hm : l[m]? = some j) :
    ∃ j2, (l.set i j1)[m]? = some j2 ∧ j2.key = j.key ∧ j2.deadline = j.deadline ∧
      (j.cancelled = true → j2.cancelled = true) := by
  obtain ⟨hi, -⟩ := List.getElem?_eq_some.mp h0
  by_cases him : i = m
  · subst him
    rw [h0] at hm
    cases hm
    exact ⟨j1, by simp [List.getElem?_set, hi], hk, hd, hcn⟩
  · exact ⟨j, by rw [List.getElem?_set_ne him]; exact hm, rfl, rfl, id⟩

theorem stable_cancelJob (l : List Job) (c : Nat) {m : Nat} {j : Job} (hm : l[m]? = some j) :
    ∃ j2, (cancelJob l c)[m]? = some j2 ∧ j2.key = j.key ∧ j2.deadline = j.deadline ∧
      (j.cancelled = true → j2.cancelled = true) := by
  unfold cancelJob
  split
  · rename_i j0 h0
    exact stable_set j0 _ h0 (by rfl) (by rfl) (by intro _; rfl) hm
  · exact ⟨j, hm, rfl, rfl, id⟩

theorem stable_cancel_foldl (cs : List (String × Nat)) (l : List Job) {m : Nat} {j : Job}
    (hm : l[m]? = some j) :
    ∃ j2, (cs.foldl (fun jobs e => cancelJob jobs e.2) l)[m]? = some j2 ∧ j2.key = j.key ∧
      j2.deadline = j.deadline ∧ (j.cancelled = true → j2.cancelled = true) := by
  induction cs generalizing l j with
  | nil => exact ⟨j, hm, rfl, rfl, id⟩
  | cons e cs ih =>
    obtain ⟨j1, h1, hk1, hd1, hc1⟩ := stable_cancelJob l e.2 hm
    obtain ⟨j2, h2, hk2, hd2, hc2⟩ := ih (cancelJob l e.2) h1
    exact ⟨j2, h2, hk2.trans hk1, hd2.trans hd1, fun h => hc2 (hc1 h)⟩

theorem step_job_stable {s s1 : Sys} {e : Event} (h : step s e = some s1)
    {m : Nat} {j : Job} (hm : s.jobs[m]? = some j) :
    ∃ j2, s1.jobs[m]? = some j2 ∧ j2.key = j.key ∧ j2.deadline = j.deadline ∧
      (j.cancelled = true → j2.cancelled = true) := by
  unfold step at h
  split at h
  · simp at h
  · cases e with
    | start ctx key now pick =>
      dsimp only at h
      simp only [Option.map_eq_some', Prod.exists, exists_eq_right] at h
      obtain ⟨r, hr⟩ := h
      unfold startSelect at hr
      split at hr
      · simp at hr
      · simp only [Option.some.injEq, Prod.mk.injEq] at hr; rw [← hr.2]; exact ⟨j, hm, rfl, rfl, id⟩
      · simp only [Option.some.injEq, Prod.mk.injEq] at hr; rw [← hr.2]; exact ⟨j, hm, rfl, rfl, id⟩
      · split at hr
        · simp at hr
        · simp only [Option.some.injEq, Prod.mk.injEq] at hr
          rw [← hr.2]
          obtain ⟨hlt, -⟩ := List.getElem?_eq_some.mp hm
          exact ⟨j, by simp only; rw [List.getElem?_append_left hlt]; exact hm, rfl, rfl, id⟩
    | register i =>
      dsimp only [startRegister] at h
      split at h
      · rename_i j0 h0
        split at h
        · simp only [Option.some.injEq] at h; rw [← h]
          exact stable_set j0 _ h0 (by rfl) (by rfl) (by intro hx; exact hx) hm
        · simp at h
      · simp at h
    | add i =>
      dsimp only [startAdd] at h
      split at h
      · rename_i j0 h0
        split at h
        · simp only [Option.some.injEq] at h; rw [← h]
          exact stable_set j0 _ h0 (by rfl) (by rfl) (by intro hx; exact hx) hm
        · simp at h
      · simp at h
    | launch i =>
      dsimp only [startGo] at h
      split at h
      · rename_i j0 h0
        split at h
        · simp only [Option.some.injEq] at h; rw [← h]
          exact stable_set j0 _ h0 (by rfl) (by rfl) (by intro hx; exact hx) hm
        · simp at h
      · simp at h
    | fnEnd i panics =>
      dsimp only [fnEnd] at h
      split at h
      · rename_i j0 h0
        split at h
        · simp only [Option.some.injEq] at h; rw [← h]
          exact stable_set j0 _ h0 (by rfl) (by rfl) (by intro hx; exact hx) hm
        · simp at h
      · simp at h
    | deferCancel i =>
      dsimp only [deferCancel] at h
      split at h
      · rename_i j0 h0
        split at h
        · simp only [Option.some.injEq] at h; rw [← h]
          exact stable_set j0 _ h0 (by rfl) (by rfl) (by intro _; rfl) hm
        · simp at h
      · simp at h
    | deferRemove i =>
      dsimp only [deferRemove] at h
      split at h
      · rename_i j0 h0
        split at h
        · simp only [Option.some.injEq] at h; rw [← h]
          exact stable_set j0 _ h0 (by rfl) (by rfl) (by intro hx; exact hx) hm
        · simp at h
      · simp at h
    | deferDone i =>
      dsimp only [deferDone] at h
      split at h
      · rename_i j0 h0
        split at h
        · simp only [Option.some.injEq] at h; rw [← h]
          exact stable_set j0 _ h0 (by rfl) (by rfl) (by intro hx; exact hx) hm
        · simp at h
      · simp at h
    | deferRelease i =>
      dsimp only [deferRelease] at h
      split at h
      · rename_i j0 h0
        split at h
        · split at h
          · simp only [Option.some.injEq] at h; rw [← h]
            exact stable_set j0 _ h0 (by rfl) (by rfl) (by intro hx; exact hx) hm
          · simp at h
        · simp at h
      · simp at h
    | stop workKey =>
      dsimp only at h
      simp only [Option.some.injEq] at h
      rw [← h]
      unfold Stop
      split
      · exact ⟨j, hm, rfl, rfl, id⟩
      · exact stable_cancelJob _ _ hm
    | shutdownClose =>
      dsimp only at h
      simp only [Option.some.injEq] at h
      rw [← h]
      unfold shutdownClose
      split
      · exact ⟨j, hm, rfl, rfl, id⟩
      · exact ⟨j, hm, rfl, rfl, id⟩
    | shutdownCancel =>
      dsimp only at h
      split at h
      · simp only [Option.some.injEq] at h
        rw [← h]
        exact stable_cancel_foldl _ _ hm
      · simp at h

theorem run_job_stable {s s1 : Sys} {evs : List Event} (h : run s evs = some s1)
    {m : Nat} {j : Job} (hm : s.jobs[m]? = some j) :
    ∃ j2, s1.jobs[m]? = some j2 ∧ j2.key = j.key ∧ j2.deadline = j.deadline ∧
      (j.cancelled = true → j2.cancelled = true) := by
  induction evs generalizing s j with
  | nil =>
    simp only [run, Option.some.injEq] at h
    rw [← h]; exact ⟨j, hm, rfl, rfl, id⟩
  | cons e es ih =>
    simp only [run, Option.bind_eq_some] at h
    obtain ⟨s2, h2, h3⟩ := h
    obtain ⟨j1, h1, hk1, hd1, hc1⟩ := step_job_stable h2 hm
    obtain ⟨j2, h4, hk2, hd2, hc2⟩ := ih h3 h1
    exact ⟨j2, h4, hk2.trans hk1, hd2.trans hd1, fun hx => hc2 (hc1 hx)⟩

/-! ## The end of a job -/

theorem lookup_mapDelete_self (m : List (String × Nat)) (k : String) :
    (mapDelete m k).lookup k = none := by
  induction m with
  | nil => rfl
  | cons e m ih =>
    obtain ⟨a, b⟩ := e
    unfold mapDelete at ih ⊢
    by_cases h : a = k
    · simp [List.filter_cons, h, ih]
    · have h1 : (k == a) = false := by simpa using fun hx => h hx.symm
      simp only [List.filter_cons, bne_iff_ne, ne_eq, h, not_false_eq_true, decide_True,
        if_true, List.lookup_cons, h1]
      exact ih

theorem lookup_mapDelete_ne (m : List (String × Nat)) {k k1 : String} (hne : k1 ≠ k) :
    (mapDelete m k).lookup k1 = m.lookup k1 := by
  induction m with
  | nil => rfl
  | cons e m ih =>
    obtain ⟨a, b⟩ := e
    unfold mapDelete at ih ⊢
    by_cases h : a = k
    · subst h
      have h1 : (k1 == a) = false := by simpa using hne
      simp only [List.filter_cons, bne_iff_ne, ne_eq, not_true_eq_false, decide_False,
        List.lookup_cons, h1]
      simpa using ih
    · simp only [List.filter_cons, bne_iff_ne, ne_eq, h, not_false_eq_true, decide_True,
        if_true, List.lookup_cons]
      cases (k1 == a)
      · exact ih
      · rfl

theorem complete_eq {n : Nat} {s : Sys} {i : Nat} {j : Job} (panics : Bool) (hinv : Inv n s)
    (hc : s.crashed = false) (hj : s.jobs[i]? = some j) (hpc : j.pc = .executing) :
    complete s i panics = some (completed s i j panics) := by
  obtain ⟨hi, hji⟩ := List.getElem?_eq_some.mp hj
  have hh : (if Job.holding j = true then 1 else 0) ≤ s.jobs.countP Job.holding := by
    have := List.boole_getElem_le_countP Job.holding s.jobs i hi
    rwa [hji] at this
  have hcnt : (if Job.counted j = true then 1 else 0) ≤ s.jobs.countP Job.counted := by
    have := List.boole_getElem_le_countP Job.counted s.jobs i hi
    rwa [hji] at this
  have hjh : j.holding = true := by simp [Job.holding, hpc]
  have hjc : j.counted = true := by simp [Job.counted, hpc]
  rw [if_pos hjh] at hh
  rw [if_pos hjc] at hcnt
  have hu := hinv.units
  have hcap := hinv.cap
  have hw := hinv.wgCount
  have hlt : s.w.sem.buf.length < s.w.sem.cap := by omega
  have hwg : ¬ (s.w.wg < 1) := by omega
  simp [complete, run, step, hc, fnEnd, deferCancel, deferRemove, deferDone, deferRelease, hj,
    hpc, hi, Chan.send, hlt, hwg, completed]


theorem reachable_oneJob : Reachable 1 oneJob :=
  ⟨fresh1.w, [.start background "k" 0 0, .register 0, .add 0, .launch 0], by decide, by decide⟩

theorem step_crashed {s : Sys} (h : s.crashed = true) (e : Event) : step s e = none := by
  simp [step, h]


theorem reachable_twoJobs : Reachable 2 twoJobs :=
  ⟨fresh2.w, [.start background "a" 0 0, .register 0, .add 0, .launch 0,
              .start background "b" 0 0, .register 1, .add 1, .launch 1],
    by decide, by decide⟩

/-! ## Entries of the running map -/

theorem entry_set {l : List Job} {i : Nat} {j j1 : Job} {e : String × Nat}
    (h : l[i]? = some j) (hkey : j1.key = j.key)
    (hreg : j.registeredNow = true → j.key = e.1 → j1.registeredNow = true)
    (he : ∃ jm : Job, l[e.2]? = some jm ∧ jm.registeredNow = true ∧ jm.key = e.1) :
    ∃ jm : Job, (l.set i j1)[e.2]? = some jm ∧ jm.registeredNow = true ∧ jm.key = e.1 := by
  obtain ⟨jm, hm, hr, hkm⟩ := he
  obtain ⟨hi, -⟩ := List.getElem?_eq_some.mp h
  by_cases him : i = e.2
  · rw [← him] at hm ⊢
    rw [h] at hm
    cases hm
    exact ⟨j1, by simp [List.getElem?_set, hi], hreg hr hkm, by rw [hkey, hkm]⟩
  · exact ⟨jm, by rw [List.getElem?_set_ne him]; exact hm, hr, hkm⟩

theorem mem_mapDelete {m : List (String × Nat)} {k : String} {e : String × Nat}
    (h : e ∈ mapDelete m k) : e ∈ m ∧ e.1 ≠ k := by
  simp only [mapDelete, List.mem_filter] at h
  exact ⟨h.1, by simpa using h.2⟩

theorem entries_set_job {s : Sys} {i : Nat} {j : Job} (j1 : Job) (w1 : Worker) (c : Bool)
    (hl : EntriesLive s) (hj : s.jobs[i]? = some j) (hkey : j1.key = j.key)
    (hlive : ∀ e ∈ w1.running,
      (e ∈ s.w.running ∧ (j.registeredNow = true → j.key = e.1 → j1.registeredNow = true))
      ∨ (e = (j1.key, i) ∧ j1.registeredNow = true)) :
    EntriesLive { w := w1, jobs := s.jobs.set i j1, crashed := c } := by
  obtain ⟨hi, -⟩ := List.getElem?_eq_some.mp hj
  intro e he
  rcases hlive e he with ⟨hold, hreg⟩ | ⟨rfl, hreg⟩
  · exact entry_set hj hkey hreg (hl e hold)
  · exact ⟨j1, by simp [List.getElem?_set, hi], hreg, rfl⟩

theorem entries_cancelJob {s : Sys} (c : Nat) (hl : EntriesLive s) :
    EntriesLive { s with jobs := cancelJob s.jobs c } := by
  unfold cancelJob
  split
  · rename_i j hj
    exact entries_set_job _ s.w s.crashed hl hj (by rfl)
      (fun e he => Or.inl ⟨he, fun h _ => by simpa [Job.registeredNow] using h⟩)
  · exact hl

theorem entries_cancel_foldl (cs : List (String × Nat)) (w : Worker) (c : Bool)
    (jobs : List Job) (hl : EntriesLive { w := w, jobs := jobs, crashed := c }) :
    EntriesLive
      { w := w, jobs := cs.foldl (fun jobs e => cancelJob jobs e.2) jobs, crashed := c } := by
  induction cs generalizing jobs with
  | nil => exact hl
  | cons e cs ih => exact ih _ (entries_cancelJob e.2 hl)

theorem entries_startSelect {s s1 : Sys} {ctx : Ctx} {key : String} {now : Int}
    {pick : Nat} {r : Selected} (hl : EntriesLive s)
    (h : startSelect s ctx key now pick = some (r, s1)) : EntriesLive s1 := by
  unfold startSelect at h
  split at h
  · simp at h
  · simp only [Option.some.injEq, Prod.mk.injEq] at h; rw [← h.2]; exact hl
  · simp only [Option.some.injEq, Prod.mk.injEq] at h; rw [← h.2]; exact hl
  · split at h
    · simp at h
    · simp only [Option.some.injEq, Prod.mk.injEq] at h
      rw [← h.2]
      intro e he
      obtain ⟨j, hm, hr, hkm⟩ := hl e he
      obtain ⟨hlt, -⟩ := List.getElem?_eq_some.mp hm
      exact ⟨j, by simp only; rw [List.getElem?_append_left hlt]; exact hm, hr, hkm⟩

theorem entries_startRegister {s s1 : Sys} {i : Nat} (hl : EntriesLive s)
    (h : startRegister s i = some s1) : EntriesLive s1 := by
  unfold startRegister at h
  split at h
  · rename_i j hj
    split at h
    · rename_i hpc
      simp only [Option.some.injEq] at h
      rw [← h]
      refine entries_set_job _ _ _ hl hj (by rfl) ?_
      intro e he
      simp only [mapInsert, List.mem_cons] at he
      rcases he with rfl | he
      · exact Or.inr ⟨rfl, by simp [Job.registeredNow]⟩
      · exact Or.inl ⟨(mem_mapDelete he).1, fun _ _ => by simp [Job.registeredNow]⟩
    · simp at h
  · simp at h

theorem entries_startAdd {s s1 : Sys} {i : Nat} (hl : EntriesLive s)
    (h : startAdd s i = some s1) : EntriesLive s1 := by
  unfold startAdd at h
  split at h
  · rename_i j hj
    split at h
    · simp only [Option.some.injEq] at h
      rw [← h]
      exact entries_set_job _ _ _ hl hj (by rfl)
        (fun e he => Or.inl ⟨he, fun _ _ => by simp [Job.registeredNow]⟩)
    · simp at h
  · simp at h

theorem entries_startGo {s s1 : Sys} {i : Nat} (hl : EntriesLive s)
    (h : startGo s i = some s1) : EntriesLive s1 := by
  unfold startGo at h
  split at h
  · rename_i j hj
    split at h
    · simp only [Option.some.injEq] at h
      rw [← h]
      exact entries_set_job _ _ _ hl hj (by rfl)
        (fun e he => Or.inl ⟨he, fun _ _ => by simp [Job.registeredNow]⟩)
    · simp at h
  · simp at h

theorem entries_fnEnd {s s1 : Sys} {i : Nat} {panics : Bool} (hl : EntriesLive s)
    (h : fnEnd s i panics = some s1) : EntriesLive s1 := by
  unfold fnEnd at h
  split at h
  · rename_i j hj
    split at h
    · simp only [Option.some.injEq] at h
      rw [← h]
      exact entries_set_job _ _ _ hl hj (by rfl)
        (fun e he => Or.inl ⟨he, fun _ _ => by simp [Job.registeredNow]⟩)
    · simp at h
  · simp at h

theorem entries_deferCancel {s s1 : Sys} {i : Nat} (hl : EntriesLive s)
    (h : deferCancel s i = some s1) : EntriesLive s1 := by
  unfold deferCancel at h
  split at h
  · rename_i j hj
    split at h
    · simp only [Option.some.injEq] at h
      rw [← h]
      exact entries_set_job _ _ _ hl hj (by rfl)
        (fun e he => Or.inl ⟨he, fun _ _ => by simp [Job.registeredNow]⟩)
    · simp at h
  · simp at h

theorem entries_deferRemove {s s1 : Sys} {i : Nat} (hl : EntriesLive s)
    (h : deferRemove s i = some s1) : EntriesLive s1 := by
  unfold deferRemove at h
  split at h
  · rename_i j hj
    split at h
    · simp only [Option.some.injEq] at h
      rw [← h]
      refine entries_set_job _ _ _ hl hj (by rfl) ?_
      intro e he
      obtain ⟨hmem, hne⟩ := mem_mapDelete he
      exact Or.inl ⟨hmem, fun _ hkey => absurd hkey.symm hne⟩
    · simp at h
  · simp at h

theorem entries_deferDone {s s1 : Sys} {i : Nat} (hl : EntriesLive s)
    (h : deferDone s i = some s1) : EntriesLive s1 := by
  unfold deferDone at h
  split at h
  · rename_i j hj
    split at h
    · rename_i hpc
      simp only [Option.some.injEq] at h
      rw [← h]
      exact entries_set_job _ _ _ hl hj (by rfl)
        (fun e he => Or.inl ⟨he, fun hr _ => by simp [Job.registeredNow, hpc] at hr⟩)
    · simp at h
  · simp at h

theorem entries_deferRelease {s s1 : Sys} {i : Nat} (hl : EntriesLive s)
    (h : deferRelease s i = some s1) : EntriesLive s1 := by
  unfold deferRelease at h
  split at h
  · rename_i j hj
    split at h
    · rename_i hpc
      split at h
      · simp only [Option.some.injEq] at h
        rw [← h]
        exact entries_set_job _ _ _ hl hj (by rfl)
          (fun e he => Or.inl ⟨he, fun hr _ => by simp [Job.registeredNow, hpc] at hr⟩)
      · simp at h
    · simp at h
  · simp at h

theorem entries_step {s s1 : Sys} {e : Event} (hl : EntriesLive s)
    (h : step s e = some s1) : EntriesLive s1 := by
  unfold step at h
  split at h
  · simp at h
  · cases e with
    | start ctx key now pick =>
      dsimp only at h
      simp only [Option.map_eq_some', Prod.exists, exists_eq_right] at h
      obtain ⟨r, hr⟩ := h
      exact entries_startSelect hl hr
    | register i => exact entries_startRegister hl h
    | add i => exact entries_startAdd hl h
    | launch i => exact entries_startGo hl h
    | fnEnd i panics => exact entries_fnEnd hl h
    | deferCancel i => exact entries_deferCancel hl h
    | deferRemove i => exact entries_deferRemove hl h
    | deferDone i => exact entries_deferDone hl h
    | deferRelease i => exact entries_deferRelease hl h
    | stop workKey =>
      dsimp only at h
      simp only [Option.some.injEq] at h
      rw [← h]
      unfold Stop
      split
      · exact hl
      · exact entries_cancelJob _ hl
    | shutdownClose =>
      dsimp only at h
      simp only [Option.some.injEq] at h
      rw [← h]
      unfold shutdownClose
      split
      · exact hl
      · exact hl
    | shutdownCancel =>
      dsimp only at h
      split at h
      · simp only [Option.some.injEq] at h
        rw [← h]
        exact entries_cancel_foldl _ _ _ _ hl
      · simp at h

theorem entries_run {s s1 : Sys} {evs : List Event} (hl : EntriesLive s)
    (h : run s evs = some s1) : EntriesLive s1 := by
  induction evs generalizing s with
  | nil =>
    simp only [run, Option.some.injEq] at h
    rw [← h]; exact hl
  | cons e es ih =>
    simp only [run, Option.bind_eq_some] at h
    obtain ⟨s2, h2, h3⟩ := h
    exact ih (entries_step hl h2) h3

theorem entries_reachable {n : Int} {s : Sys} (h : Reachable n s) : EntriesLive s := by
  obtain ⟨w, evs, hnew, hrun⟩ := h
  have hpos : 1 ≤ n := pos_of_New hnew
  rw [New_of_pos n hpos (le_chanLimit_of_New hnew)] at hnew
  simp only [Option.some.injEq, Prod.mk.injEq, and_true] at hnew
  subst hnew
  refine entries_run ?_ hrun
  intro e he
  simp [Sys.init] at he

/-! ## Stop and the cancel functions -/

theorem lookup_eq_none_iff (m : List (String × Nat)) (k : String) :
    m.lookup k = none ↔ k ∉ m.map Prod.fst := by
  induction m with
  | nil => simp
  | cons e m ih =>
    obtain ⟨a, b⟩ := e
    by_cases h : k = a
    · subst h
      simp [List.lookup_cons]
    · have h1 : (k == a) = false := by simpa using h
      simp only [List.lookup_cons, h1, List.map_cons, List.mem_cons, not_or]
      rw [ih]
      exact ⟨fun hx => ⟨h, hx⟩, fun hx => hx.2⟩

theorem mem_of_lookup {m : List (String × Nat)} {k : String} {c : Nat}
    (h : m.lookup k = some c) : (k, c) ∈ m := by
  induction m with
  | nil => simp at h
  | cons e m ih =>
    obtain ⟨a, b⟩ := e
    by_cases hk : k = a
    · subst hk
      simp only [List.lookup_cons, beq_self_eq_true, Option.some.injEq] at h
      subst h
      exact List.mem_cons_self _ _
    · have h1 : (k == a) = false := by simpa using hk
      simp only [List.lookup_cons, h1] at h
      exact List.mem_cons_of_mem _ (ih h)

theorem Stop_of_none {s : Sys} {k : String} (h : s.w.running.lookup k = none) :
    Stop s k = (some (notRunning k), s) := by
  simp [Stop, h, notRunning]

theorem Stop_of_some {s : Sys} {k : String} {c : Nat} (h : s.w.running.lookup k = some c) :
    Stop s k = (none, { s with jobs := cancelJob s.jobs c }) := by
  simp [Stop, h]

theorem cancelJob_self {l : List Job} {c : Nat} {j : Job} (h : l[c]? = some j) :
    (cancelJob l c)[c]? = some { j with cancelled := true } := by
  obtain ⟨hc, -⟩ := List.getElem?_eq_some.mp h
  simp [cancelJob, h, List.getElem?_set, hc]

theorem cancelJob_ne (l : List Job) {c m : Nat} (h : m ≠ c) :
    (cancelJob l c)[m]? = l[m]? := by
  unfold cancelJob
  split
  · exact List.getElem?_set_ne (fun hx => h hx.symm)
  · rfl

theorem cancel_foldl_cancelled (cs : List (String × Nat)) (l : List Job)
    {e : String × Nat} (he : e ∈ cs) {j : Job} (hj : l[e.2]? = some j) :
    ∃ j2, (cs.foldl (fun jobs x => cancelJob jobs x.2) l)[e.2]? = some j2 ∧
      j2.cancelled = true ∧ j2.key = j.key ∧ j2.deadline = j.deadline := by
  induction cs generalizing l j with
  | nil => simp at he
  | cons x cs ih =>
    simp only [List.foldl_cons]
    rcases List.mem_cons.mp he with rfl | hmem
    · obtain ⟨j2, h2, hk, hd, hc⟩ := stable_cancel_foldl cs (cancelJob l e.2) (cancelJob_self hj)
      exact ⟨j2, h2, hc rfl, hk, hd⟩
    · obtain ⟨j1, h1, hk1, hd1, -⟩ := stable_cancelJob l x.2 hj
      obtain ⟨j2, h2, hc2, hk2, hd2⟩ := ih (cancelJob l x.2) hmem h1
      exact ⟨j2, h2, hc2, hk2.trans hk1, hd2.trans hd1⟩

/-! ## Steps after the shutdown flag, and the wait of Shutdown -/

theorem length_mapDelete_le (m : List (String × Nat)) (k : String) :
    (mapDelete m k).length ≤ m.length :=
  List.length_filter_le _ _

theorem length_mapInsert_le (m : List (String × Nat)) (k : String) (v : Nat) :
    (mapInsert m k v).length ≤ m.length + 1 := by
  have := length_mapDelete_le m k
  simp only [mapInsert, List.length_cons]
  unfold mapDelete at this
  omega

theorem step_running {s s1 : Sys} {e : Event} (h : step s e = some s1) :
    (s.w.isShutdown = true → s1.w.isShutdown = true) ∧
    ((∀ i, e ≠ .register i) → s1.w.running.length ≤ s.w.running.length) ∧
    (∀ i, e = .register i → s1.w.running.length ≤ s.w.running.length + 1 ∧
      ∃ j, s.jobs[i]? = some j ∧ j.pc = .acquired ∧
        s1.w.running = mapInsert s.w.running j.key i) := by
  unfold step at h
  split at h
  · simp at h
  · cases e with
    | start ctx key now pick =>
      dsimp only at h
      simp only [Option.map_eq_some', Prod.exists, exists_eq_right] at h
      obtain ⟨r, hr⟩ := h
      unfold startSelect at hr
      split at hr
      · simp at hr
      · simp only [Option.some.injEq, Prod.mk.injEq] at hr; rw [← hr.2]; simp
      · simp only [Option.some.injEq, Prod.mk.injEq] at hr; rw [← hr.2]; simp
      · split at hr
        · simp at hr
        · simp only [Option.some.injEq, Prod.mk.injEq] at hr; rw [← hr.2]; simp
    | register i =>
      dsimp only [startRegister] at h
      split at h
      · rename_i j0 h0
        split at h
        · rename_i hpc
          simp only [Option.some.injEq] at h; rw [← h]
          refine ⟨fun hx => hx, fun hx => absurd rfl (hx i), ?_⟩
          intro i1 hi1
          cases hi1
          exact ⟨length_mapInsert_le _ _ _, j0, h0, hpc, rfl⟩
        · simp at h
      · simp at h
    | add i =>
      dsimp only [startAdd] at h
      split at h
      · split at h
        · simp only [Option.some.injEq] at h; rw [← h]; simp
        · simp at h
      · simp at h
    | launch i =>
      dsimp only [startGo] at h
      split at h
      · split at h
        · simp only [Option.some.injEq] at h; rw [← h]; simp
        · simp at h
      · simp at h
    | fnEnd i panics =>
      dsimp only [fnEnd] at h
      split at h
      · split at h
        · simp only [Option.some.injEq] at h; rw [← h]; simp
        · simp at h
      · simp at h
    | deferCancel i =>
      dsimp only [deferCancel] at h
      split at h
      · split at h
        · simp only [Option.some.injEq] at h; rw [← h]; simp
        · simp at h
      · simp at h
    | deferRemove i =>
      dsimp only [deferRemove] at h
      split at h
      · split at h
        · simp only [Option.some.injEq] at h; rw [← h]
          exact ⟨fun hx => hx, fun _ => length_mapDelete_le _ _, fun i1 hi1 => by cases hi1⟩
        · simp at h
      · simp at h
    | deferDone i =>
      dsimp only [deferDone] at h
      split at h
      · split at h
        · simp only [Option.some.injEq] at h; rw [← h]; simp
        · simp at h
      · simp at h
    | deferRelease i =>
      dsimp only [deferRelease] at h
      split at h
      · split at h
        · split at h
          · simp only [Option.some.injEq] at h; rw [← h]; simp
          · simp at h
        · simp at h
      · simp at h
    | stop workKey =>
      dsimp only at h
      simp only [Option.some.injEq] at h
      rw [← h]
      unfold Stop
      split <;> simp
    | shutdownClose =>
      dsimp only at h
      simp only [Option.some.injEq] at h
      rw [← h]
      unfold shutdownClose
      split <;> simp
    | shutdownCancel =>
      dsimp only at h
      split at h
      · simp only [Option.some.injEq] at h
        rw [← h]
        simp [shutdownCancel]
      · simp at h

theorem shutdownSelect_closed {ctx : Ctx} (pick : Nat) (h : ctx.err = none) :
    shutdownSelect true ctx pick = some none := by
  simp [shutdownSelect, shutdownReady, h, goSelect, Nat.mod_one]

theorem shutdownSelect_done {ctx : Ctx} {e : GoError} (pick : Nat) (h : ctx.err = some e) :
    shutdownSelect false ctx pick = some (some e) := by
  simp [shutdownSelect, shutdownReady, h, goSelect, Nat.mod_one]

theorem shutdownSelect_blocks {ctx : Ctx} (pick : Nat) (h : ctx.err = none) :
    shutdownSelect false ctx pick = none := by
  simp [shutdownSelect, shutdownReady, h, goSelect]

theorem shutdownSelect_both {ctx : Ctx} {e : GoError} (pick : Nat) (h : ctx.err = some e) :
    shutdownSelect true ctx pick = some none ∨ shutdownSelect true ctx pick = some (some e) := by
  have h2 : pick % 2 = 0 ∨ pick % 2 = 1 := by omega
  rcases h2 with h2 | h2 <;> simp [shutdownSelect, shutdownReady, h, goSelect, h2]

theorem Shutdown_fst {s : Sys} (ctx : Ctx) (pick : Nat) (hc : s.crashed = false)
    (hs : s.w.isShutdown = false) :
    (Shutdown s ctx pick).1 = shutdownSelect (decide (s.w.wg = 0)) ctx pick := by
  simp [Shutdown, hc, shutdownClose, hs, shutdownCancel, waiter]

theorem wg_pos_of_counted {n : Nat} {s : Sys} {i : Nat} {j : Job} (hinv : Inv n s)
    (hj : s.jobs[i]? = some j) (hcnt : j.counted = true) : 1 ≤ s.w.wg := by
  obtain ⟨hi, hji⟩ := List.getElem?_eq_some.mp hj
  have := List.boole_getElem_le_countP Job.counted s.jobs i hi
  rw [hji, if_pos hcnt] at this
  have hw := hinv.wgCount
  omega

theorem step_flag {s s1 : Sys} {e : Event} (h : step s e = some s1)
    (he : e ≠ .shutdownClose) : s1.w.isShutdown = s.w.isShutdown := by
  unfold step at h
  split at h
  · simp at h
  · cases e with
    | start ctx key now pick =>
      dsimp only at h
      simp only [Option.map_eq_some', Prod.exists, exists_eq_right] at h
      obtain ⟨r, hr⟩ := h
      unfold startSelect at hr
      split at hr
      · simp at hr
      · simp only [Option.some.injEq, Prod.mk.injEq] at hr; rw [← hr.2]
      · simp only [Option.some.injEq, Prod.mk.injEq] at hr; rw [← hr.2]
      · split at hr
        · simp at hr
        · simp only [Option.some.injEq, Prod.mk.injEq] at hr; rw [← hr.2]
    | shutdownClose => exact absurd rfl he
    | stop workKey =>
      dsimp only at h
      simp only [Option.some.injEq] at h
      rw [← h]
      unfold Stop
      split <;> rfl
    | shutdownCancel =>
      dsimp only at h
      split at h
      · simp only [Option.some.injEq] at h
        rw [← h]
        rfl
      · simp at h
    | _ =>
      dsimp only [startRegister, startAdd, startGo, fnEnd, deferCancel, deferRemove, deferDone,
        deferRelease] at h
      repeat' split at h
      all_goals first
        | (simp at h; done)
        | (simp only [Option.some.injEq] at h; rw [← h])

theorem run_flag {s s1 : Sys} {evs : List Event} (h : run s evs = some s1)
    (he : ∀ e ∈ evs, e ≠ .shutdownClose) : s1.w.isShutdown = s.w.isShutdown := by
  induction evs generalizing s with
  | nil =>
    simp only [run, Option.some.injEq] at h
    rw [← h]
  | cons e es ih =>
    simp only [run, Option.bind_eq_some] at h
    obtain ⟨s2, h2, h3⟩ := h
    rw [ih h3 (fun x hx => he x (List.mem_cons_of_mem _ hx)),
      step_flag h2 (he e (List.mem_cons_self _ _))]

/-! ## States of the examples -/

theorem reachable_fresh1 : Reachable 1 fresh1 := ⟨fresh1.w, [], by decide, by decide⟩

theorem reachable_sameKey : Reachable 2 sameKey :=
  ⟨fresh2.w, [.start background "k" 0 0, .register 0, .add 0, .launch 0,
              .start background "k" 0 0, .register 1, .add 1, .launch 1],
    by decide, by decide⟩

/-! ## What cancels the context of a job -/

theorem set_cancelled {l : List Job} {i : Nat} (j0 jn : Job) {m : Nat} {j j1 : Job}
    (h0 : l[i]? = some j0) (hm : l[m]? = some j) (hm1 : (l.set i jn)[m]? = some j1)
    (hc : j.cancelled = false) (hc1 : j1.cancelled = true) :
    m = i ∧ jn.cancelled = true ∧ j0.cancelled = false := by
  by_cases him : i = m
  · subst him
    obtain ⟨hi, -⟩ := List.getElem?_eq_some.mp h0
    rw [h0] at hm
    cases hm
    simp only [List.getElem?_set, hi, if_true, Option.some.injEq] at hm1
    subst hm1
    exact ⟨rfl, hc1, hc⟩
  · rw [List.getElem?_set_ne him, hm] at hm1
    cases hm1
    rw [hc] at hc1
    cases hc1

theorem step_cancelled {s s1 : Sys} {e : Event} (h : step s e = some s1)
    {m : Nat} {j j1 : Job} (hm : s.jobs[m]? = some j) (hm1 : s1.jobs[m]? = some j1)
    (hc : j.cancelled = false) (hc1 : j1.cancelled = true) :
    (∃ k, e = .stop k ∧ s.w.running.lookup k = some m) ∨ e = .shutdownCancel ∨
      e = .deferCancel m := by
  have same : s1.jobs[m]? = s.jobs[m]? → False := by
    intro hx
    rw [hx, hm] at hm1
    cases hm1
    rw [hc] at hc1
    cases hc1
  unfold step at h
  split at h
  · simp at h
  · cases e with
    | start ctx key now pick =>
      dsimp only at h
      simp only [Option.map_eq_some', Prod.exists, exists_eq_right] at h
      obtain ⟨r, hr⟩ := h
      unfold startSelect at hr
      split at hr
      · simp at hr
      · simp only [Option.some.injEq, Prod.mk.injEq] at hr
        exact (same (by rw [← hr.2])).elim
      · simp only [Option.some.injEq, Prod.mk.injEq] at hr
        exact (same (by rw [← hr.2])).elim
      · split at hr
        · simp at hr
        · simp only [Option.some.injEq, Prod.mk.injEq] at hr
          obtain ⟨hlt, -⟩ := List.getElem?_eq_some.mp hm
          exact (same (by rw [← hr.2]; exact List.getElem?_append_left hlt)).elim
    | shutdownClose =>
      dsimp only at h
      simp only [Option.some.injEq] at h
      refine (same ?_).elim
      rw [← h]
      unfold shutdownClose
      split <;> rfl
    | stop workKey =>
      dsimp only at h
      simp only [Option.some.injEq] at h
      cases hl : s.w.running.lookup workKey with
      | none =>
        rw [Stop_of_none hl] at h
        exact (same (by rw [← h])).elim
      | some c =>
        rw [Stop_of_some hl] at h
        by_cases hmc : m = c
        · subst hmc
          exact Or.inl ⟨workKey, rfl, hl⟩
        · exact (same (by rw [← h]; exact cancelJob_ne _ hmc)).elim
    | shutdownCancel => exact Or.inr (Or.inl rfl)
    | deferCancel i =>
      dsimp only [deferCancel] at h
      split at h
      · rename_i j0 h0
        split at h
        · simp only [Option.some.injEq] at h
          rw [← h] at hm1
          obtain ⟨hmi, -, -⟩ := set_cancelled j0 _ h0 hm hm1 hc hc1
          rw [hmi]
          exact Or.inr (Or.inr rfl)
        · simp at h
      · simp at h
    | _ =>
      dsimp only [startRegister, startAdd, startGo, fnEnd, deferRemove, deferDone,
        deferRelease] at h
      repeat' split at h
      all_goals first
        | (simp at h; done)
        | (simp only [Option.some.injEq] at h
           rw [← h] at hm1
           obtain ⟨-, h1, h2⟩ := set_cancelled _ _ (by assumption) hm hm1 hc hc1
           rw [h2] at h1
           cases h1)

/-! ## The wait group and the order of the deferred calls -/

theorem countP_counted_split (l : List Job) :
    l.countP Job.counted = l.countP Job.launchedNotDone + l.countP Job.addedNotLaunched := by
  induction l with
  | nil => rfl
  | cons j l ih =>
    simp only [List.countP_cons, ih]
    cases hpc : j.pc <;>
      simp [Job.counted, Job.launchedNotDone, Job.addedNotLaunched, hpc] <;> omega

theorem start_keeps_jobs {s s1 : Sys} {ctx : Ctx} {key : String} {now : Int} {pick : Nat}
    (h : step s (.start ctx key now pick) = some s1) {m : Nat} {j : Job}
    (hm : s.jobs[m]? = some j) : s1.jobs[m]? = some j := by
  unfold step at h
  split at h
  · simp at h
  · dsimp only at h
    simp only [Option.map_eq_some', Prod.exists, exists_eq_right] at h
    obtain ⟨r, hr⟩ := h
    unfold startSelect at hr
    split at hr
    · simp at hr
    · simp only [Option.some.injEq, Prod.mk.injEq] at hr; rw [← hr.2]; exact hm
    · simp only [Option.some.injEq, Prod.mk.injEq] at hr; rw [← hr.2]; exact hm
    · split at hr
      · simp at hr
      · simp only [Option.some.injEq, Prod.mk.injEq] at hr
        obtain ⟨hlt, -⟩ := List.getElem?_eq_some.mp hm
        rw [← hr.2]
        simp only
        rw [List.getElem?_append_left hlt]
        exact hm

theorem reachable_addedNotLaunched : Reachable 1 addedNotLaunchedState :=
  ⟨fresh1.w, [.start background "k" 0 0, .register 0, .add 0], by decide, by decide⟩

theorem deferRelease_pc {s s1 : Sys} {i : Nat} (h : deferRelease s i = some s1) :
    ∃ j, s.jobs[i]? = some j ∧ j.pc = .wgDone ∧ s1.w.sem.buf = s.w.sem.buf ++ [true] ∧
      s1.w.running = s.w.running ∧ s1.w.wg = s.w.wg := by
  unfold deferRelease at h
  split at h
  · rename_i j hj
    split at h
    · rename_i hpc
      split at h
      · rename_i sem hsend
        obtain ⟨-, hbuf, -⟩ := send_eq_some hsend
        simp only [Option.some.injEq] at h
        rw [← h]
        exact ⟨j, hj, hpc, hbuf, rfl, rfl⟩
      · simp at h
    · simp at h
  · simp at h

theorem deferDone_pc {s s1 : Sys} {i : Nat} (h : deferDone s i = some s1) :
    ∃ j, s.jobs[i]? = some j ∧ j.pc = .removed ∧ s1.w.wg = s.w.wg - 1 ∧
      s1.w.running = s.w.running ∧ s1.w.sem = s.w.sem := by
  unfold deferDone at h
  split at h
  · rename_i j hj
    split at h
    · rename_i hpc
      simp only [Option.some.injEq] at h
      rw [← h]
      exact ⟨j, hj, hpc, rfl, rfl, rfl⟩
    · simp at h
  · simp at h

theorem deferRemove_pc {s s1 : Sys} {i : Nat} (h : deferRemove s i = some s1) :
    ∃ j, s.jobs[i]? = some j ∧ j.pc = .cancelDone ∧
      s1.w.running = mapDelete s.w.running j.key ∧ s1.w.wg = s.w.wg ∧
      s1.w.sem = s.w.sem := by
  unfold deferRemove at h
  split at h
  · rename_i j hj
    split at h
    · rename_i hpc
      simp only [Option.some.injEq] at h
      rw [← h]
      exact ⟨j, hj, hpc, rfl, rfl, rfl⟩
    · simp at h
  · simp at h

theorem startAdd_pc {s s1 : Sys} {i : Nat} (h : startAdd s i = some s1) :
    ∃ j, s.jobs[i]? = some j ∧ j.pc = .registered ∧ s1.w.wg = s.w.wg + 1 := by
  unfold startAdd at h
  split at h
  · rename_i j hj
    split at h
    · rename_i hpc
      simp only [Option.some.injEq] at h
      rw [← h]
      exact ⟨j, hj, hpc, rfl⟩
    · simp at h
  · simp at h

theorem deferRelease_enabled {n : Nat} {s : Sys} {i : Nat} {j : Job} (hinv : Inv n s)
    (hj : s.jobs[i]? = some j) (hpc : j.pc = .wgDone) :
    ∃ s1, deferRelease s i = some s1 := by
  obtain ⟨hi, hji⟩ := List.getElem?_eq_some.mp hj
  have hh := List.boole_getElem_le_countP Job.holding s.jobs i hi
  have hjh : j.holding = true := by simp [Job.holding, hpc]
  rw [hji, if_pos hjh] at hh
  have hu := hinv.units
  have hcap := hinv.cap
  have hlt : s.w.sem.buf.length < s.w.sem.cap := by omega
  simp [deferRelease, hj, hpc, Chan.send, hlt]

/-! ## Start as a sequence of steps, and the cause of a cancellation -/

theorem Start_admits {s : Sys} {ctx : Ctx} {key : String} {now : Int} {pick : Nat}
    {k : String} {s1 : Sys} (h : Start s ctx key now pick = some ((k, none), s1)) :
    s.crashed = false ∧ goSelect (readyCases s.w ctx) pick = some .semRecv ∧ k = key ∧
      ∃ v rest, s.w.sem.buf = v :: rest ∧ s1 = admitted s ctx key now rest := by
  have hc : s.crashed = false := by
    cases hcr : s.crashed
    · rfl
    · simp [Start, hcr] at h
  cases hcase : goSelect (readyCases s.w ctx) pick with
  | none => rw [Start_blocks key now hcase] at h; simp at h
  | some c =>
    cases c with
    | shutdown => rw [Start_of_shutdown key now hc hcase] at h; simp at h
    | ctxDone =>
      have hsome := mem_readyCases_ctxDone.mp (goSelect_mem hcase)
      rw [Start_of_ctxDone key now hc hcase] at h
      simp only [Option.some.injEq, Prod.mk.injEq] at h
      rw [h.1.2] at hsome
      simp at hsome
    | semRecv =>
      obtain ⟨v, rest, hbuf, h1⟩ := Start_of_semRecv key now hc hcase
      rw [h1] at h
      simp only [Option.some.injEq, Prod.mk.injEq, and_true] at h
      exact ⟨hc, rfl, h.1.symm, v, rest, hbuf, h.2.symm⟩

theorem Start_run {s : Sys} {ctx : Ctx} {key : String} {now : Int} {pick : Nat}
    {k : String} {s1 : Sys} (h : Start s ctx key now pick = some ((k, none), s1)) :
    run s [.start ctx key now pick, .register s.jobs.length, .add s.jobs.length,
      .launch s.jobs.length] = some s1 := by
  obtain ⟨hc, hcase, -, v, rest, hbuf, rfl⟩ := Start_admits h
  simp [run, step, startSelect, hcase, hc, Chan.recv, hbuf, startRegister, startAdd, startGo,
    admitted]

theorem run_append {s s1 s2 : Sys} {evs evs1 : List Event} (h : run s evs = some s1)
    (h1 : run s1 evs1 = some s2) : run s (evs ++ evs1) = some s2 := by
  induction evs generalizing s with
  | nil =>
    simp only [run, Option.some.injEq] at h
    subst h
    exact h1
  | cons e es ih =>
    simp only [run, Option.bind_eq_some] at h
    obtain ⟨s3, h3, h4⟩ := h
    simp only [List.cons_append, run, Option.bind_eq_some]
    exact ⟨s3, h3, ih h4⟩

theorem reachable_run {n : Int} {s s1 : Sys} {evs : List Event} (hr : Reachable n s)
    (h : run s evs = some s1) : Reachable n s1 := by
  obtain ⟨w, evs0, hnew, hrun⟩ := hr
  exact ⟨w, evs0 ++ evs, hnew, run_append hrun h⟩

theorem reachable_Start {n : Int} {s : Sys} {ctx : Ctx} {key : String} {now : Int} {pick : Nat}
    {k : String} {s1 : Sys} (hr : Reachable n s)
    (h : Start s ctx key now pick = some ((k, none), s1)) : Reachable n s1 :=
  reachable_run hr (Start_run h)

theorem run_cancelled {s s1 : Sys} {evs : List Event} (hent : EntriesLive s)
    (h : run s evs = some s1) {m : Nat} {j j1 : Job} (hm : s.jobs[m]? = some j)
    (hm1 : s1.jobs[m]? = some j1) (hc : j.cancelled = false) (hc1 : j1.cancelled = true) :
    ∃ e ∈ evs, e = .stop j.key ∨ e = .shutdownCancel ∨ e = .deferCancel m := by
  induction evs generalizing s j with
  | nil =>
    simp only [run, Option.some.injEq] at h
    subst h
    rw [hm] at hm1
    cases hm1
    rw [hc] at hc1
    cases hc1
  | cons e es ih =>
    simp only [run, Option.bind_eq_some] at h
    obtain ⟨s2, h2, h3⟩ := h
    obtain ⟨j2, hj2, hk2, -, -⟩ := step_job_stable h2 hm
    cases hc2 : j2.cancelled with
    | true =>
      refine ⟨e, List.mem_cons_self _ _, ?_⟩
      rcases step_cancelled h2 hm hj2 hc hc2 with ⟨k, rfl, hl⟩ | h4 | h4
      · obtain ⟨j0, hj0, -, hkey⟩ := hent (k, m) (mem_of_lookup hl)
        simp only at hj0 hkey
        rw [hm] at hj0
        cases hj0
        exact Or.inl (by rw [hkey])
      · exact Or.inr (Or.inl h4)
      · exact Or.inr (Or.inr h4)
    | false =>
      obtain ⟨e1, he1, hcause⟩ := ih (entries_step hent h2) h3 hj2 hc2
      rw [hk2] at hcause
      exact ⟨e1, List.mem_cons_of_mem _ he1, hcause⟩

theorem cancel_foldl_other (cs : List (String × Nat)) (l : List Job) {i : Nat}
    (hi : ∀ e ∈ cs, e.2 ≠ i) :
    (cs.foldl (fun jobs x => cancelJob jobs x.2) l)[i]? = l[i]? := by
  induction cs generalizing l with
  | nil => rfl
  | cons x cs ih =>
    simp only [List.foldl_cons]
    rw [ih (cancelJob l x.2) (fun e he => hi e (List.mem_cons_of_mem _ he))]
    exact cancelJob_ne l (fun h => hi x (List.mem_cons_self _ _) h.symm)

/-! ## The wait of Shutdown among the other goroutines -/

theorem run_flag_set {s s1 : Sys} {evs : List Event} (h : run s evs = some s1)
    (hs : s.w.isShutdown = true) : s1.w.isShutdown = true := by
  induction evs generalizing s with
  | nil =>
    simp only [run, Option.some.injEq] at h
    rw [← h]; exact hs
  | cons e es ih =>
    simp only [run, Option.bind_eq_some] at h
    obtain ⟨s2, h2, h3⟩ := h
    refine ih h3 ?_
    by_cases he : e = .shutdownClose
    · subst he
      cases hcr : s.crashed
      · simp only [step, hcr, Bool.false_eq_true, if_false, Option.some.injEq] at h2
        rw [← h2]
        simp [shutdownClose, hs]
      · simp [step, hcr] at h2
    · rw [step_flag h2 he]; exact hs

theorem run_shutdown {s : Sys} (hc : s.crashed = false) (hs : s.w.isShutdown = false) :
    run s [.shutdownClose, .shutdownCancel] = some (shutdownCancel (shutdownClose s)) ∧
      (shutdownClose s).crashed = false ∧
      (shutdownCancel (shutdownClose s)).w.isShutdown = true := by
  simp [run, step, hc, shutdownClose, hs, shutdownCancel]

theorem stillWaiting_run {s s1 : Sys} {pre : List (List Event × Ctx × Nat)}
    (h : stillWaiting s pre = some s1) : ∃ evs, run s evs = some s1 := by
  induction pre generalizing s with
  | nil =>
    simp only [stillWaiting, Option.some.injEq] at h
    exact ⟨[], by rw [← h]; rfl⟩
  | cons r pre ih =>
    obtain ⟨evs, ctx, pick⟩ := r
    simp only [stillWaiting] at h
    split at h
    · simp at h
    · rename_i s2 h2
      split at h
      · obtain ⟨evs1, h3⟩ := ih h
        exact ⟨evs ++ evs1, run_append h2 h3⟩
      · simp at h

theorem shutdownWait_append {s s1 : Sys} {pre : List (List Event × Ctx × Nat)}
    (rest : List (List Event × Ctx × Nat)) (h : stillWaiting s pre = some s1) :
    shutdownWait s (pre ++ rest) = shutdownWait s1 rest := by
  induction pre generalizing s with
  | nil =>
    simp only [stillWaiting, Option.some.injEq] at h
    rw [← h]; rfl
  | cons r pre ih =>
    obtain ⟨evs, ctx, pick⟩ := r
    simp only [stillWaiting] at h
    split at h
    · simp at h
    · rename_i s2 h2
      split at h
      · rename_i hb
        have hw : waiter s2 false = false := by simp [waiter, hb.1]
        simp only [List.cons_append, shutdownWait, h2, hw, shutdownSelect_blocks pick hb.2]
        exact ih h
      · simp at h

theorem shutdownWait_returns {s s1 : Sys} {evs : List Event} {ctx : Ctx} {pick : Nat}
    {err : Option GoError} (rest : List (List Event × Ctx × Nat)) (h : run s evs = some s1)
    (hsel : shutdownSelect (decide (s1.w.wg = 0)) ctx pick = some err) :
    shutdownWait s ((evs, ctx, pick) :: rest) = some (err, s1) := by
  simp [shutdownWait, h, waiter, hsel]

theorem shutdownWait_blocks {s s1 : Sys} {evs : List Event} {ctx : Ctx} {pick : Nat}
    (rest : List (List Event × Ctx × Nat)) (h : run s evs = some s1)
    (hsel : shutdownSelect (decide (s1.w.wg = 0)) ctx pick = none) :
    shutdownWait s ((evs, ctx, pick) :: rest) = shutdownWait s1 rest := by
  simp [shutdownWait, h, waiter, hsel]

theorem stillWaiting_snoc {s s1 s2 : Sys} {pre : List (List Event × Ctx × Nat)}
    {evs : List Event} {ctx : Ctx} (pick : Nat) (h : stillWaiting s pre = some s1)
    (hrun : run s1 evs = some s2) (hne : s2.w.wg ≠ 0) (he : ctx.err = none) :
    stillWaiting s (pre ++ [(evs, ctx, pick)]) = some s2 := by
  induction pre generalizing s with
  | nil =>
    simp only [stillWaiting, Option.some.injEq] at h
    subst h
    simp [stillWaiting, hrun, hne, he]
  | cons r pre ih =>
    obtain ⟨evs0, ctx0, pick0⟩ := r
    simp only [stillWaiting] at h
    split at h
    · simp at h
    · rename_i s3 h3
      split at h
      · rename_i hb
        simp only [List.cons_append, stillWaiting, h3, hb, ne_eq, not_false_eq_true, and_self,
          if_true]
        exact ih h
      · simp at h

/-! ## The claims -/

/-- C6 (the claim as written fails): `New(math.MaxInt64)` has an argument `≥ 1` and
returns neither a worker nor an error: `make(chan bool, n)` panics, the size being over
the limit of the runtime. -/
theorem New_maxInt_panics :
    (1 : Int) ≤ maxInt ∧ New maxInt = none ∧ ¬ ∃ w, New maxInt = some (some w, none) := by
  have h : New maxInt = none := New_of_gt maxInt (by decide)
  refine ⟨by decide, h, ?_⟩
  rintro ⟨w, hw⟩
  rw [h] at hw
  simp at hw

/-- C6 (amended): `New(n)` returns a nil worker and a non-nil error, the one of
`errors.New("max running jobs must be greater than 0")`, exactly when `n ≤ 0`; it
returns a non-nil worker and a nil error exactly when `1 ≤ n` and `n` is at most the
largest size `make(chan bool, n)` accepts; above that size `make` panics and `New`
returns nothing; a call with `1 ≤ n` that returns, returns a worker and a nil error. -/
theorem New_error_iff (n : Int) :
    ((∃ e, New n = some (none, some e)) ↔ n ≤ 0) ∧
      (n ≤ 0 → New n = some (none, some (.errorsNew "max running jobs must be greater than 0"))) ∧
      ((∃ w, New n = some (some w, none)) ↔ 1 ≤ n ∧ n ≤ (chanLimit : Int)) ∧
      (New n = none ↔ (chanLimit : Int) < n) ∧
      (∀ r, 1 ≤ n → New n = some r → ∃ w, r = (some w, none)) := by
  have hlim : (0 : Int) ≤ (chanLimit : Int) := Int.ofNat_nonneg _
  refine ⟨⟨?_, ?_⟩, New_of_nonpos n, ⟨?_, ?_⟩, ⟨?_, New_of_gt n⟩, ?_⟩
  · rintro ⟨e, he⟩
    by_contra hn
    rw [New_of_pos n (by omega) (le_chanLimit_of_New he)] at he
    simp at he
  · intro h
    exact ⟨_, New_of_nonpos n h⟩
  · rintro ⟨w, hw⟩
    exact ⟨pos_of_New hw, le_chanLimit_of_New hw⟩
  · rintro ⟨h1, h2⟩
    exact ⟨_, New_of_pos n h1 h2⟩
  · intro h
    by_contra hn
    rcases le_or_lt n 0 with h0 | h0
    · rw [New_of_nonpos n h0] at h
      simp at h
    · rw [New_of_pos n (by omega) (by omega)] at h
      simp at h
  · intro r h1 hr
    rw [New_of_pos n h1 (le_chanLimit_of_New hr)] at hr
    simp only [Option.some.injEq] at hr
    exact ⟨_, hr.symm⟩

theorem New_error_iff_witness :
    (∃ w, New 3 = some (some w, none)) ∧ (∃ e, New (-1) = some (none, some e)) :=
  ⟨(New_error_iff 3).2.2.1.mpr ⟨by decide, by decide⟩, (New_error_iff (-1)).1.mpr (by decide)⟩

/-- C7: for `1 ≤ n` the worker `New(n)` returns has a semaphore of capacity `n` whose
buffer holds `n` values, so that it is full, an empty running map, `Running() = 0`, a
wait-group counter of 0 and an open `isShutdown` channel; and `New(n)` returns such a
worker exactly for the `n` that `make(chan bool, n)` accepts. -/
theorem New_initial_state (n : Int) (h : 1 ≤ n) :
    (∀ w, New n = some (some w, none) →
      (w.sem.cap : Int) = n ∧ (w.sem.buf.length : Int) = n ∧
      w.sem.buf = List.replicate n.toNat true ∧ w.sem.send true = none ∧
      w.running = [] ∧ w.Running = 0 ∧ w.wg = 0 ∧ w.isShutdown = false) ∧
    ((∃ w, New n = some (some w, none) ∧ (w.sem.cap : Int) = n ∧ (w.sem.buf.length : Int) = n ∧
        w.sem.buf = List.replicate n.toNat true ∧ w.sem.send true = none ∧
        w.running = [] ∧ w.Running = 0 ∧ w.wg = 0 ∧ w.isShutdown = false) ↔
      n ≤ (chanLimit : Int)) := by
  refine ⟨?_, ⟨fun ⟨w, hw, _⟩ => le_chanLimit_of_New hw, ?_⟩⟩
  · intro w hw
    rw [New_of_pos n h (le_chanLimit_of_New hw)] at hw
    simp only [Option.some.injEq, Prod.mk.injEq, and_true] at hw
    subst hw
    refine ⟨?_, ?_, rfl, ?_, rfl, rfl, rfl, rfl⟩
    · simp; omega
    · simp; omega
    · simp [Chan.send]
  · intro hle
    refine ⟨_, New_of_pos n h hle, ?_, ?_, rfl, ?_, rfl, rfl, rfl, rfl⟩
    · simp; omega
    · simp; omega
    · simp [Chan.send]

theorem New_initial_state_witness :
    (1 : Int) ≤ 3 ∧ ∃ w, New 3 = some (some w, none) ∧ (w.sem.cap : Int) = 3 ∧
      (w.sem.buf.length : Int) = 3 ∧
      w.sem.buf = List.replicate (3 : Int).toNat true ∧ w.sem.send true = none ∧
      w.running = [] ∧ w.Running = 0 ∧ w.wg = 0 ∧ w.isShutdown = false :=
  ⟨by decide, (New_initial_state 3 (by decide)).2.mpr (by decide)⟩

/-- C1: on a worker built by `New(n)`, after any sequence of steps of `Start`, of job
goroutines, of `Stop` and of `Shutdown`, the number of jobs whose body is executing is
at most `n`, and so is the number of jobs admitted by `Start` whose body has not
returned. -/
theorem executing_le_capacity (n : Int) (s : Sys) (h : Reachable n s) :
    (s.jobs.countP Job.inBody : Int) ≤ n ∧ (s.jobs.countP Job.admittedNotReturned : Int) ≤ n := by
  have hinv := inv_reachable h
  have hn := toNat_of_reachable h
  have hh := countP_holding_le hinv
  have h1 : s.jobs.countP Job.inBody ≤ s.jobs.countP Job.holding := by
    apply List.countP_mono_left
    intro j _ hj
    cases hpc : j.pc <;> simp [Job.inBody, Job.holding, hpc] at hj ⊢
  have h2 : s.jobs.countP Job.admittedNotReturned ≤ s.jobs.countP Job.holding := by
    apply List.countP_mono_left
    intro j _ hj
    cases hpc : j.pc <;> simp [Job.admittedNotReturned, Job.holding, hpc] at hj ⊢
  omega

theorem executing_le_capacity_witness :
    Reachable 2 twoJobs ∧ twoJobs.jobs.countP Job.inBody = 2 ∧
    ((twoJobs.jobs.countP Job.inBody : Int) ≤ 2 ∧
      (twoJobs.jobs.countP Job.admittedNotReturned : Int) ≤ 2) :=
  ⟨reachable_twoJobs, by decide, executing_le_capacity 2 twoJobs reachable_twoJobs⟩

/-- C2: in every reachable state of a worker built by `New(n)` the size of the running
map, which is what `Running()` returns, is at most `n`. -/
theorem running_le_capacity (n : Int) (s : Sys) (h : Reachable n s) :
    (s.w.Running : Int) ≤ n := by
  have hinv := inv_reachable h
  have hn := toNat_of_reachable h
  have h1 := running_le_registered hinv
  have h2 := registered_le_holding s.jobs
  have h3 := countP_holding_le hinv
  unfold Worker.Running
  omega

theorem running_le_capacity_witness :
    Reachable 2 twoJobs ∧ twoJobs.w.Running = 2 ∧ (twoJobs.w.Running : Int) ≤ 2 :=
  ⟨reachable_twoJobs, by decide, running_le_capacity 2 twoJobs reachable_twoJobs⟩

/-- C3, the code at the failing input: on a worker built by `New(1)` whose `Shutdown`
has closed `isShutdown`, a later `Start` whose select takes the ready case `<-w.sem`
returns a work key and a nil error and admits the job; and with a caller's context
that is done, a later `Start` whose select takes `<-ctx.Done()` returns `ctx.Err()`
and not the "shutting down" error. -/
theorem Start_after_Shutdown_may_admit :
    New 1 = some (some fresh1.w, none) ∧
    (shutdownClose fresh1).w.isShutdown = true ∧
    (∃ s1, Start (shutdownClose fresh1) background "k" 0 1 = some (("k", none), s1) ∧
      s1.w.running = [("k", 0)] ∧ s1.w.sem.buf = [] ∧ s1.jobs.map Job.pc = [PC.executing]) ∧
    Start (shutdownClose fresh1) cancelledCtx "k" 0 1
      = some (("", some .canceled), shutdownClose fresh1) := by
  refine ⟨by decide, by decide, ⟨_, rfl, by decide, by decide, by decide⟩, by decide⟩

/-- C4 as stated fails: on a worker built by `New(1)`, not shut down, a `Start` with a
cancelled context whose select takes the ready case `<-w.sem` admits the job and
returns its key with a nil error instead of `ctx.Err()`. -/
theorem Start_ctx_done_may_admit :
    New 1 = some (some fresh1.w, none) ∧ fresh1.w.isShutdown = false ∧
    cancelledCtx.err = some .canceled ∧
    Start fresh1 cancelledCtx "k" 0 1
      = some (("k", none), admitted fresh1 cancelledCtx "k" 0 []) ∧
    Start fresh1 cancelledCtx "k" 0 1 ≠ some (("", some .canceled), fresh1) := by
  refine ⟨by decide, by decide, by decide, by decide, by decide⟩

/-- C4 amended: with a caller's context that is done (`ctx.Err() = e`) on a worker that
is not shut down, `Start` returns; when no unit is available it returns the empty key
and exactly `e` and leaves the state as it was; when a unit is available it returns
either that, or the key of the job it admitted with a nil error. -/
theorem Start_ctx_done (s : Sys) (ctx : Ctx) (key : String) (now : Int) (pick : Nat)
    (e : GoError) (hc : s.crashed = false) (hctx : ctx.err = some e)
    (hs : s.w.isShutdown = false) :
    (s.w.sem.buf = [] → Start s ctx key now pick = some (("", some e), s)) ∧
    (Start s ctx key now pick = some (("", some e), s) ∨
      ∃ v rest, s.w.sem.buf = v :: rest ∧
        Start s ctx key now pick = some ((key, none), admitted s ctx key now rest)) := by
  have hsome : ctx.err.isSome = true := by simp [hctx]
  obtain ⟨c, hcase⟩ := goSelect_isSome pick (readyCases_ne_nil_of_ctx s.w hsome)
  have hmem := goSelect_mem hcase
  cases c with
  | shutdown =>
    have := mem_readyCases_shutdown.mp hmem
    simp [hs] at this
  | ctxDone =>
    have h1 := Start_of_ctxDone key now hc hcase
    rw [hctx] at h1
    exact ⟨fun _ => h1, Or.inl h1⟩
  | semRecv =>
    have hne := mem_readyCases_semRecv.mp hmem
    obtain ⟨v, rest, hbuf, h1⟩ := Start_of_semRecv key now hc hcase
    exact ⟨fun h0 => absurd h0 hne, Or.inr ⟨v, rest, hbuf, h1⟩⟩

theorem Start_ctx_done_witness :
    fresh1.crashed = false ∧ cancelledCtx.err = some .canceled ∧ fresh1.w.isShutdown = false ∧
    ((fresh1.w.sem.buf = [] → Start fresh1 cancelledCtx "k" 0 0 = some (("", some .canceled), fresh1)) ∧
    (Start fresh1 cancelledCtx "k" 0 0 = some (("", some .canceled), fresh1) ∨
      ∃ v rest, fresh1.w.sem.buf = v :: rest ∧
        Start fresh1 cancelledCtx "k" 0 0
          = some (("k", none), admitted fresh1 cancelledCtx "k" 0 rest))) :=
  ⟨rfl, rfl, rfl, Start_ctx_done fresh1 cancelledCtx "k" 0 0 .canceled rfl rfl rfl⟩

/-- C5: whenever `Start` returns a non-nil error, the key it returns is the empty string
and the state is the one before the call: the semaphore, the running map, the
wait-group counter and the jobs are unchanged. -/
theorem Start_error_unchanged (s : Sys) (ctx : Ctx) (key : String) (now : Int) (pick : Nat)
    (k : String) (e : GoError) (s1 : Sys)
    (h : Start s ctx key now pick = some ((k, some e), s1)) :
    k = "" ∧ s1 = s ∧ s1.w.sem = s.w.sem ∧ s1.w.running = s.w.running ∧ s1.w.wg = s.w.wg ∧
      s1.jobs = s.jobs := by
  have hc : s.crashed = false := by
    cases hcr : s.crashed
    · rfl
    · simp [Start, hcr] at h
  have key1 : k = "" ∧ s1 = s := by
    cases hcase : goSelect (readyCases s.w ctx) pick with
    | none => rw [Start_blocks key now hcase] at h; simp at h
    | some c =>
      cases c with
      | shutdown =>
        rw [Start_of_shutdown key now hc hcase] at h
        simp only [Option.some.injEq, Prod.mk.injEq] at h
        exact ⟨h.1.1.symm, h.2.symm⟩
      | ctxDone =>
        rw [Start_of_ctxDone key now hc hcase] at h
        simp only [Option.some.injEq, Prod.mk.injEq] at h
        exact ⟨h.1.1.symm, h.2.symm⟩
      | semRecv =>
        obtain ⟨v, rest, -, h1⟩ := Start_of_semRecv key now hc hcase
        rw [h1] at h
        simp at h
  obtain ⟨hk, hs⟩ := key1
  subst hs
  exact ⟨hk, rfl, rfl, rfl, rfl, rfl⟩

theorem Start_error_unchanged_witness :
    Start (shutdownClose fresh1) background "k" 0 0
      = some (("", some (.errorsNew "shutting down")), shutdownClose fresh1) ∧
    ("" = "" ∧ shutdownClose fresh1 = shutdownClose fresh1 ∧
      (shutdownClose fresh1).w.sem = (shutdownClose fresh1).w.sem ∧
      (shutdownClose fresh1).w.running = (shutdownClose fresh1).w.running ∧
      (shutdownClose fresh1).w.wg = (shutdownClose fresh1).w.wg ∧
      (shutdownClose fresh1).jobs = (shutdownClose fresh1).jobs) :=
  ⟨by decide, Start_error_unchanged (shutdownClose fresh1) background "k" 0 0 ""
    (.errorsNew "shutting down") (shutdownClose fresh1) (by decide)⟩

/-- C8 (the claim as written fails): the job `New(1)` admits with a caller that gave no
deadline, `time.Now()` of line 102 returning 0, has the deadline `0 + second`; its timer
firing one nanosecond late, its context is not done one second after that reading of
the clock, which is itself no earlier than the admission of line 93. -/
theorem job_context_done_late :
    Start fresh1 background "k" 0 0 = some (("k", none), oneJob) ∧
    background.deadline = none ∧
    ∃ j, oneJob.jobs[0]? = some j ∧ j.deadline = 0 + second ∧
      j.ctxDone background 1 (0 + second) = false ∧
      j.ctxDone background 1 (0 + second + 1) = true := by
  refine ⟨by decide, rfl, jobK, by decide, by decide, by decide, by decide⟩

/-- C8 (amended): an admitted `Start` call gives its job, at index `s.jobs.length`, an
execution context whose deadline is the deadline of the caller's context when there is
one, and `now + second` when there is none, `now` being what `time.Now()` of line 102
returned, which is no earlier than the admission of line 93, so that the deadline is one
second after the admission or later; in every later state the job keeps that deadline;
its context is done once the timer of the deadline has fired, however late that is, and,
as long as its cancel function has not been called, is not done before the deadline. -/
theorem Start_job_deadline (s : Sys) (ctx : Ctx) (key : String) (now : Int) (pick : Nat)
    (k : String) (s1 : Sys) (h : Start s ctx key now pick = some ((k, none), s1)) :
    ∃ j, s1.jobs[s.jobs.length]? = some j ∧ j.key = k ∧
      (∀ d, ctx.deadline = some d → j.deadline = d) ∧
      (ctx.deadline = none → j.deadline = now + second) ∧
      (ctx.deadline = none → ∀ admission : Int, admission ≤ now →
        admission + second ≤ j.deadline) ∧
      ∀ evs s2, run s1 evs = some s2 →
        ∃ j2, s2.jobs[s.jobs.length]? = some j2 ∧ j2.key = k ∧ j2.deadline = j.deadline ∧
          (∀ (caller : Ctx) (lateness : Nat) (t : Int),
            j.deadline + lateness ≤ t → j2.ctxDone caller lateness t = true) ∧
          (j2.cancelled = false → ∀ (caller : Ctx) (lateness : Nat) (t : Int),
            (j2.ctxDone caller lateness t = true ↔ j.deadline + lateness ≤ t)) ∧
          (j2.cancelled = false → ∀ (caller : Ctx) (lateness : Nat) (t : Int),
            t < j.deadline → j2.ctxDone caller lateness t = false) := by
  have hc : s.crashed = false := by
    cases hcr : s.crashed
    · rfl
    · simp [Start, hcr] at h
  have hadm : ∃ rest, k = key ∧ s1 = admitted s ctx key now rest := by
    cases hcase : goSelect (readyCases s.w ctx) pick with
    | none => rw [Start_blocks key now hcase] at h; simp at h
    | some c =>
      cases c with
      | shutdown => rw [Start_of_shutdown key now hc hcase] at h; simp at h
      | ctxDone =>
        have hsome := mem_readyCases_ctxDone.mp (goSelect_mem hcase)
        rw [Start_of_ctxDone key now hc hcase] at h
        simp only [Option.some.injEq, Prod.mk.injEq] at h
        rw [h.1.2] at hsome
        simp at hsome
      | semRecv =>
        obtain ⟨v, rest, -, h1⟩ := Start_of_semRecv key now hc hcase
        rw [h1] at h
        simp only [Option.some.injEq, Prod.mk.injEq, and_true] at h
        exact ⟨rest, h.1.symm, h.2.symm⟩
  obtain ⟨rest, rfl, rfl⟩ := hadm
  have hj : (admitted s ctx k now rest).jobs[s.jobs.length]?
      = some { key := k, deadline := jobDeadline ctx now, cancelled := false,
               panicking := false, pc := .executing } := by
    simp [admitted]
  have hsome : ∀ d, ctx.deadline = some d → jobDeadline ctx now = d := by
    intro d hd; simp [jobDeadline, hd]
  have hnone : ctx.deadline = none → jobDeadline ctx now = now + second := by
    intro hd; simp [jobDeadline, hd]
  refine ⟨_, hj, rfl, hsome, hnone, ?_, ?_⟩
  · intro hd admission hle
    show admission + second ≤ jobDeadline ctx now
    rw [hnone hd]
    omega
  intro evs s2 hrun
  obtain ⟨j2, h2, hk2, hd2, -⟩ := run_job_stable hrun hj
  have hd3 : j2.deadline = jobDeadline ctx now := hd2
  refine ⟨j2, h2, hk2, hd2, ?_, ?_, ?_⟩
  · intro caller lateness t ht
    have ht2 : jobDeadline ctx now + (lateness : Int) ≤ t := ht
    simp [Job.ctxDone, hd3, ht2]
  · intro hcan caller lateness t
    show _ ↔ jobDeadline ctx now + (lateness : Int) ≤ t
    simp [Job.ctxDone, execParent, Parent.done, hcan, hd3]
  · intro hcan caller lateness t ht
    have ht2 : t < jobDeadline ctx now := ht
    have : ¬ (jobDeadline ctx now + (lateness : Int) ≤ t) := by omega
    simp [Job.ctxDone, execParent, Parent.done, hcan, hd3, this]

theorem Start_job_deadline_witness :
    Start fresh1 background "k" 0 0 = some (("k", none), oneJob) ∧
    ∃ j, oneJob.jobs[fresh1.jobs.length]? = some j ∧ j.key = "k" ∧
      (∀ d, background.deadline = some d → j.deadline = d) ∧
      (background.deadline = none → j.deadline = 0 + second) ∧
      (background.deadline = none → ∀ admission : Int, admission ≤ 0 →
        admission + second ≤ j.deadline) ∧
      ∀ evs s2, run oneJob evs = some s2 →
        ∃ j2, s2.jobs[fresh1.jobs.length]? = some j2 ∧ j2.key = "k" ∧
          j2.deadline = j.deadline ∧
          (∀ (caller : Ctx) (lateness : Nat) (t : Int),
            j.deadline + lateness ≤ t → j2.ctxDone caller lateness t = true) ∧
          (j2.cancelled = false → ∀ (caller : Ctx) (lateness : Nat) (t : Int),
            (j2.ctxDone caller lateness t = true ↔ j.deadline + lateness ≤ t)) ∧
          (j2.cancelled = false → ∀ (caller : Ctx) (lateness : Nat) (t : Int),
            t < j.deadline → j2.ctxDone caller lateness t = false) :=
  ⟨by decide, Start_job_deadline fresh1 background "k" 0 0 "k" oneJob (by decide)⟩

/-- C9: in a reachable state of a live process, when the body of job `i` returns, the
goroutine runs to its end: it sends one value to the semaphore, deletes the key of
the job from the running map and leaves every other entry as it was, calls the cancel
function of the job, and decrements the wait group; the other jobs are untouched and
the process lives on. -/
theorem complete_releases (n : Int) (s : Sys) (i : Nat) (j : Job) (h : Reachable n s)
    (hc : s.crashed = false) (hj : s.jobs[i]? = some j) (hpc : j.pc = .executing) :
    ∃ s1, complete s i false = some s1 ∧
      s1.w.sem.buf = s.w.sem.buf ++ [true] ∧ s1.w.sem.cap = s.w.sem.cap ∧
      s1.w.running = mapDelete s.w.running j.key ∧
      s1.w.running.lookup j.key = none ∧
      (∀ k, k ≠ j.key → s1.w.running.lookup k = s.w.running.lookup k) ∧
      (∃ j1, s1.jobs[i]? = some j1 ∧ j1.cancelled = true ∧ j1.pc = .exited ∧ j1.key = j.key) ∧
      (∀ m, m ≠ i → s1.jobs[m]? = s.jobs[m]?) ∧
      s1.w.wg = s.w.wg - 1 ∧ s1.w.isShutdown = s.w.isShutdown ∧ s1.crashed = false := by
  obtain ⟨hi, -⟩ := List.getElem?_eq_some.mp hj
  refine ⟨_, complete_eq false (inv_reachable h) hc hj hpc, rfl, rfl, rfl,
    lookup_mapDelete_self _ _, fun k hk => lookup_mapDelete_ne _ hk, ?_, ?_, rfl, rfl, rfl⟩
  · exact ⟨{ j with cancelled := true, panicking := false, pc := .exited },
      by simp [completed, List.getElem?_set, hi], rfl, rfl, rfl⟩
  · intro m hm
    simp only [completed]
    exact List.getElem?_set_ne (fun hx => hm hx.symm)

theorem complete_releases_witness :
    Reachable 1 oneJob ∧ oneJob.crashed = false ∧
    (∃ j, oneJob.jobs[0]? = some j ∧ j.pc = .executing ∧ j.key = "k") ∧
    ∃ s1, complete oneJob 0 false = some s1 ∧
      s1.w.sem.buf = oneJob.w.sem.buf ++ [true] ∧ s1.w.sem.cap = oneJob.w.sem.cap ∧
      s1.w.running = mapDelete oneJob.w.running "k" ∧
      s1.w.running.lookup "k" = none ∧
      (∀ k, k ≠ "k" → s1.w.running.lookup k = oneJob.w.running.lookup k) ∧
      (∃ j1, s1.jobs[0]? = some j1 ∧ j1.cancelled = true ∧ j1.pc = .exited ∧ j1.key = "k") ∧
      (∀ m, m ≠ 0 → s1.jobs[m]? = oneJob.jobs[m]?) ∧
      s1.w.wg = oneJob.w.wg - 1 ∧ s1.w.isShutdown = oneJob.w.isShutdown ∧
      s1.crashed = false :=
  ⟨reachable_oneJob, rfl, ⟨_, rfl, rfl, rfl⟩,
    complete_releases 1 oneJob 0
      { key := "k", deadline := 0 + second, cancelled := false, panicking := false,
        pc := .executing }
      reachable_oneJob rfl rfl rfl⟩

/-- C10 as stated fails: on the worker of `New(1)` with one job admitted, a panic of
the job body lets the deferred calls run and then ends the process; after it no
`Start` returns and no step is taken. -/
theorem panic_ends_process :
    Reachable 1 oneJob ∧ oneJob.crashed = false ∧
    ∃ s1, complete oneJob 0 true = some s1 ∧ s1.crashed = true ∧
      Start s1 background "k2" 0 0 = none ∧ ∀ e, step s1 e = none := by
  refine ⟨reachable_oneJob, rfl,
    completed oneJob 0 { key := "k", deadline := 0 + second, cancelled := false,
                         panicking := false, pc := .executing } true, ?_, rfl, ?_, ?_⟩
  · exact complete_eq true (inv_reachable reachable_oneJob) rfl (by decide) rfl
  · decide
  · intro e; exact step_crashed rfl e

/-- C10 amended: in a reachable state of a live process, when the body of job `i`
panics, the deferred calls still run to their end: one value is sent to the semaphore,
the key of the job is deleted from the running map, its cancel function is called and
the wait group is decremented; the panic is not recovered, and once the deferred
calls are done it ends the process, after which no step is taken. -/
theorem panic_cleanup_then_crash (n : Int) (s : Sys) (i : Nat) (j : Job)
    (h : Reachable n s) (hc : s.crashed = false) (hj : s.jobs[i]? = some j)
    (hpc : j.pc = .executing) :
    ∃ s1, complete s i true = some s1 ∧
      s1.w.sem.buf = s.w.sem.buf ++ [true] ∧
      s1.w.running = mapDelete s.w.running j.key ∧
      s1.w.running.lookup j.key = none ∧
      (∃ j1, s1.jobs[i]? = some j1 ∧ j1.cancelled = true ∧ j1.pc = .exited) ∧
      s1.w.wg = s.w.wg - 1 ∧ s1.crashed = true ∧ ∀ e, step s1 e = none := by
  obtain ⟨hi, -⟩ := List.getElem?_eq_some.mp hj
  refine ⟨_, complete_eq true (inv_reachable h) hc hj hpc, rfl, rfl,
    lookup_mapDelete_self _ _, ?_, rfl, rfl, fun e => step_crashed rfl e⟩
  exact ⟨{ j with cancelled := true, panicking := true, pc := .exited },
    by simp [completed, List.getElem?_set, hi], rfl, rfl⟩

theorem panic_cleanup_then_crash_witness :
    Reachable 1 oneJob ∧ oneJob.crashed = false ∧
    (∃ j, oneJob.jobs[0]? = some j ∧ j.pc = .executing ∧ j.key = "k") ∧
    ∃ s1, complete oneJob 0 true = some s1 ∧
      s1.w.sem.buf = oneJob.w.sem.buf ++ [true] ∧
      s1.w.running = mapDelete oneJob.w.running "k" ∧
      s1.w.running.lookup "k" = none ∧
      (∃ j1, s1.jobs[0]? = some j1 ∧ j1.cancelled = true ∧ j1.pc = .exited) ∧
      s1.w.wg = oneJob.w.wg - 1 ∧ s1.crashed = true ∧ ∀ e, step s1 e = none :=
  ⟨reachable_oneJob, rfl, ⟨_, rfl, rfl, rfl⟩,
    panic_cleanup_then_crash 1 oneJob 0
      { key := "k", deadline := 0 + second, cancelled := false, panicking := false,
        pc := .executing }
      reachable_oneJob rfl rfl rfl⟩

/-- C11 (the claim as written fails): on the worker of `New(1)` a first job with key "k"
runs to its end, and a second `Start` draws "k" again and admits its job; in that
reachable state "k" is the key of a job whose completion has run, and `Stop("k")`
returns nil (and cancels the second job). -/
theorem Stop_reused_key_nil :
    complete oneJob 0 false = some oneJobDone ∧
    Start oneJobDone background "k" 0 0 = some (("k", none), reusedKey) ∧
    Reachable 1 reusedKey ∧
    (∃ j, reusedKey.jobs[0]? = some j ∧ j.key = "k" ∧ j.pc = .exited) ∧
    (Stop reusedKey "k").1 = none := by
  refine ⟨by decide, by decide, ?_, ⟨_, rfl, rfl, rfl⟩, by decide⟩
  exact ⟨fresh1.w, [.start background "k" 0 0, .register 0, .add 0, .launch 0,
    .fnEnd 0 false, .deferCancel 0, .deferRemove 0, .deferDone 0, .deferRelease 0,
    .start background "k" 0 0, .register 1, .add 1, .launch 1], by decide, by decide⟩

/-- C11 (amended): `Stop(k)` returns a non-nil error exactly when `k` is not a key of the
running map at the call, and the error is then "work[k] is not running"; so it fails for
every key on the worker `New` returned, in the state the removal step of a job leaves
for the key of that job, in the state the whole completion of a job leaves, and in
every reachable state for a key that no job still registered has drawn, the key of a
completed job included. -/
theorem Stop_error_iff (s : Sys) (k : String) :
    ((Stop s k).1 ≠ none ↔ k ∉ s.w.running.map Prod.fst) ∧
    ((Stop s k).1 ≠ none → Stop s k = (some (notRunning k), s)) ∧
    (∀ n w, New n = some (some w, none) → (Stop (Sys.init w) k).1 = some (notRunning k)) ∧
    (∀ i j s1, s.jobs[i]? = some j → deferRemove s i = some s1 →
      (Stop s1 j.key).1 = some (notRunning j.key)) ∧
    (∀ n i j panics s1, Reachable n s → s.crashed = false → s.jobs[i]? = some j →
      j.pc = .executing → complete s i panics = some s1 →
      (Stop s1 j.key).1 = some (notRunning j.key)) ∧
    (∀ n, Reachable n s →
      (∀ (m : Nat) (j : Job), s.jobs[m]? = some j → j.key = k → j.registeredNow = false) →
      (Stop s k).1 = some (notRunning k)) := by
  refine ⟨?_, ?_, ?_, ?_, ?_, ?_⟩
  · rw [← lookup_eq_none_iff]
    cases h : s.w.running.lookup k with
    | none => simp [Stop_of_none h]
    | some c => simp [Stop_of_some h]
  · intro hne
    cases h : s.w.running.lookup k with
    | none => exact Stop_of_none h
    | some c => simp [Stop_of_some h] at hne
  · intro n w hnew
    have hw : w.running = [] := by
      rw [New_of_pos n (pos_of_New hnew) (le_chanLimit_of_New hnew)] at hnew
      simp only [Option.some.injEq, Prod.mk.injEq, and_true] at hnew
      rw [← hnew]
    have : (Sys.init w).w.running.lookup k = none := by simp [Sys.init, hw]
    rw [Stop_of_none this]
  · intro i j s1 hj hrem
    have : s1.w.running.lookup j.key = none := by
      unfold deferRemove at hrem
      rw [hj] at hrem
      simp only at hrem
      split at hrem
      · simp only [Option.some.injEq] at hrem
        rw [← hrem]
        exact lookup_mapDelete_self _ _
      · simp at hrem
    rw [Stop_of_none this]
  · intro n i j panics s1 hr hc hj hpc hcomp
    rw [complete_eq panics (inv_reachable hr) hc hj hpc] at hcomp
    simp only [Option.some.injEq] at hcomp
    have : s1.w.running.lookup j.key = none := by
      rw [← hcomp]
      exact lookup_mapDelete_self _ _
    rw [Stop_of_none this]
  · intro n hr hfree
    have : s.w.running.lookup k = none := by
      rw [lookup_eq_none_iff]
      intro hk
      obtain ⟨e, he, hek⟩ := List.mem_map.mp hk
      obtain ⟨j, hj, hreg, hkey⟩ := entries_reachable hr e he
      have := hfree e.2 j hj (hkey.trans hek)
      rw [hreg] at this
      cases this
    rw [Stop_of_none this]

theorem Stop_error_iff_witness :
    (Stop fresh1 "k").1 = some (notRunning "k") ∧ (Stop oneJob "k").1 = none ∧
    ∃ s1, complete oneJob 0 false = some s1 ∧ (Stop s1 "k").1 = some (notRunning "k") :=
  ⟨(Stop_error_iff fresh1 "k").2.2.1 1 fresh1.w (by decide), by decide,
    completed oneJob 0 jobK false,
    complete_eq false (inv_reachable reachable_oneJob) rfl (by decide) rfl,
    (Stop_error_iff oneJob "k").2.2.2.2.1 1 0 jobK false (completed oneJob 0 jobK false)
      reachable_oneJob rfl (by decide) rfl
      (complete_eq false (inv_reachable reachable_oneJob) rfl (by decide) rfl)⟩

/-- C12: in a reachable state, for a key `k` of the running map with cancel function
`c`, `Stop(k)` returns nil and calls `c`: `c` is the cancel function of a registered
job that drew `k`, the context of that job is cancelled afterwards, and every other
job, and so the context of every other running job, is as it was. -/
theorem Stop_cancels (n : Int) (s : Sys) (k : String) (c : Nat) (hr : Reachable n s)
    (hk : s.w.running.lookup k = some c) :
    (Stop s k).1 = none ∧
    (∃ j, s.jobs[c]? = some j ∧ j.key = k ∧ j.registeredNow = true ∧
      (Stop s k).2.jobs[c]? = some { j with cancelled := true }) ∧
    (∀ m, m ≠ c → (Stop s k).2.jobs[m]? = s.jobs[m]?) := by
  obtain ⟨j, hj, hreg, hkey⟩ := entries_reachable hr (k, c) (mem_of_lookup hk)
  rw [Stop_of_some hk]
  exact ⟨rfl, ⟨j, hj, hkey, hreg, cancelJob_self hj⟩, fun m hm => cancelJob_ne _ hm⟩

theorem Stop_cancels_witness :
    Reachable 2 twoJobs ∧ twoJobs.w.running.lookup "a" = some 0 ∧
    ((Stop twoJobs "a").1 = none ∧
    (∃ j, twoJobs.jobs[0]? = some j ∧ j.key = "a" ∧ j.registeredNow = true ∧
      (Stop twoJobs "a").2.jobs[0]? = some { j with cancelled := true }) ∧
    (∀ m, m ≠ 0 → (Stop twoJobs "a").2.jobs[m]? = twoJobs.jobs[m]?)) :=
  ⟨reachable_twoJobs, by decide, Stop_cancels 2 twoJobs "a" 0 reachable_twoJobs (by decide)⟩

/-- C13: `Stop` leaves the worker as it was for every key, present or not: the running
map, the semaphore, the wait-group counter and the shutdown flag are the same after
the call, `Running()` is unchanged, and a second `Stop(k)` returns what the first one
returned, so nil again for a key that is still registered. -/
theorem Stop_frame (s : Sys) (k : String) :
    (Stop s k).2.w = s.w ∧ (Stop s k).2.w.running = s.w.running ∧
    (Stop s k).2.w.sem = s.w.sem ∧ (Stop s k).2.w.wg = s.w.wg ∧
    (Stop s k).2.w.isShutdown = s.w.isShutdown ∧ (Stop s k).2.crashed = s.crashed ∧
    (Stop s k).2.w.Running = s.w.Running ∧
    (Stop (Stop s k).2 k).1 = (Stop s k).1 ∧
    ((Stop s k).1 = none → (Stop (Stop s k).2 k).1 = none) := by
  have hw : (Stop s k).2.w = s.w ∧ (Stop s k).2.crashed = s.crashed := by
    cases h : s.w.running.lookup k with
    | none => rw [Stop_of_none h]; exact ⟨rfl, rfl⟩
    | some c => rw [Stop_of_some h]; exact ⟨rfl, rfl⟩
  have h2 : (Stop (Stop s k).2 k).1 = (Stop s k).1 := by
    cases h : s.w.running.lookup k with
    | none =>
      have h1 : (Stop s k).2.w.running.lookup k = none := by rw [hw.1]; exact h
      rw [Stop_of_none h1, Stop_of_none h]
    | some c =>
      have h1 : (Stop s k).2.w.running.lookup k = some c := by rw [hw.1]; exact h
      rw [Stop_of_some h1, Stop_of_some h]
  refine ⟨hw.1, by rw [hw.1], by rw [hw.1], by rw [hw.1], by rw [hw.1], hw.2, by rw [hw.1],
    h2, fun h => by rw [h2]; exact h⟩

theorem Stop_frame_witness :
    (Stop twoJobs "a").1 = none ∧ (Stop (Stop twoJobs "a").2 "a").1 = none :=
  ⟨by decide, (Stop_frame twoJobs "a").2.2.2.2.2.2.2.2 (by decide)⟩

/-- C14 (the claim as written fails): on the worker of `New(2)` two `Start` calls drew
the same key "k", so that the entry of the second job replaced the entry of the first;
both jobs are registered and in their bodies; `Shutdown` sets the flag, cancels the
context of the second job and leaves the context of the first job not cancelled. -/
theorem Shutdown_misses_registered_job :
    Reachable 2 sameKey ∧ sameKey.crashed = false ∧ sameKey.w.isShutdown = false ∧
    sameKey.w.running = [("k", 1)] ∧
    (∃ j, sameKey.jobs[0]? = some j ∧ j.registeredNow = true ∧ j.pc = .executing ∧
      j.cancelled = false) ∧
    (Shutdown sameKey background 0).2.w.isShutdown = true ∧
    (∃ j, (Shutdown sameKey background 0).2.jobs[0]? = some j ∧ j.registeredNow = true ∧
      j.cancelled = false) ∧
    (∃ j, (Shutdown sameKey background 0).2.jobs[1]? = some j ∧ j.cancelled = true) :=
  ⟨reachable_sameKey, rfl, rfl, by decide, ⟨_, rfl, by decide, rfl, rfl⟩, by decide,
    ⟨{ key := "k", deadline := 0 + second, cancelled := false, panicking := false,
       pc := .executing }, by decide, by decide, rfl⟩,
    ⟨{ key := "k", deadline := 0 + second, cancelled := true, panicking := false,
       pc := .executing }, by decide, rfl⟩⟩

/-- C14 (amended): in a reachable state, the close of `Shutdown` sets the shutdown flag
on a worker that is not shut down and touches nothing else, the loop of `Shutdown`
calls the cancel function of every entry of the running map, after which the context
of the job of every entry is cancelled, a job no entry points to is left as it was,
and the loop leaves the worker, so the running map, as it was; `Shutdown` run in one
piece does both. -/
theorem Shutdown_cancels_all (n : Int) (s : Sys) (hr : Reachable n s) :
    (s.w.isShutdown = false →
      (shutdownClose s).w.isShutdown = true ∧ (shutdownClose s).w.running = s.w.running ∧
      (shutdownClose s).jobs = s.jobs ∧ (shutdownClose s).crashed = s.crashed) ∧
    (shutdownCancel s).w = s.w ∧
    (∀ e ∈ s.w.running, ∃ j, (shutdownCancel s).jobs[e.2]? = some j ∧
      j.cancelled = true ∧ j.key = e.1) ∧
    (∀ i : Nat, (∀ e ∈ s.w.running, e.2 ≠ i) → (shutdownCancel s).jobs[i]? = s.jobs[i]?) ∧
    (s.crashed = false → s.w.isShutdown = false → ∀ ctx pick,
      (Shutdown s ctx pick).2.w.isShutdown = true ∧
      (Shutdown s ctx pick).2.w.running = s.w.running ∧
      (∀ e ∈ s.w.running, ∃ j, (Shutdown s ctx pick).2.jobs[e.2]? = some j ∧
        j.cancelled = true ∧ j.key = e.1) ∧
      (∀ i : Nat, (∀ e ∈ s.w.running, e.2 ≠ i) →
        (Shutdown s ctx pick).2.jobs[i]? = s.jobs[i]?)) := by
  have hall : ∀ e ∈ s.w.running, ∃ j, (shutdownCancel s).jobs[e.2]? = some j ∧
      j.cancelled = true ∧ j.key = e.1 := by
    intro e he
    obtain ⟨j, hj, -, hkey⟩ := entries_reachable hr e he
    obtain ⟨j2, h2, hc, hk, -⟩ := cancel_foldl_cancelled s.w.running s.jobs he hj
    exact ⟨j2, h2, hc, hk.trans hkey⟩
  have hother : ∀ i : Nat, (∀ e ∈ s.w.running, e.2 ≠ i) →
      (shutdownCancel s).jobs[i]? = s.jobs[i]? :=
    fun i hi => cancel_foldl_other s.w.running s.jobs hi
  refine ⟨?_, rfl, hall, hother, ?_⟩
  · intro hs
    simp [shutdownClose, hs]
  · intro hc hs ctx pick
    have hclose : shutdownClose s = { s with w := { s.w with isShutdown := true } } := by
      simp [shutdownClose, hs]
    have hsd : (Shutdown s ctx pick).2
        = { s with w := { s.w with isShutdown := true },
                   jobs := (shutdownCancel s).jobs } := by
      simp [Shutdown, hc, hclose, shutdownCancel]
    rw [hsd]
    exact ⟨rfl, rfl, hall, hother⟩

theorem Shutdown_cancels_all_witness :
    Reachable 2 twoJobs ∧ twoJobs.crashed = false ∧ twoJobs.w.isShutdown = false ∧
    (Shutdown twoJobs background 0).2.w.isShutdown = true ∧
    (Shutdown twoJobs background 0).2.w.running = twoJobs.w.running ∧
    (∀ e ∈ twoJobs.w.running, ∃ j, (Shutdown twoJobs background 0).2.jobs[e.2]? = some j ∧
      j.cancelled = true ∧ j.key = e.1) ∧
    (∀ i : Nat, (∀ e ∈ twoJobs.w.running, e.2 ≠ i) →
      (Shutdown twoJobs background 0).2.jobs[i]? = twoJobs.jobs[i]?) :=
  ⟨reachable_twoJobs, rfl, rfl,
    (Shutdown_cancels_all 2 twoJobs reachable_twoJobs).2.2.2.2 rfl rfl background 0⟩

/-- C15: `Shutdown(ctx)` on a reachable live worker that is not shut down, among the
other goroutines.  After the close and the loop of the cancel functions the call waits:
as long as the counter of the wait group is not zero and the context is not done it
has not returned.  At the first look at which the counter is zero and the context is
not done it returns nil; at the first look at which the context is done and the
counter is not zero it returns `ctx.Err()`; when both hold it returns one of the two;
so with a job that has not called `wg.Done()` a done context makes it return
`ctx.Err()`, and once the context is done it does not go on waiting.  The worker is
shut down at the return.  `Shutdown` run in one piece is the wait of one round without
a step of the other goroutines. -/
theorem Shutdown_result (n : Int) (s : Sys) (hr : Reachable n s) (hc : s.crashed = false)
    (hs : s.w.isShutdown = false) (pre : List (List Event × Ctx × Nat)) (s1 : Sys)
    (hpre : stillWaiting (shutdownCancel (shutdownClose s)) pre = some s1)
    (evs : List Event) (ctx : Ctx) (pick : Nat) (post : List (List Event × Ctx × Nat))
    (s2 : Sys) (hrun : run s1 evs = some s2) :
    ShutdownRounds s pre = none ∧
    (s2.w.wg = 0 → ctx.err = none →
      ShutdownRounds s (pre ++ (evs, ctx, pick) :: post) = some (none, s2)) ∧
    (∀ e, s2.w.wg ≠ 0 → ctx.err = some e →
      ShutdownRounds s (pre ++ (evs, ctx, pick) :: post) = some (some e, s2)) ∧
    (∀ e, s2.w.wg = 0 → ctx.err = some e →
      ShutdownRounds s (pre ++ (evs, ctx, pick) :: post) = some (none, s2) ∨
      ShutdownRounds s (pre ++ (evs, ctx, pick) :: post) = some (some e, s2)) ∧
    (s2.w.wg ≠ 0 → ctx.err = none →
      stillWaiting (shutdownCancel (shutdownClose s)) (pre ++ [(evs, ctx, pick)]) = some s2 ∧
      ShutdownRounds s (pre ++ [(evs, ctx, pick)]) = none ∧
      ShutdownRounds s (pre ++ (evs, ctx, pick) :: post) = shutdownWait s2 post) ∧
    (∀ (e : GoError) (i : Nat) (j : Job), s2.jobs[i]? = some j → j.counted = true →
      ctx.err = some e →
      ShutdownRounds s (pre ++ (evs, ctx, pick) :: post) = some (some e, s2)) ∧
    (∀ e, ctx.err = some e →
      ∃ r, ShutdownRounds s (pre ++ (evs, ctx, pick) :: post) = some (r, s2)) ∧
    s2.w.isShutdown = true ∧ Reachable n s2 ∧
    (∀ r, (Shutdown s ctx pick).1 = some r →
      ShutdownRounds s [([], ctx, pick)] = some (r, (Shutdown s ctx pick).2)) := by
  obtain ⟨hsd, hcl, hflag⟩ := run_shutdown hc hs
  have hdef : ∀ rounds, ShutdownRounds s rounds
      = shutdownWait (shutdownCancel (shutdownClose s)) rounds := by
    intro rounds
    simp [ShutdownRounds, hc, hcl]
  have hround : ∀ rest, ShutdownRounds s (pre ++ (evs, ctx, pick) :: rest)
      = shutdownWait s1 ((evs, ctx, pick) :: rest) := by
    intro rest
    rw [hdef, shutdownWait_append _ hpre]
  obtain ⟨evs1, hrun1⟩ := stillWaiting_run hpre
  have hr2 : Reachable n s2 := reachable_run (reachable_run (reachable_run hr hsd) hrun1) hrun
  have hwgerr : ∀ e, s2.w.wg ≠ 0 → ctx.err = some e →
      ShutdownRounds s (pre ++ (evs, ctx, pick) :: post) = some (some e, s2) := by
    intro e hne he
    rw [hround]
    refine shutdownWait_returns post hrun ?_
    simp only [hne, decide_False]
    exact shutdownSelect_done pick he
  have hblock : s2.w.wg ≠ 0 → ctx.err = none →
      ∀ rest, shutdownWait s1 ((evs, ctx, pick) :: rest) = shutdownWait s2 rest := by
    intro hne he rest
    refine shutdownWait_blocks rest hrun ?_
    simp only [hne, decide_False]
    exact shutdownSelect_blocks pick he
  refine ⟨?_, ?_, hwgerr, ?_, ?_, ?_, ?_, ?_, hr2, ?_⟩
  · have := shutdownWait_append [] hpre
    rw [List.append_nil] at this
    rw [hdef, this]; rfl
  · intro h0 he
    rw [hround]
    refine shutdownWait_returns post hrun ?_
    simp only [h0, decide_True]
    exact shutdownSelect_closed pick he
  · intro e h0 he
    rw [hround]
    rcases shutdownSelect_both pick he with h | h
    · exact Or.inl (shutdownWait_returns post hrun (by simp only [h0, decide_True]; exact h))
    · exact Or.inr (shutdownWait_returns post hrun (by simp only [h0, decide_True]; exact h))
  · intro hne he
    have hsw : stillWaiting (shutdownCancel (shutdownClose s)) (pre ++ [(evs, ctx, pick)])
        = some s2 := stillWaiting_snoc pick hpre hrun hne he
    refine ⟨hsw, ?_, ?_⟩
    · have := shutdownWait_append [] hsw
      rw [List.append_nil] at this
      rw [hdef, this]; rfl
    · rw [hround]; exact hblock hne he post
  · intro e i j hj hcnt he
    have := wg_pos_of_counted (inv_reachable hr2) hj hcnt
    exact hwgerr e (by omega) he
  · intro e he
    by_cases h0 : s2.w.wg = 0
    · rw [hround]
      rcases shutdownSelect_both pick he with h | h
      · exact ⟨_, shutdownWait_returns post hrun (by simp only [h0, decide_True]; exact h)⟩
      · exact ⟨_, shutdownWait_returns post hrun (by simp only [h0, decide_True]; exact h)⟩
    · exact ⟨_, hwgerr e h0 he⟩
  · exact run_flag_set hrun (run_flag_set hrun1 hflag)
  · intro r hres
    rw [hdef]
    have h1 : (Shutdown s ctx pick).2 = shutdownCancel (shutdownClose s) := by
      simp [Shutdown, hc, hcl]
    have h2 : (Shutdown s ctx pick).1
        = shutdownSelect (waiter (shutdownCancel (shutdownClose s)) false) ctx pick := by
      simp [Shutdown, hc, hcl]
    rw [h2] at hres
    rw [h1]
    simp [shutdownWait, run, hres]

theorem Shutdown_result_witness :
    Reachable 1 oneJob ∧ oneJob.crashed = false ∧ oneJob.w.isShutdown = false ∧
    stillWaiting shutOneJob [([], background, 0)] = some shutOneJob ∧
    run shutOneJob [.fnEnd 0 false, .deferCancel 0, .deferRemove 0, .deferDone 0]
      = some shutOneJobDone ∧
    ShutdownRounds oneJob [([], background, 0),
        ([.fnEnd 0 false, .deferCancel 0, .deferRemove 0, .deferDone 0], background, 0)]
      = some (none, shutOneJobDone) ∧
    ShutdownRounds oneJob [([], background, 0), ([], expiredCtx, 0)]
      = some (some .deadlineExceeded, shutOneJob) :=
  ⟨reachable_oneJob, rfl, rfl, by decide, by decide,
    (Shutdown_result 1 oneJob reachable_oneJob rfl rfl [([], background, 0)] shutOneJob
      (by decide) [.fnEnd 0 false, .deferCancel 0, .deferRemove 0, .deferDone 0] background 0
      [] shutOneJobDone (by decide)).2.1 rfl rfl,
    (Shutdown_result 1 oneJob reachable_oneJob rfl rfl [([], background, 0)] shutOneJob
      (by decide) [] expiredCtx 0 [] shutOneJob (by decide)).2.2.2.2.2.1
      .deadlineExceeded 0 { key := "k", deadline := 0 + second, cancelled := true,
                            panicking := false, pc := .executing }
      (by decide) (by decide) rfl⟩

/-- C16, the code at the failing input: on the worker of `New(1)` a `Start` call has
registered its key (line 110) and has not reached `wg.Add(1)` (line 114); `Shutdown`,
called now with a context that is not done, finds the counter at zero and returns nil;
at its return `Running()` is 1, and the job is launched and runs its whole completion
after the return. -/
theorem Shutdown_nil_while_registered :
    run fresh1 [.start background "k" 0 0, .register 0] = some inFlight ∧
    (Shutdown inFlight background 0).1 = some none ∧
    (Shutdown inFlight background 0).2.w.Running = 1 ∧
    ∃ s1, run (Shutdown inFlight background 0).2
        [.add 0, .launch 0, .fnEnd 0 false, .deferCancel 0, .deferRemove 0, .deferDone 0,
         .deferRelease 0] = some s1 ∧ s1.w.Running = 0 := by
  refine ⟨by decide, by decide, by decide, _, rfl, by decide⟩

/-- C17 as stated fails: on the worker of `New(1)` a `Start` call took the unit in its
select, then `Shutdown` closed `isShutdown`; the registration of the call (line 110),
a later step, makes the running map grow from 0 to 1 entry. -/
theorem running_grows_after_shutdown :
    run fresh1 [.start background "k" 0 0, .shutdownClose] = some closedInFlight ∧
    closedInFlight.w.isShutdown = true ∧ closedInFlight.w.Running = 0 ∧
    ∃ s1, step closedInFlight (.register 0) = some s1 ∧ s1.w.Running = 1 := by
  refine ⟨by decide, rfl, rfl, _, rfl, by decide⟩

/-- C17 amended: once the shutdown flag is set it stays set, and every step other than
the registration of line 110 (the select of `Start`, `wg.Add`, the go statement, the
steps of the end of a job, `Stop`, the steps of `Shutdown`) leaves the running map with
as many entries or fewer; a registration adds at most one entry, and only for a
`Start` call that has taken its unit in the select and has not registered yet. -/
theorem running_after_shutdown (s s1 : Sys) (e : Event) (hs : s.w.isShutdown = true)
    (h : step s e = some s1) :
    s1.w.isShutdown = true ∧
    ((∀ i, e ≠ .register i) → s1.w.Running ≤ s.w.Running) ∧
    (∀ i, e = .register i → s1.w.Running ≤ s.w.Running + 1 ∧
      ∃ j, s.jobs[i]? = some j ∧ j.pc = .acquired) := by
  obtain ⟨h1, h2, h3⟩ := step_running h
  refine ⟨h1 hs, h2, ?_⟩
  intro i hi
  obtain ⟨hle, j, hj, hpc, -⟩ := h3 i hi
  exact ⟨hle, j, hj, hpc⟩

theorem running_after_shutdown_witness :
    closedInFlight.w.isShutdown = true ∧
    step closedInFlight (.stop "k") = some closedInFlight ∧
    (closedInFlight.w.isShutdown = true ∧
    ((∀ i, Event.stop "k" ≠ .register i) →
      closedInFlight.w.Running ≤ closedInFlight.w.Running) ∧
    (∀ i, Event.stop "k" = .register i →
      closedInFlight.w.Running ≤ closedInFlight.w.Running + 1 ∧
      ∃ j, closedInFlight.jobs[i]? = some j ∧ j.pc = .acquired)) :=
  ⟨rfl, by decide,
    running_after_shutdown closedInFlight closedInFlight (.stop "k") rfl (by decide)⟩

/-- C18: `Shutdown` on a worker whose `isShutdown` channel is closed panics at its
first statement: the process dies, no cancel function has been called (the jobs and the
worker are as before), the call does not return and no step follows; on a worker whose
channel is open, and it is open as long as no `Shutdown` has run its first statement,
`Shutdown` does not panic. -/
theorem Shutdown_twice_panics (s : Sys) (ctx : Ctx) (pick : Nat) (hc : s.crashed = false) :
    (s.w.isShutdown = true →
      (shutdownClose s).crashed = true ∧ (shutdownClose s).jobs = s.jobs ∧
      (shutdownClose s).w = s.w ∧ Shutdown s ctx pick = (none, shutdownClose s) ∧
      ∀ e, step (shutdownClose s) e = none) ∧
    (s.w.isShutdown = false →
      (shutdownClose s).crashed = false ∧ (Shutdown s ctx pick).2.crashed = false ∧
      (Shutdown s ctx pick).2.w.isShutdown = true) ∧
    (∀ n w evs, New n = some (some w, none) → run (Sys.init w) evs = some s →
      (∀ e ∈ evs, e ≠ .shutdownClose) → s.w.isShutdown = false) := by
  refine ⟨?_, ?_, ?_⟩
  · intro hs
    have h1 : shutdownClose s = { s with crashed := true } := by simp [shutdownClose, hs]
    refine ⟨by rw [h1], by rw [h1], by rw [h1], ?_, fun e => step_crashed (by rw [h1]) e⟩
    simp [Shutdown, hc, h1]
  · intro hs
    have h1 : shutdownClose s = { s with w := { s.w with isShutdown := true } } := by
      simp [shutdownClose, hs]
    refine ⟨by rw [h1]; exact hc, ?_, ?_⟩
    · simp [Shutdown, hc, h1, shutdownCancel]
    · simp [Shutdown, hc, h1, shutdownCancel]
  · intro n w evs hnew hrun hev
    rw [run_flag hrun hev]
    rw [New_of_pos n (pos_of_New hnew) (le_chanLimit_of_New hnew)] at hnew
    simp only [Option.some.injEq, Prod.mk.injEq, and_true] at hnew
    rw [← hnew]
    rfl

theorem Shutdown_twice_panics_witness :
    (shutdownClose fresh1).crashed = false ∧ (shutdownClose fresh1).w.isShutdown = true ∧
    ((shutdownClose (shutdownClose fresh1)).crashed = true ∧
      (shutdownClose (shutdownClose fresh1)).jobs = (shutdownClose fresh1).jobs ∧
      (shutdownClose (shutdownClose fresh1)).w = (shutdownClose fresh1).w ∧
      Shutdown (shutdownClose fresh1) background 0
        = (none, shutdownClose (shutdownClose fresh1)) ∧
      ∀ e, step (shutdownClose (shutdownClose fresh1)) e = none) :=
  ⟨by decide, by decide,
    (Shutdown_twice_panics (shutdownClose fresh1) background 0 (by decide)).1 (by decide)⟩

/-- C19: in a reachable state of a live worker built by `New(n)` in which `n` admitted
jobs hold all units, with `isShutdown` open and a caller's context that is not done,
`Start` cannot return, whatever the select would pick: its select step is not enabled;
and once a job in its body has run to its end, which puts one unit back, the select
step of the same `Start` is enabled, whatever the pick, and takes that unit, and
`Start` returns the key `uuid.NewString` gave it, a string of 36 characters and so not
empty, and a nil error, with its job admitted: the semaphore is empty again, the key is
in the running map with the cancel function of the new job, the counter of the wait
group is one higher, and the new job is in its body, not cancelled, with the deadline
of lines 100-103. -/
theorem Start_blocks_until_release (n : Int) (s : Sys) (ctx : Ctx) (key : String)
    (now : Int) (hr : Reachable n s) (hc : s.crashed = false)
    (hfull : (s.jobs.countP Job.holding : Int) = n) (hs : s.w.isShutdown = false)
    (hctx : ctx.err = none) (hkey : key.length = uuidLength) :
    (∀ pick, Start s ctx key now pick = none ∧ step s (.start ctx key now pick) = none) ∧
    (∀ (i : Nat) (j : Job), s.jobs[i]? = some j → j.pc = .executing →
      ∃ s1, complete s i false = some s1 ∧ s1.w.sem.buf = [true] ∧ s1.crashed = false ∧
        s1.jobs.length = s.jobs.length ∧
        ∀ pick, ∃ s2 k, Start s1 ctx key now pick = some ((k, none), s2) ∧
          k = key ∧ k ≠ "" ∧ k.length = 36 ∧
          s2 = admitted s1 ctx key now [] ∧
          s2.w.sem.buf = [] ∧ s2.w.sem.cap = s.w.sem.cap ∧
          s2.w.running = mapInsert s1.w.running key s1.jobs.length ∧
          s2.w.running.lookup k = some s1.jobs.length ∧
          s2.w.wg = s1.w.wg + 1 ∧ s2.w.wg = s.w.wg ∧ s2.w.isShutdown = false ∧
          s2.crashed = false ∧
          s2.jobs = s1.jobs ++ [{ key := key, deadline := jobDeadline ctx now,
                                  cancelled := false, panicking := false,
                                  pc := .executing }] ∧
          (∀ (m : Nat) (jm : Job), s1.jobs[m]? = some jm → s2.jobs[m]? = some jm) ∧
          step s1 (.start ctx key now pick)
            = some { w := { s1.w with sem := { cap := s1.w.sem.cap, buf := [] } }
                     jobs := s1.jobs ++ [{ key := key, deadline := jobDeadline ctx now,
                                           cancelled := false, panicking := false,
                                           pc := .acquired }]
                     crashed := false } ∧
          Reachable n s2 ∧ (s2.jobs.countP Job.holding : Int) = n ∧
          ∀ (key1 : String) (now1 : Int) (pick1 : Nat),
            Start s2 ctx key1 now1 pick1 = none) := by
  have hinv := inv_reachable hr
  have hn := toNat_of_reachable hr
  have hbuf : s.w.sem.buf = [] := by
    have := hinv.units
    have : s.w.sem.buf.length = 0 := by omega
    exact List.length_eq_zero.mp this
  constructor
  · intro pick
    have hready : readyCases s.w ctx = [] := by
      simp [readyCases, hs, hctx, hbuf]
    have hsel : goSelect (readyCases s.w ctx) pick = none := by
      simp [hready, goSelect]
    refine ⟨Start_blocks key now hsel, ?_⟩
    simp [step, hc, startSelect, hsel]
  · intro i j hj hpc
    have hcomp := complete_eq false hinv hc hj hpc
    have hr1 : Reachable n (completed s i j false) := reachable_run hr hcomp
    refine ⟨_, hcomp, by simp [completed, hbuf], rfl, by simp [completed], ?_⟩
    intro pick
    have hready : readyCases (completed s i j false).w ctx = [SelectCase.semRecv] := by
      simp [readyCases, completed, hs, hctx, hbuf]
    have hsel : goSelect (readyCases (completed s i j false).w ctx) pick
        = some SelectCase.semRecv := by
      simp [hready, goSelect, Nat.mod_one]
    obtain ⟨v, rest, hb, hstart⟩ :=
      Start_of_semRecv (s := completed s i j false) key now (by rfl) hsel
    have hrest : rest = [] := by
      simp [completed, hbuf] at hb
      exact hb.2
    subst hrest
    have hr2 : Reachable n (admitted (completed s i j false) ctx key now []) :=
      reachable_Start hr1 hstart
    have hinv2 := inv_reachable hr2
    have hne : key ≠ "" := by
      intro h
      rw [h] at hkey
      simp [uuidLength] at hkey
    have hrecv : (completed s i j false).w.sem.recv
        = some (true, { cap := s.w.sem.cap, buf := [] }) := by
      simp [completed, Chan.recv, hbuf]
    have hcr : (completed s i j false).crashed = false := rfl
    have hhold : ((admitted (completed s i j false) ctx key now []).jobs.countP Job.holding
        : Int) = n := by
      have hu := hinv2.units
      have hb2 : (admitted (completed s i j false) ctx key now []).w.sem.buf = [] := rfl
      rw [hb2] at hu
      simp only [List.length_nil, Nat.zero_add] at hu
      rw [hu]; exact hn
    refine ⟨_, key, hstart, rfl, hne, hkey, rfl, rfl, rfl, rfl, ?_, rfl, ?_, hs, rfl, rfl, ?_, ?_,
      hr2, hhold, ?_⟩
    · simp [admitted, mapInsert, List.lookup]
    · simp [admitted, completed]
    · intro m jm hm
      have hlt : m < (completed s i j false).jobs.length := (List.getElem?_eq_some.mp hm).1
      simp only [admitted]
      rw [List.getElem?_append_left hlt]
      exact hm
    · simp only [step, hcr, startSelect, hsel, hrecv]
      rfl
    · intro key1 now1 pick1
      have hready2 : readyCases (admitted (completed s i j false) ctx key now []).w ctx = [] := by
        simp [readyCases, admitted, completed, hs, hctx]
      exact Start_blocks key1 now1 (by simp [hready2, goSelect])

theorem Start_blocks_until_release_witness :
    Reachable 2 twoJobs ∧ twoJobs.crashed = false ∧
    (twoJobs.jobs.countP Job.holding : Int) = 2 ∧ twoJobs.w.isShutdown = false ∧
    background.err = none ∧ "0b8e1c52-7d4f-4a3e-9c61-5f2a8d3e7b90".length = uuidLength ∧
    (∀ pick, Start twoJobs background "0b8e1c52-7d4f-4a3e-9c61-5f2a8d3e7b90" 0 pick = none ∧
      step twoJobs (.start background "0b8e1c52-7d4f-4a3e-9c61-5f2a8d3e7b90" 0 pick) = none) ∧
    ∃ s1, complete twoJobs 0 false = some s1 ∧ s1.w.sem.buf = [true] ∧
      ∀ pick, ∃ s2 k,
        Start s1 background "0b8e1c52-7d4f-4a3e-9c61-5f2a8d3e7b90" 0 pick = some ((k, none), s2) ∧
        k ≠ "" ∧ s2.w.sem.buf = [] ∧ s2.w.running.lookup k = some 2 := by
  have h := Start_blocks_until_release 2 twoJobs background
    "0b8e1c52-7d4f-4a3e-9c61-5f2a8d3e7b90" 0 reachable_twoJobs rfl (by decide) rfl rfl
    (by decide)
  refine ⟨reachable_twoJobs, rfl, by decide, rfl, rfl, by decide, h.1, ?_⟩
  obtain ⟨s1, h1, h2, -, h3, h4⟩ := h.2 0 _ rfl rfl
  refine ⟨s1, h1, h2, ?_⟩
  intro pick
  obtain ⟨s2, k, h5, -, h6, -, -, h7, -, -, h8, -⟩ := h4 pick
  refine ⟨s2, k, h5, h6, h7, ?_⟩
  rw [h8, h3]
  rfl

/-- C20, the code at the failing input: on the worker of `New(2)`, two `Start` calls to
which `uuid.NewString` returned the same key "k" are both admitted, the key being
checked against nothing; both jobs are registered and in their bodies at the same time
and share the key; the assignment of line 110 replaced the entry of the first job, so
the one entry under "k" is the key of two admitted jobs whose completion has not run,
`Stop("k")` leaves the first job not cancelled, and once the second job has run to its
end the running map is empty while the first job is still in its body. -/
theorem two_jobs_share_key :
    Start fresh2 background "k" 0 0
      = some (("k", none), admitted fresh2 background "k" 0 [true]) ∧
    Start (admitted fresh2 background "k" 0 [true]) background "k" 0 0
      = some (("k", none), sameKey) ∧
    Reachable 2 sameKey ∧ sameKey.w.running = [("k", 1)] ∧
    (∃ j0 j1, sameKey.jobs[0]? = some j0 ∧ sameKey.jobs[1]? = some j1 ∧
      j0.key = "k" ∧ j1.key = "k" ∧ j0.pc = .executing ∧ j1.pc = .executing ∧
      j0.registeredNow = true ∧ j1.registeredNow = true) ∧
    (Stop sameKey "k").1 = none ∧
    (∃ j0, (Stop sameKey "k").2.jobs[0]? = some j0 ∧ j0.cancelled = false) ∧
    (∃ s1 j0, complete sameKey 1 false = some s1 ∧ s1.w.Running = 0 ∧
      s1.jobs[0]? = some j0 ∧ j0.pc = .executing ∧ j0.cancelled = false ∧
      (Stop s1 "k").1 = some (notRunning "k")) := by
  refine ⟨by decide, by decide, reachable_sameKey, by decide,
    ⟨_, _, rfl, rfl, by decide, by decide, by decide, by decide, by decide, by decide⟩,
    by decide,
    ⟨{ key := "k", deadline := 0 + second, cancelled := false, panicking := false,
       pc := .executing }, by decide, rfl⟩,
    ⟨completed sameKey 1 { key := "k", deadline := 0 + second, cancelled := false,
                           panicking := false, pc := .executing } false,
     { key := "k", deadline := 0 + second, cancelled := false, panicking := false,
       pc := .executing }, by decide, by decide, by decide, rfl, rfl, by decide⟩⟩

/-- C26: in every reachable state of a worker built by `New(n)`, the values in the
buffer of the semaphore plus the admitted jobs that have not made the send of line 119
are `n`; so the buffer never holds more than `n` values, never more than the capacity
of the channel, and the send of a job that has called `wg.Done()` does not block. -/
theorem units_conserved (n : Int) (s : Sys) (hr : Reachable n s) :
    (s.w.sem.buf.length : Int) + (s.jobs.countP Job.holding : Int) = n ∧
    (s.w.sem.buf.length : Int) ≤ n ∧ (s.w.sem.cap : Int) = n ∧
    s.w.sem.buf.length ≤ s.w.sem.cap ∧
    (∀ (i : Nat) (j : Job), s.jobs[i]? = some j → j.pc = .wgDone →
      ∃ s1, deferRelease s i = some s1 ∧ s1.w.sem.buf = s.w.sem.buf ++ [true] ∧
        (s.crashed = false → step s (.deferRelease i) = some s1)) := by
  have hinv := inv_reachable hr
  have hn := toNat_of_reachable hr
  have hu := hinv.units
  have hcap := hinv.cap
  refine ⟨by omega, by omega, by omega, by omega, ?_⟩
  intro i j hj hpc
  obtain ⟨s1, h1⟩ := deferRelease_enabled hinv hj hpc
  obtain ⟨-, -, -, hbuf, -, -⟩ := deferRelease_pc h1
  exact ⟨s1, h1, hbuf, fun hc => by simp [step, hc, h1]⟩

theorem units_conserved_witness :
    Reachable 2 twoJobs ∧
    ((twoJobs.w.sem.buf.length : Int) + (twoJobs.jobs.countP Job.holding : Int) = 2 ∧
    (twoJobs.w.sem.buf.length : Int) ≤ 2 ∧ (twoJobs.w.sem.cap : Int) = 2 ∧
    twoJobs.w.sem.buf.length ≤ twoJobs.w.sem.cap ∧
    (∀ (i : Nat) (j : Job), twoJobs.jobs[i]? = some j → j.pc = .wgDone →
      ∃ s1, deferRelease twoJobs i = some s1 ∧
        s1.w.sem.buf = twoJobs.w.sem.buf ++ [true] ∧
        (twoJobs.crashed = false → step twoJobs (.deferRelease i) = some s1))) :=
  ⟨reachable_twoJobs, units_conserved 2 twoJobs reachable_twoJobs⟩

/-- C27: in every reachable state of a worker built by `New(n)` the size of the running
map plus the values in the buffer of the semaphore is at most `n`; the send of line 119
is taken only by a job that has called `wg.Done()`, `wg.Done()` only by a job whose key
has been deleted from the map, and the deletion only by a job whose cancel function
has been called: the deferred calls run in that order. -/
theorem running_plus_units_le (n : Int) (s : Sys) (hr : Reachable n s) :
    (s.w.Running : Int) + (s.w.sem.buf.length : Int) ≤ n ∧
    (∀ i s1, deferRelease s i = some s1 →
      ∃ j, s.jobs[i]? = some j ∧ j.pc = .wgDone ∧ j.registeredNow = false ∧
        j.counted = false ∧ s1.w.sem.buf = s.w.sem.buf ++ [true] ∧
        s1.w.running = s.w.running ∧ s1.w.wg = s.w.wg) ∧
    (∀ i s1, deferDone s i = some s1 →
      ∃ j, s.jobs[i]? = some j ∧ j.pc = .removed ∧ j.registeredNow = false ∧
        s1.w.wg = s.w.wg - 1 ∧ s1.w.sem = s.w.sem) ∧
    (∀ i s1, deferRemove s i = some s1 →
      ∃ j, s.jobs[i]? = some j ∧ j.pc = .cancelDone ∧
        s1.w.running = mapDelete s.w.running j.key ∧ s1.w.wg = s.w.wg ∧
        s1.w.sem = s.w.sem) := by
  have hinv := inv_reachable hr
  have hn := toNat_of_reachable hr
  have h1 := running_le_registered hinv
  have h2 := registered_le_holding s.jobs
  have hu := hinv.units
  refine ⟨by unfold Worker.Running; omega, ?_, ?_, ?_⟩
  · intro i s1 h
    obtain ⟨j, hj, hpc, hbuf, hrun, hwg⟩ := deferRelease_pc h
    exact ⟨j, hj, hpc, by simp [Job.registeredNow, hpc], by simp [Job.counted, hpc], hbuf,
      hrun, hwg⟩
  · intro i s1 h
    obtain ⟨j, hj, hpc, hwg, -, hsem⟩ := deferDone_pc h
    exact ⟨j, hj, hpc, by simp [Job.registeredNow, hpc], hwg, hsem⟩
  · intro i s1 h
    exact deferRemove_pc h

theorem running_plus_units_le_witness :
    Reachable 2 twoJobs ∧ (twoJobs.w.Running : Int) + (twoJobs.w.sem.buf.length : Int) ≤ 2 :=
  ⟨reachable_twoJobs, (running_plus_units_le 2 twoJobs reachable_twoJobs).1⟩

/-- C28: in a reachable state, an admitted `Start` gives its job a context that is not
cancelled, whatever the state of the caller's context, and takes from the caller's
context its deadline only; in every later state that context is done exactly when its
cancel function has been called or the timer of its deadline has fired, whatever the
caller's context has become by then, and its cancel function has been called only if
`Stop` on its key, the loop of `Shutdown` or the deferred function of the job itself
has run; a step that takes the context of a job from not cancelled to cancelled is one
of these three; and a `Start` step, whatever the state of the context it is given,
leaves every job as it was. -/
theorem job_context_detached (n : Int) (s : Sys) (hr : Reachable n s) :
    (∀ (ctx : Ctx) (key : String) (now : Int) (pick : Nat) (k : String) (s1 : Sys),
      Start s ctx key now pick = some ((k, none), s1) →
      ∃ j, s1.jobs[s.jobs.length]? = some j ∧ j.key = k ∧ j.cancelled = false ∧
        j.deadline = jobDeadline ctx now ∧
        (∀ (ctx1 : Ctx) (pick1 : Nat) (k1 : String) (s2 : Sys),
          ctx1.deadline = ctx.deadline →
          Start s ctx1 key now pick1 = some ((k1, none), s2) → s2 = s1) ∧
        ∀ (evs : List Event) (s2 : Sys), run s1 evs = some s2 →
          ∃ j2, s2.jobs[s.jobs.length]? = some j2 ∧ j2.key = k ∧ j2.deadline = j.deadline ∧
            (∀ (caller : Ctx) (lateness : Nat) (t : Int),
              j2.ctxDone caller lateness t
                = (j2.cancelled || decide (j.deadline + lateness ≤ t))) ∧
            (∀ (caller caller1 : Ctx) (lateness : Nat) (t : Int),
              j2.ctxDone caller lateness t = j2.ctxDone caller1 lateness t) ∧
            (j2.cancelled = true →
              ∃ e ∈ evs, e = .stop k ∨ e = .shutdownCancel ∨ e = .deferCancel s.jobs.length)) ∧
    (∀ (e : Event) (s1 : Sys) (m : Nat) (j j1 : Job), step s e = some s1 →
      s.jobs[m]? = some j → s1.jobs[m]? = some j1 → j.cancelled = false →
      j1.cancelled = true →
      e = .stop j.key ∨ e = .shutdownCancel ∨ e = .deferCancel m) ∧
    (∀ (ctx : Ctx) (key : String) (now : Int) (pick : Nat) (s1 : Sys) (m : Nat) (j : Job),
      step s (.start ctx key now pick) = some s1 → s.jobs[m]? = some j →
      s1.jobs[m]? = some j) := by
  refine ⟨?_, ?_, ?_⟩
  · intro ctx key now pick k s1 h
    have hr1 : Reachable n s1 := reachable_Start hr h
    obtain ⟨-, -, rfl, v, rest, hbuf, rfl⟩ := Start_admits h
    have hj : (admitted s ctx k now rest).jobs[s.jobs.length]?
        = some { key := k, deadline := jobDeadline ctx now, cancelled := false,
                 panicking := false, pc := .executing } := by
      simp [admitted]
    refine ⟨_, hj, rfl, rfl, rfl, ?_, ?_⟩
    · intro ctx1 pick1 k1 s2 hd h2
      obtain ⟨-, -, -, v1, rest1, hbuf1, rfl⟩ := Start_admits h2
      rw [hbuf] at hbuf1
      simp only [List.cons.injEq] at hbuf1
      simp [admitted, jobDeadline, hd, hbuf1.2]
    · intro evs s2 hrun
      obtain ⟨j2, h2, hk2, hd2, -⟩ := run_job_stable hrun hj
      have hd3 : j2.deadline = jobDeadline ctx now := hd2
      refine ⟨j2, h2, hk2, hd2, ?_, ?_, ?_⟩
      · intro caller lateness t
        simp [Job.ctxDone, execParent, Parent.done, hd3]
      · intro caller caller1 lateness t
        simp [Job.ctxDone, execParent, Parent.done]
      · intro hc2
        exact run_cancelled (entries_reachable hr1) hrun hj h2 rfl hc2
  · intro e s1 m j j1 h hm hm1 hc hc1
    rcases step_cancelled h hm hm1 hc hc1 with ⟨k, rfl, hl⟩ | h2 | h3
    · obtain ⟨j0, hj0, -, hkey⟩ := entries_reachable hr (k, m) (mem_of_lookup hl)
      simp only at hj0 hkey
      rw [hm] at hj0
      cases hj0
      exact Or.inl (by rw [hkey])
    · exact Or.inr (Or.inl h2)
    · exact Or.inr (Or.inr h3)
  · intro ctx key now pick s1 m j h hm
    exact start_keeps_jobs h hm

theorem job_context_detached_witness :
    Reachable 1 fresh1 ∧ cancelledCtx.err = some .canceled ∧
    Start fresh1 cancelledCtx "k" 0 1 = some (("k", none), oneJob) ∧
    ∃ j, oneJob.jobs[fresh1.jobs.length]? = some j ∧ j.key = "k" ∧ j.cancelled = false ∧
      j.deadline = jobDeadline cancelledCtx 0 ∧
      (∀ (ctx1 : Ctx) (pick1 : Nat) (k1 : String) (s2 : Sys),
        ctx1.deadline = cancelledCtx.deadline →
        Start fresh1 ctx1 "k" 0 pick1 = some ((k1, none), s2) → s2 = oneJob) ∧
      ∀ (evs : List Event) (s2 : Sys), run oneJob evs = some s2 →
        ∃ j2, s2.jobs[fresh1.jobs.length]? = some j2 ∧ j2.key = "k" ∧
          j2.deadline = j.deadline ∧
          (∀ (caller : Ctx) (lateness : Nat) (t : Int),
            j2.ctxDone caller lateness t
              = (j2.cancelled || decide (j.deadline + lateness ≤ t))) ∧
          (∀ (caller caller1 : Ctx) (lateness : Nat) (t : Int),
            j2.ctxDone caller lateness t = j2.ctxDone caller1 lateness t) ∧
          (j2.cancelled = true →
            ∃ e ∈ evs, e = .stop "k" ∨ e = .shutdownCancel
              ∨ e = .deferCancel fresh1.jobs.length) :=
  ⟨reachable_fresh1, rfl, by decide,
    (job_context_detached 1 fresh1 reachable_fresh1).1 cancelledCtx "k" 0 1 "k" oneJob
      (by decide)⟩

/-- C29 as stated fails: on the worker of `New(1)`, after `wg.Add(1)` of a `Start` call
(line 114) and before its go statement (line 115), the wait-group counter is 1 and no
job goroutine is launched. -/
theorem wg_exceeds_launched :
    Reachable 1 addedNotLaunchedState ∧ addedNotLaunchedState.w.wg = 1 ∧
    addedNotLaunchedState.jobs.countP Job.launchedNotDone = 0 ∧
    (addedNotLaunchedState.w.wg
      ≠ (addedNotLaunchedState.jobs.countP Job.launchedNotDone : Int)) := by
  refine ⟨reachable_addedNotLaunched, rfl, by decide, by decide⟩

/-- C29 amended: in every reachable state the wait-group counter is the number of
admitted jobs for which `wg.Add(1)` has run and `wg.Done()` has not, that is, the
launched goroutines that have not called `wg.Done()` plus the `Start` calls between
`wg.Add(1)` and the go statement; `wg.Add(1)` adds exactly 1, once per job, and a job
calls `wg.Done()` once, after the deletion of its key; so the counter is never negative,
and at zero no entry of the running map belongs to a launched job. -/
theorem wg_counts (n : Int) (s : Sys) (hr : Reachable n s) :
    s.w.wg = (s.jobs.countP Job.counted : Int) ∧
    s.w.wg = (s.jobs.countP Job.launchedNotDone : Int)
      + (s.jobs.countP Job.addedNotLaunched : Int) ∧
    0 ≤ s.w.wg ∧
    (s.w.wg = 0 → ∀ e ∈ s.w.running, ∀ j : Job, s.jobs[e.2]? = some j →
      j.launchedNotDone = false ∧ j.pc = .registered) ∧
    (∀ i s1, startAdd s i = some s1 →
      ∃ j, s.jobs[i]? = some j ∧ j.pc = .registered ∧ s1.w.wg = s.w.wg + 1) ∧
    (∀ i s1, deferDone s i = some s1 →
      ∃ j, s.jobs[i]? = some j ∧ j.pc = .removed ∧ j.registeredNow = false ∧
        s1.w.wg = s.w.wg - 1) := by
  have hinv := inv_reachable hr
  have hw := hinv.wgCount
  have hsplit := countP_counted_split s.jobs
  refine ⟨hw, by omega, by omega, ?_, ?_, ?_⟩
  · intro h0 e he j hj
    obtain ⟨j0, hj0, hreg, -⟩ := entries_reachable hr e he
    rw [hj] at hj0
    cases hj0
    have hz : s.jobs.countP Job.counted = 0 := by omega
    have hnc : ¬ (j.counted = true) :=
      (List.countP_eq_zero.mp hz) j (List.getElem?_mem hj)
    cases hpc : j.pc <;>
      simp [Job.counted, Job.registeredNow, Job.launchedNotDone, hpc] at hnc hreg ⊢
  · intro i s1 h
    exact startAdd_pc h
  · intro i s1 h
    obtain ⟨j, hj, hpc, hwg, -, -⟩ := deferDone_pc h
    exact ⟨j, hj, hpc, by simp [Job.registeredNow, hpc], hwg⟩

theorem wg_counts_witness :
    Reachable 2 twoJobs ∧ twoJobs.w.wg = 2 ∧
    twoJobs.w.wg = (twoJobs.jobs.countP Job.launchedNotDone : Int)
      + (twoJobs.jobs.countP Job.addedNotLaunched : Int) ∧ 0 ≤ twoJobs.w.wg :=
  ⟨reachable_twoJobs, rfl, (wg_counts 2 twoJobs reachable_twoJobs).2.1,
    (wg_counts 2 twoJobs reachable_twoJobs).2.2.1⟩

end worker

/-! # The other packages: the theorems -/

namespace auth

theorem GetClaims_eq_zero (ctx : Context) : GetClaims ctx = Claims.zero := by
  unfold GetClaims
  cases h : assertClaims (ctx.Value key) with
  | mk v ok =>
    cases ok with
    | true => rfl
    | false =>
      have hv : v = Claims.zero := by
        unfold assertClaims at h
        split at h
        · simp at h
        · simp only [Prod.mk.injEq] at h
          exact h.1.symm
      simp [hv]

/-- C21, the code at the failing input: for the claims of an administrator stored in
the empty context, `GetClaims(SetClaims(ctx, c))` returns `Claims{}` and not `c`,
although `c` is what the context holds under `key`; and so for every context and every
claims, because the test after the type assertion is `!ok`. -/
theorem GetClaims_SetClaims_zero :
    GetClaims (SetClaims [] adminClaims) = Claims.zero ∧
    GetClaims (SetClaims [] adminClaims) ≠ adminClaims ∧
    (SetClaims [] adminClaims).Value key = some (.claims adminClaims) ∧
    storedClaims (SetClaims [] adminClaims) = adminClaims ∧
    ∀ (ctx : Context) (c : Claims), GetClaims (SetClaims ctx c) = Claims.zero :=
  ⟨by decide, by decide, by decide, by decide, fun ctx c => GetClaims_eq_zero _⟩

end auth

namespace web

theorem nestedHandler_append {Handler : Type} (a b : List (Middleware Handler))
    (h : Handler) : nestedHandler (a ++ b) h = nestedHandler a (nestedHandler b h) := by
  induction a with
  | nil => rfl
  | cons m rest ih =>
    cases m with
    | none => simpa [nestedHandler] using ih
    | some f => simp [nestedHandler, ih]

theorem wrapLoop_eq {Handler : Type} (mw : List (Middleware Handler)) (k : Nat)
    (h : Handler) : wrapLoop mw k h = nestedHandler (mw.take k) h := by
  induction k generalizing h with
  | zero => simp [wrapLoop, nestedHandler]
  | succ k ih =>
    rw [wrapLoop, List.take_succ, nestedHandler_append]
    cases hk : mw[k]? with
    | none => simp [nestedHandler, ih]
    | some m =>
      cases m with
      | none => simp [nestedHandler, ih]
      | some f => simp [nestedHandler, ih]

theorem wrapMiddleware_eq_nested {Handler : Type} (mw : List (Middleware Handler))
    (h : Handler) : wrapMiddleware mw h = nestedHandler mw h := by
  simp [wrapMiddleware, wrapLoop_eq]

theorem nestedHandler_all_nil {Handler : Type} (pre : List (Middleware Handler))
    (hpre : ∀ m ∈ pre, m = none) (h : Handler) : nestedHandler pre h = h := by
  induction pre with
  | nil => rfl
  | cons m rest ih =>
    have hm : m = none := hpre m (List.mem_cons_self _ _)
    subst hm
    simpa [nestedHandler] using ih (fun x hx => hpre x (List.mem_cons_of_mem _ hx))

/-- C22: `wrapMiddleware(mw, h)` is `m0(m1(...(mk(h))...))` with the nil entries
skipped; a non-nil first entry, and more generally the first non-nil entry, is the
outermost wrapper, applied to the handler the rest of the slice builds; a nil entry is
skipped; for an empty slice and for a slice of nil entries the result is `h`. -/
theorem wrapMiddleware_nested {Handler : Type} (mw : List (Middleware Handler))
    (h : Handler) :
    wrapMiddleware mw h = nestedHandler mw h ∧
    wrapMiddleware ([] : List (Middleware Handler)) h = h ∧
    (∀ (m : Handler → Handler) (rest : List (Middleware Handler)),
      wrapMiddleware (some m :: rest) h = m (wrapMiddleware rest h)) ∧
    (∀ rest : List (Middleware Handler),
      wrapMiddleware (none :: rest) h = wrapMiddleware rest h) ∧
    (∀ (pre rest : List (Middleware Handler)) (m : Handler → Handler),
      (∀ x ∈ pre, x = none) →
      wrapMiddleware (pre ++ some m :: rest) h = m (wrapMiddleware rest h)) ∧
    ((∀ x ∈ mw, x = none) → wrapMiddleware mw h = h) := by
  refine ⟨wrapMiddleware_eq_nested mw h, rfl, ?_, ?_, ?_, ?_⟩
  · intro m rest
    simp [wrapMiddleware_eq_nested, nestedHandler]
  · intro rest
    simp [wrapMiddleware_eq_nested, nestedHandler]
  · intro pre rest m hpre
    rw [wrapMiddleware_eq_nested, nestedHandler_append, nestedHandler_all_nil pre hpre,
      wrapMiddleware_eq_nested]
    rfl
  · intro hall
    rw [wrapMiddleware_eq_nested, nestedHandler_all_nil mw hall]

theorem wrapMiddleware_nested_witness :
    wrapMiddleware [none, tracing "m0", none, tracing "m1"] (fun _ => ["h"]) "request"
      = ["m0", "m1", "h"] ∧
    wrapMiddleware [none, (none : Middleware TraceHandler)] (fun _ => ["h"]) = fun _ => ["h"] :=
  ⟨by decide,
    (wrapMiddleware_nested [none, (none : Middleware TraceHandler)] (fun _ => ["h"])).2.2.2.2.2
      (by simp)⟩

end web

namespace product

/-- C23: when `validate.Check` accepts `up` and the update of the repository succeeds,
`Core.Update` returns without error the product whose `Name`, `Cost` and `Quantity` are
the values `up` points to where its field is not nil and those of `prd` where it is
nil, whose `ID`, `Sold`, `Revenue`, `UserID` and `DateCreated` are those of `prd`, and
whose `DateUpdated` is `time.Now()`. -/
theorem Update_fields (check : UpdateProduct → Option worker.GoError)
    (repoUpdate : Product → Option worker.GoError) (now : Int) (prd : Product)
    (up : UpdateProduct) (hcheck : check up = none)
    (hrepo : repoUpdate
      { ID := prd.ID, Name := up.Name.getD prd.Name, Cost := up.Cost.getD prd.Cost,
        Quantity := up.Quantity.getD prd.Quantity, Sold := prd.Sold,
        Revenue := prd.Revenue, UserID := prd.UserID, DateCreated := prd.DateCreated,
        DateUpdated := now } = none) :
    ∃ p, Update check repoUpdate now prd up = (p, none) ∧
      (∀ v, up.Name = some v → p.Name = v) ∧ (up.Name = none → p.Name = prd.Name) ∧
      (∀ v, up.Cost = some v → p.Cost = v) ∧ (up.Cost = none → p.Cost = prd.Cost) ∧
      (∀ v, up.Quantity = some v → p.Quantity = v) ∧
      (up.Quantity = none → p.Quantity = prd.Quantity) ∧
      p.ID = prd.ID ∧ p.Sold = prd.Sold ∧ p.Revenue = prd.Revenue ∧
      p.UserID = prd.UserID ∧ p.DateCreated = prd.DateCreated ∧ p.DateUpdated = now := by
  obtain ⟨n, c, q⟩ := up
  cases n <;> cases c <;> cases q <;>
    simp_all [Update]

theorem Update_fields_witness :
    ∃ p, Update (fun _ => none) (fun _ => none) 3000 sample
        { Name := some "Video Games", Cost := none, Quantity := some 3 } = (p, none) ∧
      p.Name = "Video Games" ∧ p.Cost = 50 ∧ p.Quantity = 3 ∧ p.Sold = 7 ∧
      p.DateUpdated = 3000 := by
  obtain ⟨p, hp, h1, -, -, h4, h5, -, -, h8, -, -, -, h12⟩ :=
    Update_fields (fun _ => none) (fun _ => none) 3000 sample
      { Name := some "Video Games", Cost := none, Quantity := some 3 } rfl rfl
  exact ⟨p, hp, h1 _ rfl, h4 rfl, h5 _ rfl, h8, h12⟩

end product

namespace commands

theorem loadKey_bytes {fileName : String} {e : DirEntry} {kid : String}
    {bytes : List UInt8} (h : loadKey fileName e = some (kid, bytes)) :
    bytes = e.content.take pemLimit := by
  unfold loadKey at h
  split at h
  · simp at h
  · split at h
    · simp at h
    · simp only [Option.some.injEq, Prod.mk.injEq] at h
      exact h.2.symm

/-- C24, the code at the failing input: for a key file "big.pem" of 1,049,600 bytes
`loadKeys` passes all 1,049,600 bytes to `AddPrivateKey`, and not the 1,048,576 bytes
that are the smaller of the file size and 1 MB; for every file it passes the smaller of
the file size and `1024*1025` = 1,049,600 bytes. -/
theorem loadKey_limit :
    bigPem.content.length = 1049600 ∧
    (∃ bytes, loadKey "keys/big.pem" bigPem = some ("big", bytes) ∧ bytes.length = 1049600) ∧
    min bigPem.content.length (1024 * 1024) = 1048576 ∧
    ∀ (fileName : String) (e : DirEntry) (kid : String) (bytes : List UInt8),
      loadKey fileName e = some (kid, bytes) →
      bytes.length = min e.content.length 1049600 := by
  have hlen : bigPem.content.length = 1049600 := by
    show (List.replicate pemLimit (0 : UInt8)).length = 1049600
    rw [List.length_replicate]
    rfl
  refine ⟨hlen, ?_, ?_, ?_⟩
  · refine ⟨readAllLimited bigPem.content pemLimit, ?_, ?_⟩
    · have h1 : (pathExt "keys/big.pem" != ".pem") = false := by decide
      have h2 : trimSuffix bigPem.name ".pem" = "big" := by decide
      have h3 : bigPem.isDir = false := rfl
      simp [loadKey, h1, h2, h3]
    · simp [readAllLimited, hlen, pemLimit]
  · rw [hlen]; decide
  · intro fileName e kid bytes h
    rw [loadKey_bytes h]
    simp [pemLimit, Nat.min_comm]

end commands

namespace productdb

theorem lookup_none_iff (m : List (String × String)) (k : String) :
    m.lookup k = none ↔ k ∉ m.map Prod.fst := by
  induction m with
  | nil => simp
  | cons e m ih =>
    obtain ⟨a, b⟩ := e
    by_cases h : k = a
    · subst h
      simp [List.lookup_cons]
    · have h1 : (k == a) = false := by simpa using h
      simp only [List.lookup_cons, h1, List.map_cons, List.mem_cons, not_or]
      rw [ih]
      exact ⟨fun hx => ⟨h, hx⟩, fun hx => hx.2⟩

theorem mem_values_of_lookup {m : List (String × String)} {k c : String}
    (h : m.lookup k = some c) : c ∈ m.map Prod.snd := by
  induction m with
  | nil => simp at h
  | cons e m ih =>
    obtain ⟨a, b⟩ := e
    by_cases hk : k = a
    · subst hk
      simp only [List.lookup_cons, beq_self_eq_true, Option.some.injEq] at h
      subst h
      simp
    · have h1 : (k == a) = false := by simpa using hk
      simp only [List.lookup_cons, h1] at h
      exact List.mem_cons_of_mem _ (ih h)

end productdb

namespace productdb

theorem productdb_orderByClause_cases (validate : String → String → Option worker.GoError)
    (quote : String → String) (orderBy : order.By)
    (hv : validate orderBy.Field orderBy.Direction = none) :
    ((orderByClause validate quote orderBy).2 = none ↔
      orderBy.Field ∈ orderByFields.map Prod.fst) ∧
    (∀ col, orderByFields.lookup orderBy.Field = some col →
      orderByClause validate quote orderBy = (col ++ " " ++ orderBy.Direction, none)) ∧
    (orderBy.Field ∉ orderByFields.map Prod.fst →
      (orderByClause validate quote orderBy).1 = "" ∧
      (orderByClause validate quote orderBy).2 ≠ none) ∧
    ((orderByClause validate quote orderBy).2 = none →
      ∃ col ∈ orderByFields.map Prod.snd,
        (orderByClause validate quote orderBy).1 = col ++ " " ++ orderBy.Direction) := by
  cases hl : orderByFields.lookup orderBy.Field with
  | none =>
    have hnot := (lookup_none_iff _ _).mp hl
    have hres : orderByClause validate quote orderBy
        = ("", some (.errorsNew ("field " ++ quote orderBy.Field ++ " does not exists"))) := by
      simp [orderByClause, hv, hl]
    rw [hres]
    exact ⟨⟨fun h => by simp at h, fun h => absurd h hnot⟩, fun col hc => by simp at hc,
      fun _ => ⟨rfl, by simp⟩, fun h => by simp at h⟩
  | some col =>
    have hin : orderBy.Field ∈ orderByFields.map Prod.fst := by
      by_contra hcon
      rw [(lookup_none_iff _ _).mpr hcon] at hl
      simp at hl
    have hres : orderByClause validate quote orderBy
        = (col ++ " " ++ orderBy.Direction, none) := by
      simp [orderByClause, hv, hl]
    rw [hres]
    refine ⟨⟨fun _ => hin, fun _ => rfl⟩, fun c hc => ?_, fun h => absurd hin h,
      fun _ => ⟨col, mem_values_of_lookup hl, rfl⟩⟩
    simp only [Option.some.injEq] at hc
    rw [hc]

end productdb

namespace userdb

theorem userdb_orderByClause_cases (user : UserOrderFields)
    (validate : String → String → Option worker.GoError)
    (quote : String → String) (orderBy : order.By)
    (hv : validate orderBy.Field orderBy.Direction = none) :
    ((orderByClause user validate quote orderBy).2 = none ↔
      orderBy.Field ∈ (orderByFields user).map Prod.fst) ∧
    (∀ col, (orderByFields user).lookup orderBy.Field = some col →
      orderByClause user validate quote orderBy
        = (col ++ " " ++ orderBy.Direction, none)) ∧
    (orderBy.Field ∉ (orderByFields user).map Prod.fst →
      (orderByClause user validate quote orderBy).1 = "" ∧
      (orderByClause user validate quote orderBy).2 ≠ none) ∧
    ((orderByClause user validate quote orderBy).2 = none →
      ∃ col ∈ (orderByFields user).map Prod.snd,
        (orderByClause user validate quote orderBy).1
          = col ++ " " ++ orderBy.Direction) := by
  cases hl : (orderByFields user).lookup orderBy.Field with
  | none =>
    have hnot := (productdb.lookup_none_iff _ _).mp hl
    have hres : orderByClause user validate quote orderBy
        = ("", some (.errorsNew ("field " ++ quote orderBy.Field ++ " does not exist"))) := by
      simp [orderByClause, hv, hl]
    rw [hres]
    exact ⟨⟨fun h => by simp at h, fun h => absurd h hnot⟩, fun col hc => by simp at hc,
      fun _ => ⟨rfl, by simp⟩, fun h => by simp at h⟩
  | some col =>
    have hin : orderBy.Field ∈ (orderByFields user).map Prod.fst := by
      by_contra hcon
      rw [(productdb.lookup_none_iff _ _).mpr hcon] at hl
      simp at hl
    have hres : orderByClause user validate quote orderBy
        = (col ++ " " ++ orderBy.Direction, none) := by
      simp [orderByClause, hv, hl]
    rw [hres]
    refine ⟨⟨fun _ => hin, fun _ => rfl⟩, fun c hc => ?_, fun h => absurd hin h,
      fun _ => ⟨col, productdb.mem_values_of_lookup hl, rfl⟩⟩
    simp only [Option.some.injEq] at hc
    rw [hc]

/-- C25: for an `order.By` that `order.Validate` accepts, `orderByClause` of `productdb`
and of `userdb` returns a nil error exactly when the field is a key of the map
`orderByFields` of its package, and then returns the column the map gives, one space
and the direction; for any other field it returns the empty string and an error; so
the column of a returned clause is one of the values of the map, which for
`productdb` are the seven names written in the source. -/
theorem orderByClause_columns (user : UserOrderFields)
    (validate : String → String → Option worker.GoError) (quote : String → String)
    (orderBy : order.By) (hv : validate orderBy.Field orderBy.Direction = none) :
    (((productdb.orderByClause validate quote orderBy).2 = none ↔
        orderBy.Field ∈ productdb.orderByFields.map Prod.fst) ∧
      (∀ col, productdb.orderByFields.lookup orderBy.Field = some col →
        productdb.orderByClause validate quote orderBy
          = (col ++ " " ++ orderBy.Direction, none)) ∧
      (orderBy.Field ∉ productdb.orderByFields.map Prod.fst →
        (productdb.orderByClause validate quote orderBy).1 = "" ∧
        (productdb.orderByClause validate quote orderBy).2 ≠ none) ∧
      ((productdb.orderByClause validate quote orderBy).2 = none →
        ∃ col ∈ ["product_id", "name", "cost", "quantity", "sold", "revenue", "user_id"],
          (productdb.orderByClause validate quote orderBy).1
            = col ++ " " ++ orderBy.Direction)) ∧
    (((orderByClause user validate quote orderBy).2 = none ↔
        orderBy.Field ∈ (orderByFields user).map Prod.fst) ∧
      (∀ col, (orderByFields user).lookup orderBy.Field = some col →
        orderByClause user validate quote orderBy
          = (col ++ " " ++ orderBy.Direction, none)) ∧
      (orderBy.Field ∉ (orderByFields user).map Prod.fst →
        (orderByClause user validate quote orderBy).1 = "" ∧
        (orderByClause user validate quote orderBy).2 ≠ none) ∧
      ((orderByClause user validate quote orderBy).2 = none →
        ∃ col ∈ ["user_id", "name", "email", "roles", "enabled"],
          (orderByClause user validate quote orderBy).1
            = col ++ " " ++ orderBy.Direction)) :=
  ⟨productdb.productdb_orderByClause_cases validate quote orderBy hv,
    userdb_orderByClause_cases user validate quote orderBy hv⟩

theorem orderByClause_columns_witness :
    productdb.orderByClause (fun _ _ => none) (fun s => s) { Field := "name", Direction := "ASC" }
      = ("name ASC", none) ∧
    orderByClause sampleFields (fun _ _ => none) (fun s => s)
      { Field := "email", Direction := "DESC" } = ("email DESC", none) ∧
    (productdb.orderByClause (fun _ _ => none) (fun s => s)
      { Field := "name; DROP TABLE products", Direction := "ASC" }).1 = "" :=
  ⟨(orderByClause_columns sampleFields (fun _ _ => none) (fun s => s)
      { Field := "name", Direction := "ASC" } rfl).1.2.1 "name" (by decide),
    (orderByClause_columns sampleFields (fun _ _ => none) (fun s => s)
      { Field := "email", Direction := "DESC" } rfl).2.2.1 "email" (by decide),
    ((orderByClause_columns sampleFields (fun _ _ => none) (fun s => s)
      { Field := "name; DROP TABLE products", Direction := "ASC" } rfl).1.2.2.1
        (by decide)).1⟩

end userdb
